import Mathlib

/-!
# Apollo-guided execution policies of RAJA

A shallow embedding of the adaptive dispatch code of

* `include/RAJA/policy/apollo/forall.hpp` (OpenMP variant), and
* `include/RAJA/policy/apollo_cuda/forall.hpp` (CUDA variant, with the constants of
  `include/RAJA/policy/apollo_cuda/policy.hpp`),

and of the register class of `include/RAJA/policy/register/avx2/avx2_int32.hpp`,
followed by theorems about the embedded functions.

Modelling conventions.

* C++ `int` values are `Int`; `size_t` and `unsigned int` values are `Nat`
  with an explicit `% 2 ^ w` wherever the source converts or can wrap.
* The Apollo library (`Apollo`, `Apollo::Region`) and the OpenMP / CUDA
  runtimes are external to the repository.  Every call into them is recorded
  as an `Event` in a chronological trace; the value returned by
  `Apollo::Region::getPolicyIndex` is a parameter of the embedded function.
* Function-local `static` variables are fields of a `Statics` record that is
  threaded through successive invocations of one call site.
* In `forall_impl` and `apolloPolicySwitcher` loop bodies and executors return
  normally; `forall_implExc` and `apolloPolicySwitcherExc` repeat them with
  propagating failures made explicit.
-/

namespace RAJA
namespace policy
namespace apollo

/-- The `schedule(...)` clause of the OpenMP worksharing loop run by the four
`forall_impl` overloads for `apollo_omp_auto`, `apollo_omp_static`,
`apollo_omp_dynamic` and `apollo_omp_guided`. -/
inductive Schedule where
  | auto
  | static
  | dynamic
  | guided
  deriving DecidableEq, Repr

/-- Observable events of the OpenMP variant, in the order the code performs
them.  Feature values are `double`s in the source; every value this code
reports is the exact conversion of an integer (`1.0`, `(double) numThreads`,
`(double) std::distance(...)`) and is recorded as that integer. -/
inductive Event (α : Type) where
  /-- The call `new Apollo::Region(numFeatures, code_location, policyCount)` -/
  | regionCreate (numFeatures : Int) (policyCount : Int)
  /-- The call `apolloRegion->begin()` -/
  | regionBegin
  /-- The call `apolloRegion->setFeature(v)` -/
  | setFeature (v : Int)
  /-- The call `apolloRegion->getPolicyIndex()`, with the value it returned -/
  | getPolicyIndex (response : Int)
  /-- One call of an OpenMP executor `forall_impl(sched-policy, num_threads, iter, loop_body)`:
  a `parallel num_threads(num_threads)` region whose `for schedule(sched)` loop
  applies the body to `begin_it[i]` for every `i < distance_it`. -/
  | ompParallelFor (sched : Schedule) (num_threads : Int) (iter : List α)
  /-- One application `body(begin_it[i])` made directly by the calling thread. -/
  | bodyCall (x : α)
  /-- The call `apolloRegion->end()` -/
  | regionEnd
  deriving DecidableEq, Repr

/-- The fields of the `Apollo` singleton that the code reads or writes. -/
structure Apollo where
  numThreads : Int
  ompDefaultNumThreads : Int
  numThreadsPerProcCap : Int
  deriving DecidableEq, Repr

/-- Process state outside the call site: the `Apollo` singleton and the trace
of external calls made so far (oldest first). -/
structure Machine (α : Type) where
  apollo : Apollo
  trace : List (Event α)
  deriving DecidableEq, Repr

variable {α : Type}

/-- Append one event to the trace. -/
def Machine.emit (m : Machine α) (e : Event α) : Machine α :=
  { m with trace := m.trace ++ [e] }

/-- The assignment `apollo->numThreads = n`. -/
def Machine.setNumThreads (m : Machine α) (n : Int) : Machine α :=
  { m with apollo := { m.apollo with numThreads := n } }

/-- The executor `forall_impl(const RAJA::apollo_omp_auto&, num_threads, iter, loop_body)`. -/
def forall_impl_omp_auto (num_threads : Int) (iter : List α) (m : Machine α) : Machine α :=
  m.emit (.ompParallelFor .auto num_threads iter)

/-- The executor `forall_impl(const RAJA::apollo_omp_static&, num_threads, iter, loop_body)`. -/
def forall_impl_omp_static (num_threads : Int) (iter : List α) (m : Machine α) : Machine α :=
  m.emit (.ompParallelFor .static num_threads iter)

/-- The executor `forall_impl(const RAJA::apollo_omp_dynamic&, num_threads, iter, loop_body)`. -/
def forall_impl_omp_dynamic (num_threads : Int) (iter : List α) (m : Machine α) : Machine α :=
  m.emit (.ompParallelFor .dynamic num_threads iter)

/-- The executor `forall_impl(const RAJA::apollo_omp_guided&, num_threads, iter, loop_body)`. -/
def forall_impl_omp_guided (num_threads : Int) (iter : List α) (m : Machine α) : Machine α :=
  m.emit (.ompParallelFor .guided num_threads iter)

/-- The serial loop of `case 1`:
`for (i = 0; i < distance_it; ++i) body.get_priv()(begin_it[i]);`. -/
def serialLoop : List α → Machine α → Machine α
  | [], m => m
  | x :: xs, m => serialLoop xs (m.emit (.bodyCall x))

/-- The first `switch (policy)` of `apolloPolicySwitcher`.  The Boolean is
`true` exactly when the `case` executed `return` (only `case 1` does); a value
of `policy` without a `case` label falls through the `switch` unchanged. -/
def firstSwitch (policy : Int) (tc : Fin 6 → Int) (iter : List α) (m : Machine α) :
    Machine α × Bool :=
  match policy with
  | 0 => (m.setNumThreads m.apollo.ompDefaultNumThreads, false)
  | 1 => (serialLoop iter ((m.emit (.setFeature 1)).setNumThreads 1), true)
  | 2 => (m.setNumThreads (tc 0), false)
  | 3 => (m.setNumThreads (tc 1), false)
  | 4 => (m.setNumThreads (tc 2), false)
  | 5 => (m.setNumThreads (tc 3), false)
  | 6 => (m.setNumThreads (tc 4), false)
  | 7 => (m.setNumThreads (tc 5), false)
  | 8 => (m.setNumThreads (tc 0), false)
  | 9 => (m.setNumThreads (tc 1), false)
  | 10 => (m.setNumThreads (tc 2), false)
  | 11 => (m.setNumThreads (tc 3), false)
  | 12 => (m.setNumThreads (tc 4), false)
  | 13 => (m.setNumThreads (tc 5), false)
  | 14 => (m.setNumThreads (tc 0), false)
  | 15 => (m.setNumThreads (tc 1), false)
  | 16 => (m.setNumThreads (tc 2), false)
  | 17 => (m.setNumThreads (tc 3), false)
  | 18 => (m.setNumThreads (tc 4), false)
  | 19 => (m.setNumThreads (tc 5), false)
  | _ => (m, false)

/-- The second `switch (policy)` of `apolloPolicySwitcher`: the executor call. -/
def secondSwitch (policy : Int) (iter : List α) (m : Machine α) : Machine α :=
  match policy with
  | 0 => forall_impl_omp_auto m.apollo.numThreads iter m
  | 1 => m
  | 2 | 3 | 4 | 5 | 6 | 7 => forall_impl_omp_static m.apollo.numThreads iter m
  | 8 | 9 | 10 | 11 | 12 | 13 => forall_impl_omp_dynamic m.apollo.numThreads iter m
  | 14 | 15 | 16 | 17 | 18 | 19 => forall_impl_omp_guided m.apollo.numThreads iter m
  | _ => m

/-- The function `apolloPolicySwitcher(policy, tc, iter, loop_body, apolloRegion)`. -/
def apolloPolicySwitcher (policy : Int) (tc : Fin 6 → Int) (iter : List α) (m : Machine α) :
    Machine α :=
  let r := firstSwitch policy tc iter m
  if r.2 then r.1
  else
    let m1 := r.1
    let m2 := m1.emit (.setFeature m1.apollo.numThreads)
    secondSwitch policy iter m2

/-- The constant `POLICY_COUNT`. -/
def POLICY_COUNT : Int := 20

/-- The conversion `(int) d` of a `double` to `int`: truncation toward zero.
The `double`s converted in this file are products of an `int` with `0.25`,
`0.50` or `0.75`; each such product is exactly representable (at most 34
significant bits), so the `double` is the rational number itself. -/
def toInt (d : ℚ) : Int :=
  if 0 ≤ d then ⌊d⌋ else ⌈d⌉

/-- The content of the array `th_count_opts` after the six assignments made
when the region is created, as a function of `apollo->numThreadsPerProcCap`. -/
def th_count_opts (numThreadsPerProcCap : Int) : Fin 6 → Int :=
  ![2,
    min 4 (max 2 (toInt ((numThreadsPerProcCap : ℚ) * 0.25))),
    min 8 (max 2 (toInt ((numThreadsPerProcCap : ℚ) * 0.50))),
    min 16 (max 2 (toInt ((numThreadsPerProcCap : ℚ) * 0.75))),
    min 32 (max 2 numThreadsPerProcCap),
    max 2 numThreadsPerProcCap]

/-- What the code passes to the constructor of `Apollo::Region`
(the code-location string apart). -/
structure Region where
  numFeatures : Int
  policyCount : Int
  deriving DecidableEq, Repr

/-- The function-local `static` variables of `forall_impl(const apollo_exec &, ...)`;
`apolloRegion = none` is the null pointer. -/
structure Statics where
  apolloRegion : Option Region
  policy_index : Int
  th_count_opts : Fin 6 → Int

/-- The initial values of the `static` variables:
`apolloRegion = nullptr`, `policy_index = 0`, `th_count_opts = {2, 2, 2, 2, 2, 2}`. -/
def Statics.initial : Statics :=
  { apolloRegion := none, policy_index := 0, th_count_opts := ![2, 2, 2, 2, 2, 2] }

/-- The first-use block `if (apolloRegion == nullptr) { ... }` of `forall_impl`. -/
def firstUse (s : Statics) (m : Machine α) : Statics × Machine α :=
  match s.apolloRegion with
  | none =>
    ({ s with
        apolloRegion := some { numFeatures := 1, policyCount := POLICY_COUNT }
        th_count_opts := apollo.th_count_opts m.apollo.numThreadsPerProcCap },
     m.emit (.regionCreate 1 POLICY_COUNT))
  | some _ => (s, m)

/-- The function `forall_impl(const apollo_exec &, iter, loop_body)`; `response` is
the value returned by `apolloRegion->getPolicyIndex()` in this invocation. -/
def forall_impl (iter : List α) (response : Int) (s : Statics) (m : Machine α) :
    Statics × Machine α :=
  let s1 := (firstUse s m).1
  let m1 := (firstUse s m).2
  let num_elements : Int := iter.length
  let m2 := m1.emit .regionBegin
  let m3 := m2.emit (.setFeature num_elements)
  let m4 := m3.emit (.getPolicyIndex response)
  let s2 := { s1 with policy_index := response }
  let m5 := apolloPolicySwitcher s2.policy_index s2.th_count_opts iter m4
  (s2, m5.emit .regionEnd)

/-- The spec's `clamp(lo, hi, x) = min(hi, max(lo, x))`. -/
def specClamp (lo hi x : Int) : Int :=
  min hi (max lo x)

/-- The CPU tier table in the spec's words:
`{2, clamp(2,4,⌈0.25C⌉), clamp(2,8,⌈0.50C⌉), clamp(2,16,⌈0.75C⌉), clamp(2,32,C), C}`. -/
def specCpuTiers (C : Int) : Fin 6 → Int :=
  ![2,
    specClamp 2 4 ⌈(0.25 : ℚ) * C⌉,
    specClamp 2 8 ⌈(0.50 : ℚ) * C⌉,
    specClamp 2 16 ⌈(0.75 : ℚ) * C⌉,
    specClamp 2 32 C,
    C]

/-- The CPU tier table with the floor function in place of the ceiling:
`{2, clamp(2,4,⌊0.25C⌋), clamp(2,8,⌊0.50C⌋), clamp(2,16,⌊0.75C⌋), clamp(2,32,C), C}`. -/
def floorCpuTiers (C : Int) : Fin 6 → Int :=
  ![2,
    specClamp 2 4 ⌊(0.25 : ℚ) * C⌋,
    specClamp 2 8 ⌊(0.50 : ℚ) * C⌋,
    specClamp 2 16 ⌊(0.75 : ℚ) * C⌋,
    specClamp 2 32 C,
    C]

/-- The spec's ActionSpace entry for CPU contexts:
`{Default, Sequential, Parallel(scheduleKind, tierIndex)}`. -/
inductive Action where
  | Default
  | Sequential
  | Parallel (scheduleKind : Schedule) (tierIndex : Fin 6)
  deriving DecidableEq, Repr

/-- The positional index-to-action mapping in the spec's words: index `0` is
`Default`, index `1` is `Sequential`, and an index `p` in `2..19` is
`Parallel(kind, (p - 2) mod 6)` with `kind` `Static` for `2..7`, `Dynamic` for
`8..13` and `Guided` for `14..19`; an index outside `[0, 20)` has no entry. -/
def specResolve (p : Int) : Option Action :=
  if p = 0 then some .Default
  else if p = 1 then some .Sequential
  else if 2 ≤ p ∧ p ≤ 19 then
    some (.Parallel (if p ≤ 7 then .static else if p ≤ 13 then .dynamic else .guided)
      (Fin.ofNat ((p - 2) % 6).toNat))
  else none

/-- What each action of the spec's dispatcher does on this code's state:
`Default` sets the thread count to `apollo->ompDefaultNumThreads`, reports it
and calls the `auto` executor; `Sequential` reports `1`, sets the thread count
to `1` and applies the body to the range in order on the calling thread;
`Parallel(kind, j)` sets the thread count to `tc[j]`, reports it and calls the
executor of that schedule kind. -/
def specDispatch (a : Action) (tc : Fin 6 → Int) (iter : List α) (m : Machine α) : Machine α :=
  match a with
  | .Default =>
    { apollo := { m.apollo with numThreads := m.apollo.ompDefaultNumThreads }
      trace := m.trace ++ [.setFeature m.apollo.ompDefaultNumThreads,
                           .ompParallelFor .auto m.apollo.ompDefaultNumThreads iter] }
  | .Sequential =>
    { apollo := { m.apollo with numThreads := 1 }
      trace := m.trace ++ .setFeature 1 :: iter.map .bodyCall }
  | .Parallel kind j =>
    { apollo := { m.apollo with numThreads := tc j }
      trace := m.trace ++ [.setFeature (tc j), .ompParallelFor kind (tc j) iter] }

/-- The executor calls recorded in a trace, oldest first, each with its
schedule kind, thread count and range. -/
def executorCalls : List (Event α) → List (Schedule × Int × List α)
  | [] => []
  | .ompParallelFor k n it :: t => (k, n, it) :: executorCalls t
  | _ :: t => executorCalls t

/-- The arguments of the loop-body applications made directly by the calling
thread, oldest first. -/
def bodyCalls : List (Event α) → List α
  | [] => []
  | .bodyCall x :: t => x :: bodyCalls t
  | _ :: t => bodyCalls t

/-- The feature values reported in a trace, oldest first. -/
def featureReports : List (Event α) → List Int
  | [] => []
  | .setFeature v :: t => v :: featureReports t
  | _ :: t => featureReports t

/-- The number of `new Apollo::Region(...)` calls in a trace. -/
def regionCreates : List (Event α) → Nat
  | [] => 0
  | .regionCreate _ _ :: t => regionCreates t + 1
  | _ :: t => regionCreates t

/-- The number of `apolloRegion->begin()` calls in a trace. -/
def regionBegins : List (Event α) → Nat
  | [] => 0
  | .regionBegin :: t => regionBegins t + 1
  | _ :: t => regionBegins t

/-- The number of `apolloRegion->end()` calls in a trace. -/
def regionEnds : List (Event α) → Nat
  | [] => 0
  | .regionEnd :: t => regionEnds t + 1
  | _ :: t => regionEnds t

/-- The events an invocation appended: those of `m'.trace` after the first
`m.trace.length` ones. -/
def appended (m m' : Machine α) : List (Event α) :=
  m'.trace.drop m.trace.length

/-- One invocation of a sequence made at one call site: what the rest of the
process did to the `Apollo` singleton since the previous invocation (for
instance a new value of `numThreadsPerProcCap`), the range, and the oracle's
response. -/
structure Invocation (α : Type) where
  env : Apollo → Apollo
  iter : List α
  response : Int

/-- A sequence of invocations of `forall_impl(const apollo_exec &, ...)` at one
call site, the `static` variables carried from each invocation to the next. -/
def invocations : List (Invocation α) → Statics × Machine α → Statics × Machine α
  | [], sm => sm
  | c :: cs, sm =>
    invocations cs (forall_impl c.iter c.response sm.1 { sm.2 with apollo := c.env sm.2.apollo })

/-- A sequence of calls of `apolloPolicySwitcher`, each with its own policy
index, tier table and range. -/
def switcherCalls : List (Int × (Fin 6 → Int) × List α) → Machine α → Machine α
  | [], m => m
  | c :: cs, m => switcherCalls cs (apolloPolicySwitcher c.1 c.2.1 c.2.2 m)

/-! ### Propagating failures

C++ exceptions are implicit in the source: a loop body or an executor that
raises leaves every enclosing function at once.  The definitions below repeat
`apolloPolicySwitcher` and `forall_impl` with that control flow made explicit. -/

/-- How a call hands control back: by returning, or by an exception that
propagates to its caller. -/
inductive Exit where
  | returned
  | propagated
  deriving DecidableEq, Repr

/-- The serial loop of `case 1` with a body that may raise: `throws x` tells
whether `body(x)` raises; the loop is left at the first such application. -/
def serialLoopExc (throws : α → Bool) : List α → Machine α → Machine α × Exit
  | [], m => (m, .returned)
  | x :: xs, m =>
    if throws x then (m.emit (.bodyCall x), .propagated)
    else serialLoopExc throws xs (m.emit (.bodyCall x))

/-- The first `switch (policy)` with a body that may raise.  The Boolean is
`true` when the `case` left the function (by `return` or by the exception). -/
def firstSwitchExc (throws : α → Bool) (policy : Int) (tc : Fin 6 → Int) (iter : List α)
    (m : Machine α) : (Machine α × Exit) × Bool :=
  match policy with
  | 0 => ((m.setNumThreads m.apollo.ompDefaultNumThreads, .returned), false)
  | 1 => (serialLoopExc throws iter ((m.emit (.setFeature 1)).setNumThreads 1), true)
  | 2 => ((m.setNumThreads (tc 0), .returned), false)
  | 3 => ((m.setNumThreads (tc 1), .returned), false)
  | 4 => ((m.setNumThreads (tc 2), .returned), false)
  | 5 => ((m.setNumThreads (tc 3), .returned), false)
  | 6 => ((m.setNumThreads (tc 4), .returned), false)
  | 7 => ((m.setNumThreads (tc 5), .returned), false)
  | 8 => ((m.setNumThreads (tc 0), .returned), false)
  | 9 => ((m.setNumThreads (tc 1), .returned), false)
  | 10 => ((m.setNumThreads (tc 2), .returned), false)
  | 11 => ((m.setNumThreads (tc 3), .returned), false)
  | 12 => ((m.setNumThreads (tc 4), .returned), false)
  | 13 => ((m.setNumThreads (tc 5), .returned), false)
  | 14 => ((m.setNumThreads (tc 0), .returned), false)
  | 15 => ((m.setNumThreads (tc 1), .returned), false)
  | 16 => ((m.setNumThreads (tc 2), .returned), false)
  | 17 => ((m.setNumThreads (tc 3), .returned), false)
  | 18 => ((m.setNumThreads (tc 4), .returned), false)
  | 19 => ((m.setNumThreads (tc 5), .returned), false)
  | _ => ((m, .returned), false)

/-- An executor call whose failure, if any, propagates: `executorFails` tells
whether the call raises. -/
def executorExit (executorFails : Bool) : Exit :=
  if executorFails then .propagated else .returned

/-- The second `switch (policy)` with an executor that may fail. -/
def secondSwitchExc (executorFails : Bool) (policy : Int) (iter : List α) (m : Machine α) :
    Machine α × Exit :=
  match policy with
  | 0 => (forall_impl_omp_auto m.apollo.numThreads iter m, executorExit executorFails)
  | 1 => (m, .returned)
  | 2 | 3 | 4 | 5 | 6 | 7 =>
    (forall_impl_omp_static m.apollo.numThreads iter m, executorExit executorFails)
  | 8 | 9 | 10 | 11 | 12 | 13 =>
    (forall_impl_omp_dynamic m.apollo.numThreads iter m, executorExit executorFails)
  | 14 | 15 | 16 | 17 | 18 | 19 =>
    (forall_impl_omp_guided m.apollo.numThreads iter m, executorExit executorFails)
  | _ => (m, .returned)

/-- The function `apolloPolicySwitcher` with a body and an executor that may fail. -/
def apolloPolicySwitcherExc (throws : α → Bool) (executorFails : Bool) (policy : Int)
    (tc : Fin 6 → Int) (iter : List α) (m : Machine α) : Machine α × Exit :=
  let r := firstSwitchExc throws policy tc iter m
  if r.2 then r.1
  else
    let m1 := r.1.1
    let m2 := m1.emit (.setFeature m1.apollo.numThreads)
    secondSwitchExc executorFails policy iter m2

/-- The function `forall_impl(const apollo_exec &, iter, loop_body)` with a body
and an executor that may fail: the call of `apolloPolicySwitcher` is not
enclosed in a `try` block and no object with a destructor is in scope, so a
propagating failure skips the statement `apolloRegion->end()`. -/
def forall_implExc (throws : α → Bool) (executorFails : Bool) (iter : List α) (response : Int)
    (s : Statics) (m : Machine α) : Statics × Machine α × Exit :=
  let s1 := (firstUse s m).1
  let m1 := (firstUse s m).2
  let num_elements : Int := iter.length
  let m2 := m1.emit .regionBegin
  let m3 := m2.emit (.setFeature num_elements)
  let m4 := m3.emit (.getPolicyIndex response)
  let s2 := { s1 with policy_index := response }
  let r := apolloPolicySwitcherExc throws executorFails s2.policy_index s2.th_count_opts iter m4
  match r.2 with
  | .propagated => (s2, r.1, .propagated)
  | .returned => (s2, r.1.emit .regionEnd, .returned)

/-! ### Concurrent first entry

The first-use block of `forall_impl`, `if (apolloRegion == nullptr) { ... }`,
executed by several threads at one call site.  The block of the CUDA variant is
the same without the assignments to `th_count_opts`. -/

/-- The `static` variables of the call site and the heap, as shared by the
threads that enter `forall_impl(const apollo_exec &, ...)`: `apolloRegion = none`
is the null pointer, `apolloRegion = some k` points to the `k`-th `Apollo::Region`
object constructed (counted from 0), and `created` is the number of such objects
constructed so far. -/
structure Shared where
  apolloRegion : Option Nat
  th_count_opts : Fin 6 → Int
  created : Nat

/-- The shared state before the first call: `apolloRegion = nullptr`,
`th_count_opts = {2, 2, 2, 2, 2, 2}`, no region constructed. -/
def Shared.initial : Shared :=
  { apolloRegion := none, th_count_opts := ![2, 2, 2, 2, 2, 2], created := 0 }

/-- Where a thread stands in its invocation of `forall_impl`. -/
inductive Pc where
  /-- About to evaluate the condition `apolloRegion == nullptr`. -/
  | test
  /-- Found the pointer null: about to execute the body of the `if`. -/
  | create
  /-- Past the first-use block: about to read `apolloRegion` for `apolloRegion->begin()`. -/
  | enter
  /-- Has called `begin()` on the region `region` and goes on with the tier table `table`. -/
  | entered (region : Option Nat) (table : Fin 6 → Int)

/-- The region a thread called `begin()` on, if it has come that far. -/
def Pc.region : Pc → Option Nat
  | .entered r _ => r
  | _ => none

/-- One step of one thread.  The code takes no lock and uses no atomic
operation; each of the three steps is taken as indivisible here, the body of the
`if` (construction of the region, assignment of the pointer, the six
assignments to `th_count_opts`) included. -/
def threadStep (numThreadsPerProcCap : Int) (sh : Shared) : Pc → Shared × Pc
  | .test => (sh, if sh.apolloRegion = none then .create else .enter)
  | .create =>
    ({ apolloRegion := some sh.created
       th_count_opts := apollo.th_count_opts numThreadsPerProcCap
       created := sh.created + 1 }, .enter)
  | .enter => (sh, .entered sh.apolloRegion sh.th_count_opts)
  | .entered r tb => (sh, .entered r tb)

/-- The shared state and the position of every thread. -/
structure World where
  shared : Shared
  pcs : Nat → Pc

/-- Every thread about to make the first call at the call site. -/
def World.initial : World :=
  { shared := Shared.initial, pcs := fun _ => .test }

/-- The thread `i` takes its next step. -/
def World.step (cap : Int) (w : World) (i : Nat) : World :=
  { shared := (threadStep cap w.shared (w.pcs i)).1
    pcs := Function.update w.pcs i (threadStep cap w.shared (w.pcs i)).2 }

/-- A schedule names the thread that takes each successive step. -/
def World.run (cap : Int) (w : World) (schedule : List Nat) : World :=
  schedule.foldl (World.step cap) w

/-- The schedule of `N` calls made one after another: each thread takes its
three steps before the next thread starts. -/
def oneAfterAnother (N : Nat) : List Nat :=
  (List.range N).flatMap (fun i => [i, i, i])

/-- The schedule of `N` overlapping calls in which every thread evaluates the
condition before any thread executes the body of the `if`. -/
def allTestFirst (N : Nat) : List Nat :=
  List.range N ++ List.range N ++ List.range N

end apollo

namespace apollo_cuda

/-- CUDA's `dim3`: three `unsigned int` components. -/
structure dim3 where
  x : Nat
  y : Nat
  z : Nat
  deriving DecidableEq, Repr

/-- The converting constructor `dim3(unsigned int vx, vy = 1, vz = 1)` applied
to an unsigned value of any width: conversion to `unsigned int` reduces it
modulo `2 ^ 32`. -/
def dim3.ofNat (v : Nat) : dim3 :=
  { x := v % 2 ^ 32, y := 1, z := 1 }

/-- The same constructor applied to an `int`: conversion to `unsigned int`
reduces it modulo `2 ^ 32`. -/
def dim3.ofInt (v : Int) : dim3 :=
  { x := (v % 2 ^ 32).toNat, y := 1, z := 1 }

/-- Conversion of an integer value to `int`: two's-complement wrap to 32 bits. -/
def toInt32 (v : Int) : Int :=
  (v + 2 ^ 31) % 2 ^ 32 - 2 ^ 31

/-- Operations whose behaviour C++ leaves undefined. -/
inductive Fault where
  | divisionByZero
  | indexOutOfBounds
  deriving DecidableEq, Repr

/-- The function `impl::getGridDim(size_t len, dim3 blockDim)`.  The product
`blockDim.x * blockDim.y * blockDim.z` is an `unsigned int` product, the sum
`len + block_size - 1` a `size_t` sum, and the `size_t` result is returned
through the converting constructor of `dim3`. -/
def getGridDim (len : Nat) (blockDim : dim3) : Except Fault dim3 :=
  let block_size := (blockDim.x * blockDim.y * blockDim.z) % 2 ^ 32
  if block_size = 0 then .error .divisionByZero
  else
    let gridSize := ((len + block_size + (2 ^ 64 - 1)) % 2 ^ 64) / block_size
    .ok (dim3.ofNat gridSize)

/-- The constant `POLICY_COUNT`. -/
def POLICY_COUNT : Int := 20

/-- The `static int blockSizeOptions[]` table. -/
def blockSizeOptions : List Int :=
  [0, 32, 64, 128, 192, 256, 320, 384, 448, 512, 576, 640, 704, 768, 832, 896, 960, 1024,
    2048, 4096]

/-- Observable events of the CUDA variant, in the order the code performs them. -/
inductive Event (α : Type) where
  /-- The call `new Apollo::Region(numFeatures, code_location, policyCount)` -/
  | regionCreate (numFeatures : Int) (policyCount : Int)
  /-- The call `apolloRegion->begin()` -/
  | regionBegin
  /-- The call `apolloRegion->setFeature((float) num_elements)`, recorded with `num_elements` -/
  | setFeature (num_elements : Int)
  /-- The call `apolloRegion->getPolicyIndex()`, with the value it returned -/
  | getPolicyIndex (response : Int)
  /-- The `printf` of `(int) gridSize.x`, `(int) gridSize.y`, `(int) BlockSize`
  and `(int) apolloBlockSize`. -/
  | printf (gridX gridY blockSize apolloBlockSize : Int)
  /-- The launch `forall_cuda_kernel<BlockSize><<<gridSize, blockSize, shmem, stream>>>(body, idx, length)`. -/
  | kernelLaunch (gridSize blockSize : dim3) (shmem stream : Nat) (idx : List α) (length : Int)
  /-- The call `RAJA::cuda::peekAtLastError()` -/
  | peekAtLastError
  /-- The call `RAJA::cuda::launch(stream)` -/
  | launch (stream : Nat)
  /-- The call `RAJA::cuda::synchronize(stream)` -/
  | synchronize (stream : Nat)
  /-- The call `apolloRegion->end()` -/
  | regionEnd
  deriving DecidableEq, Repr

/-- The function-local `static` pointer `apolloRegion` of
`forall_impl(apollo_cuda_exec<BlockSize, Async>, ...)`; `none` is the null pointer. -/
structure Statics where
  apolloRegion : Option apollo.Region
  deriving DecidableEq, Repr

/-- The initial value `apolloRegion = nullptr`. -/
def Statics.initial : Statics :=
  { apolloRegion := none }

variable {α : Type}

/-- The first-use block `if (apolloRegion == nullptr) { ... }`. -/
def firstUse (s : Statics) (t : List (Event α)) : Statics × List (Event α) :=
  match s.apolloRegion with
  | none =>
    ({ apolloRegion := some { numFeatures := 1, policyCount := POLICY_COUNT } },
     t ++ [.regionCreate 1 POLICY_COUNT])
  | some _ => (s, t)

/-- The block-size selection
`if (policy_index == 0) apolloBlockSize = BlockSize; else apolloBlockSize = blockSizeOptions[policy_index];`.
Reading `blockSizeOptions` outside its 20 entries is undefined behaviour. -/
def resolveBlockSize (BlockSize : Nat) (policy_index : Int) : Except Fault Int :=
  if policy_index = 0 then .ok (toInt32 BlockSize)
  else if policy_index < 0 then .error .indexOutOfBounds
  else
    match blockSizeOptions.get? policy_index.toNat with
    | some b => .ok b
    | none => .error .indexOutOfBounds

/-- The function `forall_impl(apollo_cuda_exec<BlockSize, Async>, iter, loop_body)`;
`response` is the value returned by `apolloRegion->getPolicyIndex()`, and the
trace `t` holds the external calls made so far (oldest first). -/
def forall_impl (BlockSize : Nat) (Async : Bool) (iter : List α) (response : Int)
    (s : Statics) (t : List (Event α)) : Except Fault (Statics × List (Event α)) :=
  let s1 := (firstUse s t).1
  let t1 := (firstUse s t).2
  let len : Int := iter.length
  let num_elements : Int := toInt32 len
  if 0 < len ∧ 0 < BlockSize then
    let t2 := t1 ++ [.regionBegin, .setFeature num_elements, .getPolicyIndex response]
    let policy_index := response
    match resolveBlockSize BlockSize policy_index with
    | .error f => .error f
    | .ok apolloBlockSize =>
      match getGridDim (len.toNat % 2 ^ 64) (dim3.ofNat BlockSize) with
      | .error f => .error f
      | .ok gridSize =>
        let stream : Nat := 0
        let shmem : Nat := 0
        let t3 := t2 ++ [.printf (toInt32 gridSize.x) (toInt32 gridSize.y) (toInt32 BlockSize)
                          apolloBlockSize,
                         .kernelLaunch gridSize (dim3.ofInt apolloBlockSize) shmem stream iter len,
                         .peekAtLastError,
                         .launch stream]
        let t4 := if Async then t3 else t3 ++ [.synchronize stream]
        .ok (s1, t4 ++ [.regionEnd])
  else
    .ok (s1, t1)

/-- The launch configurations `(gridSize, blockSize)` recorded in a trace, oldest first. -/
def launches : List (Event α) → List (dim3 × dim3)
  | [] => []
  | .kernelLaunch g b _ _ _ _ :: t => (g, b) :: launches t
  | _ :: t => launches t

/-- The spec's launch grid size `ceil(rangeLength / resolvedBlockSize)`. -/
def specGridSize (rangeLength resolvedBlockSize : Int) : Int :=
  ⌈(rangeLength : ℚ) / (resolvedBlockSize : ℚ)⌉

/-- The number of `apolloRegion->begin()` calls in a trace. -/
def regionBegins : List (Event α) → Nat
  | [] => 0
  | .regionBegin :: t => regionBegins t + 1
  | _ :: t => regionBegins t

/-- The number of `apolloRegion->end()` calls in a trace. -/
def regionEnds : List (Event α) → Nat
  | [] => 0
  | .regionEnd :: t => regionEnds t + 1
  | _ :: t => regionEnds t

/-- The function `forall_impl(apollo_cuda_exec<BlockSize, Async>, iter, loop_body)`
with runtime calls that may fail: `peekFails` and `syncFails` tell whether
`RAJA::cuda::peekAtLastError()` and `RAJA::cuda::synchronize(stream)` raise
(both report a CUDA error by an exception).  No `try` block or destructor
encloses them, so a propagating failure skips `apolloRegion->end()`. -/
def forall_implExc (peekFails syncFails : Bool) (BlockSize : Nat) (Async : Bool)
    (iter : List α) (response : Int) (s : Statics) (t : List (Event α)) :
    Except Fault (Statics × List (Event α) × apollo.Exit) :=
  let s1 := (firstUse s t).1
  let t1 := (firstUse s t).2
  let len : Int := iter.length
  let num_elements : Int := toInt32 len
  if 0 < len ∧ 0 < BlockSize then
    let t2 := t1 ++ [.regionBegin, .setFeature num_elements, .getPolicyIndex response]
    let policy_index := response
    match resolveBlockSize BlockSize policy_index with
    | .error f => .error f
    | .ok apolloBlockSize =>
      match getGridDim (len.toNat % 2 ^ 64) (dim3.ofNat BlockSize) with
      | .error f => .error f
      | .ok gridSize =>
        let stream : Nat := 0
        let shmem : Nat := 0
        let t3 := t2 ++ [.printf (toInt32 gridSize.x) (toInt32 gridSize.y) (toInt32 BlockSize)
                          apolloBlockSize,
                         .kernelLaunch gridSize (dim3.ofInt apolloBlockSize) shmem stream iter len,
                         .peekAtLastError]
        if peekFails then .ok (s1, t3, .propagated)
        else
          let t4 := t3 ++ [.launch stream]
          if Async then .ok (s1, t4 ++ [.regionEnd], .returned)
          else
            let t5 := t4 ++ [.synchronize stream]
            if syncFails then .ok (s1, t5, .propagated)
            else .ok (s1, t5 ++ [.regionEnd], .returned)
  else
    .ok (s1, t1, .returned)

/-- The number of `RAJA::cuda::synchronize(stream)` calls in a trace. -/
def synchronizes : List (Event α) → Nat
  | [] => 0
  | .synchronize _ :: t => synchronizes t + 1
  | _ :: t => synchronizes t

/-- Observable events of the index-set variant
`forall_impl(ExecPolicy<seq_segit, apollo_cuda_exec<BlockSize, Async>>, iset, loop_body)`. -/
inductive SegmentEvent where
  /-- The call `iset.segmentCall(isi, detail::CallForall(), cuda_exec<BlockSize, Async>(), loop_body)`,
  recorded with the segment number and the template arguments of the policy object. -/
  | segmentCall (isi : Int) (BlockSize : Nat) (Async : Bool)
  /-- The call `RAJA::cuda::synchronize()` -/
  | synchronize
  deriving DecidableEq, Repr

/-- The loop `for (int isi = 0; isi < num_seg; ++isi) iset.segmentCall(isi, ..., cuda_exec<BlockSize, true>(), loop_body);`
from the value `isi` of its counter on. -/
def segmentLoop (BlockSize : Nat) (num_seg : Int) (isi : Int) (t : List SegmentEvent) :
    List SegmentEvent :=
  if isi < num_seg then
    segmentLoop BlockSize num_seg (isi + 1) (t ++ [.segmentCall isi BlockSize true])
  else t
termination_by (num_seg - isi).toNat
decreasing_by omega

/-- The function `forall_impl(ExecPolicy<seq_segit, apollo_cuda_exec<BlockSize, Async>>, iset, loop_body)`;
`num_seg` is the value returned by `iset.getNumSegments()`. -/
def forall_impl_seq_segit (BlockSize : Nat) (Async : Bool) (num_seg : Int)
    (t : List SegmentEvent) : List SegmentEvent :=
  let t1 := segmentLoop BlockSize num_seg 0 t
  if Async then t1 else t1 ++ [.synchronize]

/-- The constant `WARP_SIZE` of `apollo_cuda/policy.hpp`. -/
def WARP_SIZE : Int := 32

/-- The constant `MAX_BLOCK_SIZE` of `apollo_cuda/policy.hpp`. -/
def MAX_BLOCK_SIZE : Int := 1024

/-- The constant `MAX_WARPS = MAX_BLOCK_SIZE / WARP_SIZE` of `apollo_cuda/policy.hpp`. -/
def MAX_WARPS : Int := MAX_BLOCK_SIZE / WARP_SIZE

/-- The device function `impl::getGlobalIdx_1D_1D()` evaluated by the thread
`threadIdx` of the block `blockIdx` in a launch with block dimensions `blockDim`:
`blockIdx.x * blockDim.x + threadIdx.x` in `unsigned int` arithmetic. -/
def getGlobalIdx_1D_1D (blockIdx blockDim threadIdx : dim3) : Nat :=
  (blockIdx.x * blockDim.x + threadIdx.x) % 2 ^ 32

/-- The kernel `impl::forall_cuda_kernel<BlockSize>(loop_body, idx, length)` as run
by one thread: the index `ii` for which the thread calls `body(idx[ii])`, if it
calls the body at all. -/
def forall_cuda_kernel (blockIdx blockDim threadIdx : dim3) (length : Int) : Option Nat :=
  let ii := getGlobalIdx_1D_1D blockIdx blockDim threadIdx
  if (ii : Int) < length then some ii else none

/-- The indices to which the threads of a launch `<<<gridDim, blockDim>>>` of the
kernel apply the loop body, listed by block and thread.  The launches of
`forall_impl` are one-dimensional (`gridDim` and `blockDim` have `y = z = 1`). -/
def launchIndices (gridDim blockDim : dim3) (length : Int) : List Nat :=
  (List.range gridDim.x).flatMap fun bi =>
    (List.range blockDim.x).filterMap fun ti =>
      forall_cuda_kernel { x := bi, y := 0, z := 0 } blockDim { x := ti, y := 0, z := 0 } length

end apollo_cuda
end policy
end RAJA

/-!
## Definitions: the AVX2 register of 32-bit integers

A shallow embedding of `Register<avx2_register, int, N>` from
`include/RAJA/policy/register/avx2/avx2_int32.hpp`.

Modelling conventions.

* A value of type `int` is an `Int`; a `__m256i` is a record of eight `int`
  lanes, `e0` the lowest.  The intrinsics of `<immintrin.h>` are external to the
  repository and are given lane by lane as Intel documents them.
* Vector addition wraps to 32 bits.  The sum of two scalar `int`s is taken
  modulo `2 ^ 32` as well, as the `add` instruction of the target computes it
  (C++ leaves its overflow undefined).  Integer division traps on the target
  for a zero divisor and for `INT_MIN / -1`; both are `Fault`s.
* An array of `int` addressed through a pointer `ptr` is a function `Int → Int`
  giving `ptr[k]`; a store returns the array after the store.
-/

namespace RAJA
namespace avx2

/-- Conversion of an integer value to `int`: two's-complement wrap to 32 bits. -/
def wrap32 (v : Int) : Int :=
  (v + 2 ^ 31) % 2 ^ 32 - 2 ^ 31

/-- The type `__m256i` as eight lanes of `int`. -/
structure m256i where
  e0 : Int
  e1 : Int
  e2 : Int
  e3 : Int
  e4 : Int
  e5 : Int
  e6 : Int
  e7 : Int
  deriving DecidableEq, Repr

/-- Lane `i` of a vector (bits `32*i+31 : 32*i`). -/
def m256i.lane (a : m256i) : Nat → Int
  | 0 => a.e0
  | 1 => a.e1
  | 2 => a.e2
  | 3 => a.e3
  | 4 => a.e4
  | 5 => a.e5
  | 6 => a.e6
  | 7 => a.e7
  | _ => 0

/-- The vector whose lane `i` is `f i` (`FOR i := 0 to 7` in the intrinsics guide). -/
def m256i.ofFn (f : Nat → Int) : m256i :=
  { e0 := f 0, e1 := f 1, e2 := f 2, e3 := f 3, e4 := f 4, e5 := f 5, e6 := f 6, e7 := f 7 }

/-- The intrinsic `_mm256_set_epi32(e7, e6, e5, e4, e3, e2, e1, e0)`. -/
def mm256_set_epi32 (e7 e6 e5 e4 e3 e2 e1 e0 : Int) : m256i :=
  { e0 := e0, e1 := e1, e2 := e2, e3 := e3, e4 := e4, e5 := e5, e6 := e6, e7 := e7 }

/-- The intrinsic `_mm256_setzero_si256()` (and `_mm256_setzero_ps()`, the same bits). -/
def mm256_setzero_si256 : m256i :=
  m256i.ofFn fun _ => 0

/-- The intrinsic `_mm256_set1_epi32(a)`. -/
def mm256_set1_epi32 (a : Int) : m256i :=
  m256i.ofFn fun _ => a

/-- The intrinsic `_mm256_extract_epi32(a, index)`: the lane selected by the low three bits of `index`. -/
def mm256_extract_epi32 (a : m256i) (index : Nat) : Int :=
  a.lane (index % 8)

/-- The intrinsic `_mm256_insert_epi32(a, i, index)`: a copy of `a` with `i` in the
lane selected by the low three bits of `index`. -/
def mm256_insert_epi32 (a : m256i) (i : Int) (index : Nat) : m256i :=
  m256i.ofFn fun j => if j = index % 8 then i else a.lane j

/-- The intrinsic `_mm256_add_epi32(a, b)`. -/
def mm256_add_epi32 (a b : m256i) : m256i :=
  m256i.ofFn fun i => wrap32 (a.lane i + b.lane i)

/-- The intrinsic `_mm256_max_epi32(a, b)`: lane-wise signed maximum. -/
def mm256_max_epi32 (a b : m256i) : m256i :=
  m256i.ofFn fun i => Max.max (a.lane i) (b.lane i)

/-- The intrinsic `_mm256_min_epi32(a, b)`: lane-wise signed minimum. -/
def mm256_min_epi32 (a b : m256i) : m256i :=
  m256i.ofFn fun i => Min.min (a.lane i) (b.lane i)

/-- The intrinsic `_mm256_mul_epi32(a, b)`: for each of the four 64-bit elements,
the signed 64-bit product of the sign-extended low 32 bits of the element of `a`
and of `b`.  The product of 64-bit element `k` occupies lane `2k` (its low half)
and lane `2k + 1` (its high half). -/
def mm256_mul_epi32 (a b : m256i) : m256i :=
  m256i.ofFn fun i =>
    let product := wrap32 (a.lane (i / 2 * 2)) * wrap32 (b.lane (i / 2 * 2))
    if i % 2 = 0 then wrap32 product else wrap32 (product / 2 ^ 32)

/-- The intrinsic `_mm256_permute_ps(a, imm8)`: within each 128-bit half, lane `j`
of the result is the lane of that half selected by bits `2j+1 : 2j` of `imm8`. -/
def mm256_permute_ps (a : m256i) (imm8 : Nat) : m256i :=
  m256i.ofFn fun i => a.lane (i / 4 * 4 + imm8 / 4 ^ (i % 4) % 4)

/-- The intrinsic `_mm256_permutevar8x32_epi32(a, idx)`: lane `i` of the result is
the lane of `a` selected by the low three bits of lane `i` of `idx`. -/
def mm256_permutevar8x32_epi32 (a idx : m256i) : m256i :=
  m256i.ofFn fun i => a.lane (idx.lane i % 8).toNat

/-- The intrinsic `_mm256_blend_epi32(a, b, imm8)`: lane `i` is taken from `b` when
bit `i` of `imm8` is set and from `a` otherwise. -/
def mm256_blend_epi32 (a b : m256i) (imm8 : Nat) : m256i :=
  m256i.ofFn fun i => if imm8 / 2 ^ i % 2 = 1 then b.lane i else a.lane i

/-- The intrinsic `_mm256_loadu_si256(mem_addr)`. -/
def mm256_loadu_si256 (mem_addr : Int → Int) : m256i :=
  m256i.ofFn fun i => mem_addr i

/-- The intrinsic `_mm256_maskload_epi32(mem_addr, mask)`: lane `i` is loaded when
the highest bit of lane `i` of `mask` is set (the lane is negative) and is zero
otherwise. -/
def mm256_maskload_epi32 (mem_addr : Int → Int) (mask : m256i) : m256i :=
  m256i.ofFn fun i => if mask.lane i < 0 then mem_addr i else 0

/-- The intrinsic `_mm256_i32gather_epi32(base_addr, vindex, scale)`: lane `i` is
loaded from the byte address `base_addr + SignExtend64(vindex[i]) * scale`, which
is element `vindex[i] * scale / 4` of the `int` array at `base_addr`. -/
def mm256_i32gather_epi32 (base_addr : Int → Int) (vindex : m256i) (scale : Nat) : m256i :=
  m256i.ofFn fun i => base_addr (wrap32 (vindex.lane i) * scale / 4)

/-- The intrinsic `_mm256_mask_i32gather_epi32(src, base_addr, vindex, mask, scale)`:
lane `i` is gathered when the highest bit of lane `i` of `mask` is set and is
copied from `src` otherwise. -/
def mm256_mask_i32gather_epi32 (src : m256i) (base_addr : Int → Int) (vindex mask : m256i)
    (scale : Nat) : m256i :=
  m256i.ofFn fun i =>
    if mask.lane i < 0 then base_addr (wrap32 (vindex.lane i) * scale / 4) else src.lane i

/-- The intrinsic `_mm256_storeu_epi32(mem_addr, a)`: the array after the eight
lanes of `a` are stored at `mem_addr[0..7]`. -/
def mm256_storeu_epi32 (mem_addr : Int → Int) (a : m256i) : Int → Int :=
  fun k => if 0 ≤ k ∧ k < 8 then a.lane k.toNat else mem_addr k

/-- The intrinsic `_mm256_maskstore_epi32(mem_addr, mask, a)`: the array after the
lanes of `a` whose lane of `mask` has its highest bit set are stored. -/
def mm256_maskstore_epi32 (mem_addr : Int → Int) (mask a : m256i) : Int → Int :=
  fun k => if 0 ≤ k ∧ k < 8 ∧ mask.lane k.toNat < 0 then a.lane k.toNat else mem_addr k

/-- The sum `a + b` of two `int`s. -/
def addInt (a b : Int) : Int :=
  wrap32 (a + b)

/-- Operations on which the target traps. -/
inductive Fault where
  | divisionByZero
  | overflow
  deriving DecidableEq, Repr

/-- The quotient `a / b` of two `int`s: truncation toward zero. -/
def divInt (a b : Int) : Except Fault Int :=
  if b = 0 then .error .divisionByZero
  else if a = -2 ^ 31 ∧ b = -1 then .error .overflow
  else .ok (Int.tdiv a b)

/-- The function `std::max<int>(a, b)`, which is `(a < b) ? b : a`. -/
def std_max (a b : Int) : Int :=
  if a < b then b else a

/-- The function `std::min<int>(a, b)`, which is `(b < a) ? b : a`. -/
def std_min (a b : Int) : Int :=
  if b < a then b else a

/-- The class `Register<avx2_register, int, N>`; the `static_assert`s of the class
require `1 ≤ N` and `N ≤ 8`. -/
structure Register (N : Nat) where
  m_value : m256i
  deriving DecidableEq, Repr

variable {N : Nat}

/-- The private member `createMask()`. -/
def Register.createMask (N : Nat) : m256i :=
  mm256_set_epi32
    (if N ≥ 8 then -1 else 0)
    (if N ≥ 7 then -1 else 0)
    (if N ≥ 6 then -1 else 0)
    (if N ≥ 5 then -1 else 0)
    (if N ≥ 4 then -1 else 0)
    (if N ≥ 3 then -1 else 0)
    (if N ≥ 2 then -1 else 0)
    (-1)

/-- The private member `createStridedOffsets(camp::idx_t stride)`.  The products are
computed in `camp::idx_t` and converted to the `int` parameters of
`_mm256_set_epi32`. -/
def Register.createStridedOffsets (stride : Int) : m256i :=
  mm256_set_epi32
    (wrap32 (7 * stride)) (wrap32 (6 * stride)) (wrap32 (5 * stride)) (wrap32 (4 * stride))
    (wrap32 (3 * stride)) (wrap32 (2 * stride)) (wrap32 stride) 0

/-- The private member `createPermute1()`. -/
def Register.createPermute1 (N : Nat) : m256i :=
  mm256_set_epi32
    (if N ≥ 7 then 6 else 0)
    (if N ≥ 8 then 7 else 0)
    (if N ≥ 5 then 4 else 0)
    (if N ≥ 6 then 5 else 0)
    (if N ≥ 3 then 2 else 0)
    (if N ≥ 4 then 3 else 0)
    (if N ≥ 1 then 0 else 0)
    (if N ≥ 2 then 1 else 0)

/-- The private member `createPermute2()`. -/
def Register.createPermute2 (N : Nat) : m256i :=
  mm256_set_epi32
    (if N ≥ 6 then 5 else 0)
    (if N ≥ 5 then 4 else 0)
    (if N ≥ 8 then 7 else 0)
    (if N ≥ 7 then 6 else 0)
    (if N ≥ 2 then 1 else 0)
    (if N ≥ 1 then 0 else 0)
    (if N ≥ 4 then 3 else 0)
    (if N ≥ 2 then 2 else 0)

/-- The default constructor `Register()`. -/
def Register.default : Register N :=
  { m_value := mm256_setzero_si256 }

/-- The constructor `Register(element_type const &c)`. -/
def Register.ofScalar (c : Int) : Register N :=
  { m_value := mm256_set1_epi32 c }

/-- The member `load(ptr, stride)`. -/
def Register.load (_r : Register N) (ptr : Int → Int) (stride : Int) : Register N :=
  if N = 8 then
    if stride = 1 then
      { m_value := mm256_loadu_si256 ptr }
    else
      { m_value := mm256_i32gather_epi32 ptr (Register.createStridedOffsets stride) 4 }
  else
    if stride = 1 then
      { m_value := mm256_maskload_epi32 ptr (Register.createMask N) }
    else
      { m_value := mm256_mask_i32gather_epi32 mm256_setzero_si256 ptr
          (Register.createStridedOffsets stride) (Register.createMask N) 4 }

/-- The member `get(i)`. -/
def Register.get (r : Register N) (i : Int) : Int :=
  match i with
  | 0 => mm256_extract_epi32 r.m_value 0
  | 1 => mm256_extract_epi32 r.m_value 1
  | 2 => mm256_extract_epi32 r.m_value 2
  | 3 => mm256_extract_epi32 r.m_value 3
  | 4 => mm256_extract_epi32 r.m_value 4
  | 5 => mm256_extract_epi32 r.m_value 5
  | 6 => mm256_extract_epi32 r.m_value 6
  | 7 => mm256_extract_epi32 r.m_value 7
  | _ => 0

/-- The scatter loop of `store`, `for (size_t i = 0; i < N; ++i) ptr[i*stride] = get(i);`,
from the value `i` of its counter on with `n` iterations left; the product
`i*stride` is a `size_t` product. -/
def Register.scatter (r : Register N) (stride : Nat) : Nat → Nat → (Int → Int) → (Int → Int)
  | 0, _, ptr => ptr
  | n + 1, i, ptr =>
    Register.scatter r stride n (i + 1)
      (fun k => if k = ((i * stride % 2 ^ 64 : Nat) : Int) then r.get i else ptr k)

/-- The member `store(ptr, stride)`: the array after the store. -/
def Register.store (r : Register N) (ptr : Int → Int) (stride : Nat) : Int → Int :=
  if stride = 1 then
    if N = 8 then mm256_storeu_epi32 ptr r.m_value
    else mm256_maskstore_epi32 ptr (Register.createMask N) r.m_value
  else
    Register.scatter r stride N 0 ptr

/-- The member `set(i, value)`. -/
def Register.set (r : Register N) (i : Int) (value : Int) : Register N :=
  match i with
  | 0 => { m_value := mm256_insert_epi32 r.m_value value 0 }
  | 1 => { m_value := mm256_insert_epi32 r.m_value value 1 }
  | 2 => { m_value := mm256_insert_epi32 r.m_value value 2 }
  | 3 => { m_value := mm256_insert_epi32 r.m_value value 3 }
  | 4 => { m_value := mm256_insert_epi32 r.m_value value 4 }
  | 5 => { m_value := mm256_insert_epi32 r.m_value value 5 }
  | 6 => { m_value := mm256_insert_epi32 r.m_value value 6 }
  | 7 => { m_value := mm256_insert_epi32 r.m_value value 7 }
  | _ => r

/-- The member `broadcast(value)`. -/
def Register.broadcast (_r : Register N) (value : Int) : Register N :=
  { m_value := mm256_set1_epi32 value }

/-- The member `multiply(b)`. -/
def Register.multiply (r b : Register N) : Register N :=
  let prod_even := mm256_mul_epi32 r.m_value b.m_value
  let sh_a := mm256_permute_ps r.m_value 0xB1
  let sh_b := mm256_permute_ps b.m_value 0xB1
  let prod_odd := mm256_mul_epi32 sh_a sh_b
  let sh_odd := mm256_permute_ps prod_odd 0xB1
  { m_value := mm256_blend_epi32 prod_even sh_odd 0xAA }

/-- The argument `N >= k + 1 ? get(k)/b.get(k) : 0` of `_mm256_set_epi32` in `divide`. -/
def Register.quotient (r b : Register N) (k : Nat) : Except Fault Int :=
  if N ≥ k + 1 then divInt (r.get k) (b.get k) else .ok 0

/-- The member `divide(b)`.  C++ leaves the order in which the eight arguments are
evaluated open; a trap in any of them ends the call. -/
def Register.divide (r b : Register N) : Except Fault (Register N) := do
  let q7 ← r.quotient b 7
  let q6 ← r.quotient b 6
  let q5 ← r.quotient b 5
  let q4 ← r.quotient b 4
  let q3 ← r.quotient b 3
  let q2 ← r.quotient b 2
  let q1 ← r.quotient b 1
  let q0 ← r.quotient b 0
  return { m_value := mm256_set_epi32 q7 q6 q5 q4 q3 q2 q1 q0 }

/-- The member `sum()`. -/
def Register.sum (r : Register N) : Int :=
  if N = 1 then r.get 0
  else if N = 2 then addInt (r.get 0) (r.get 1)
  else
    let sh1 := mm256_permute_ps r.m_value 0xB1
    let red1 := mm256_add_epi32 r.m_value sh1
    if N = 3 ∨ N = 4 then
      addInt (mm256_extract_epi32 red1 0) (mm256_extract_epi32 red1 2)
    else
      let sh2 := mm256_permute_ps red1 0x4E
      let red2 := mm256_add_epi32 red1 sh2
      addInt (mm256_extract_epi32 red2 0) (mm256_extract_epi32 red2 4)

/-- The member `max()`. -/
def Register.max (r : Register N) : Int :=
  if N = 1 then r.get 0
  else if N = 2 then std_max (r.get 0) (r.get 1)
  else
    let sh1 := mm256_permutevar8x32_epi32 r.m_value (Register.createPermute1 N)
    let red1 := mm256_max_epi32 r.m_value sh1
    if N = 3 then std_max (mm256_extract_epi32 red1 0) (r.get 2)
    else if N = 4 then std_max (mm256_extract_epi32 red1 0) (mm256_extract_epi32 red1 2)
    else
      let sh2 := mm256_permutevar8x32_epi32 red1 (Register.createPermute2 N)
      let red2 := mm256_max_epi32 red1 sh2
      std_max (mm256_extract_epi32 red2 0) (mm256_extract_epi32 red2 4)

/-- The member `min()`. -/
def Register.min (r : Register N) : Int :=
  if N = 1 then r.get 0
  else if N = 2 then std_min (r.get 0) (r.get 1)
  else
    let sh1 := mm256_permutevar8x32_epi32 r.m_value (Register.createPermute1 N)
    let red1 := mm256_min_epi32 r.m_value sh1
    if N = 3 then std_min (mm256_extract_epi32 red1 0) (r.get 2)
    else if N = 4 then std_min (mm256_extract_epi32 red1 0) (mm256_extract_epi32 red1 2)
    else
      let sh2 := mm256_permutevar8x32_epi32 red1 (Register.createPermute2 N)
      let red2 := mm256_min_epi32 red1 sh2
      std_min (mm256_extract_epi32 red2 0) (mm256_extract_epi32 red2 4)

/-- The sum of the `N` scalar elements `get(0), ..., get(N-1)` in wrapping 32-bit
arithmetic, in the words of the documentation of `sum()`. -/
def specSum (r : Register N) : Int :=
  wrap32 ((List.range N).map fun i : Nat => r.get i).sum

/-- The largest of the `N` scalar elements `get(0), ..., get(N-1)`, for `N ≥ 1`. -/
def specMax (r : Register N) : Int :=
  ((List.range N).map fun i : Nat => r.get i).foldl Max.max (r.get 0)

/-- The smallest of the `N` scalar elements `get(0), ..., get(N-1)`, for `N ≥ 1`. -/
def specMin (r : Register N) : Int :=
  ((List.range N).map fun i : Nat => r.get i).foldl Min.min (r.get 0)

end avx2
end RAJA



/-! ## Theorems: OpenMP variant -/

namespace RAJA
namespace policy
namespace apollo

variable {α : Type}

theorem serialLoop_eq (iter : List α) (m : Machine α) :
    serialLoop iter m = { m with trace := m.trace ++ iter.map .bodyCall } := by
  induction iter generalizing m with
  | nil => simp [serialLoop]
  | cons x xs ih => simp [serialLoop, ih, Machine.emit]

theorem executorCalls_append (s t : List (Event α)) :
    executorCalls (s ++ t) = executorCalls s ++ executorCalls t := by
  induction s with
  | nil => rfl
  | cons e s ih => cases e <;> simp [executorCalls, ih]

theorem bodyCalls_append (s t : List (Event α)) :
    bodyCalls (s ++ t) = bodyCalls s ++ bodyCalls t := by
  induction s with
  | nil => rfl
  | cons e s ih => cases e <;> simp [bodyCalls, ih]

theorem executorCalls_map_bodyCall (iter : List α) :
    executorCalls (iter.map Event.bodyCall) = [] := by
  induction iter with
  | nil => rfl
  | cons x xs ih => simpa [executorCalls] using ih

theorem bodyCalls_map_bodyCall (iter : List α) :
    bodyCalls (iter.map Event.bodyCall) = iter := by
  induction iter with
  | nil => rfl
  | cons x xs ih => simpa [bodyCalls] using ih

theorem firstSwitch_out_of_range (p : Int) (hp : p < 0 ∨ 20 ≤ p) (tc : Fin 6 → Int)
    (iter : List α) (m : Machine α) : firstSwitch p tc iter m = (m, false) := by
  unfold firstSwitch
  split <;> first | rfl | omega

theorem secondSwitch_out_of_range (p : Int) (hp : p < 0 ∨ 20 ≤ p)
    (iter : List α) (m : Machine α) : secondSwitch p iter m = m := by
  unfold secondSwitch
  split <;> first | rfl | omega

theorem switcher_out_of_range (p : Int) (hp : p < 0 ∨ 20 ≤ p) (tc : Fin 6 → Int)
    (iter : List α) (m : Machine α) :
    apolloPolicySwitcher p tc iter m = m.emit (.setFeature m.apollo.numThreads) := by
  simp [apolloPolicySwitcher, firstSwitch_out_of_range p hp, secondSwitch_out_of_range p hp]

theorem switcher_sequential (tc : Fin 6 → Int) (iter : List α) (m : Machine α) :
    apolloPolicySwitcher 1 tc iter m = specDispatch .Sequential tc iter m := by
  simp [apolloPolicySwitcher, firstSwitch, serialLoop_eq, specDispatch, Machine.emit,
    Machine.setNumThreads]

theorem switcher_eq_specDispatch (p : Int) (a : Action) (h : specResolve p = some a)
    (tc : Fin 6 → Int) (iter : List α) (m : Machine α) :
    apolloPolicySwitcher p tc iter m = specDispatch a tc iter m := by
  have hp : 0 ≤ p ∧ p < 20 := by
    unfold specResolve at h
    split_ifs at h <;> omega
  obtain ⟨h0, h1⟩ := hp
  interval_cases p
  case «1» =>
    have : a = .Sequential := by simpa [specResolve] using h.symm
    subst this
    exact switcher_sequential tc iter m
  all_goals
    have ha := h.symm
    simp only [specResolve] at ha
    simp at ha
    subst ha
    simp [apolloPolicySwitcher, firstSwitch, secondSwitch, specDispatch, Machine.emit,
      Machine.setNumThreads, forall_impl_omp_auto, forall_impl_omp_static,
      forall_impl_omp_dynamic, forall_impl_omp_guided]
    try rfl

theorem firstUse_apollo (s : Statics) (m : Machine α) : (firstUse s m).2.apollo = m.apollo := by
  unfold firstUse
  split <;> rfl

/-- C1, as stated, fails: with the oracle response `999` on the range `[10, 11, 12]`
(first use of the call site, thread count 4, default thread count 8) the
invocation makes no executor call and never applies the loop body, so it is not
the Default action, which would call the `auto` executor with thread count 8. -/
theorem out_of_range_index_not_default :
    (forall_impl [10, 11, 12] 999 Statics.initial
        { apollo := { numThreads := 4, ompDefaultNumThreads := 8, numThreadsPerProcCap := 8 },
          trace := ([] : List (Event Nat)) }).2.trace
      = [.regionCreate 1 20, .regionBegin, .setFeature 3, .getPolicyIndex 999, .setFeature 4,
          .regionEnd]
    ∧ executorCalls (forall_impl [10, 11, 12] 999 Statics.initial
        { apollo := { numThreads := 4, ompDefaultNumThreads := 8, numThreadsPerProcCap := 8 },
          trace := ([] : List (Event Nat)) }).2.trace
      ≠ [(Schedule.auto, 8, [10, 11, 12])]
    ∧ bodyCalls (forall_impl [10, 11, 12] 999 Statics.initial
        { apollo := { numThreads := 4, ompDefaultNumThreads := 8, numThreadsPerProcCap := 8 },
          trace := ([] : List (Event Nat)) }).2.trace
      = [] := by
  have h : (forall_impl [10, 11, 12] 999 Statics.initial
        { apollo := { numThreads := 4, ompDefaultNumThreads := 8, numThreadsPerProcCap := 8 },
          trace := ([] : List (Event Nat)) }).2.trace
      = [.regionCreate 1 20, .regionBegin, .setFeature 3, .getPolicyIndex 999, .setFeature 4,
          .regionEnd] := by
    simp [forall_impl, switcher_out_of_range, firstUse, Statics.initial, Machine.emit,
      POLICY_COUNT]
  rw [h]
  exact ⟨rfl, by decide, rfl⟩

/-- C1 (amended): the CPU dispatch does not range-check the oracle response.
For every response `p` outside `[0, 20)`, every tier table, range and body,
`apolloPolicySwitcher` matches no `case` of either `switch`: it leaves the thread
count unchanged, reports that unchanged value as a feature, and returns without
calling an executor or applying the loop body; the whole invocation consists of
region begin, the range-length report, the policy query, that report and region end. -/
theorem out_of_range_index_no_dispatch (p : Int) (hp : p < 0 ∨ 20 ≤ p) (tc : Fin 6 → Int)
    (iter : List α) (s : Statics) (m : Machine α) :
    apolloPolicySwitcher p tc iter m = m.emit (.setFeature m.apollo.numThreads)
    ∧ executorCalls (apolloPolicySwitcher p tc iter m).trace = executorCalls m.trace
    ∧ bodyCalls (apolloPolicySwitcher p tc iter m).trace = bodyCalls m.trace
    ∧ (forall_impl iter p s m).2 =
        { apollo := m.apollo
          trace := (firstUse s m).2.trace ++
            [.regionBegin, .setFeature iter.length, .getPolicyIndex p,
             .setFeature m.apollo.numThreads, .regionEnd] } := by
  refine ⟨switcher_out_of_range p hp tc iter m, ?_, ?_, ?_⟩
  · simp [switcher_out_of_range p hp, Machine.emit, executorCalls_append, executorCalls]
  · simp [switcher_out_of_range p hp, Machine.emit, bodyCalls_append, bodyCalls]
  · simp [forall_impl, switcher_out_of_range p hp, Machine.emit, firstUse_apollo]

/-- Witness of `out_of_range_index_no_dispatch` at the response `-1`. -/
theorem out_of_range_index_no_dispatch_witness :
    apolloPolicySwitcher (-1) ![2, 2, 4, 6, 8, 8] [10, 11, 12]
        { apollo := { numThreads := 4, ompDefaultNumThreads := 8, numThreadsPerProcCap := 8 },
          trace := ([] : List (Event Nat)) }
      = { apollo := { numThreads := 4, ompDefaultNumThreads := 8, numThreadsPerProcCap := 8 },
          trace := [.setFeature 4] } :=
  (out_of_range_index_no_dispatch (-1) (Or.inl (by decide)) ![2, 2, 4, 6, 8, 8] [10, 11, 12]
    Statics.initial
    { apollo := { numThreads := 4, ompDefaultNumThreads := 8, numThreadsPerProcCap := 8 },
      trace := [] }).1

/-- C3: with policy index 1 the switcher reports the feature `1`, sets the thread
count to `1` and applies the loop body to `begin[0], ..., begin[n-1]` in that
order, each exactly once, on the calling thread; it calls no parallel executor. -/
theorem sequential_policy_serial_pass (tc : Fin 6 → Int) (iter : List α) (m : Machine α) :
    apolloPolicySwitcher 1 tc iter m
      = { apollo := { m.apollo with numThreads := 1 }
          trace := m.trace ++ .setFeature 1 :: iter.map .bodyCall }
    ∧ bodyCalls (apolloPolicySwitcher 1 tc iter m).trace = bodyCalls m.trace ++ iter
    ∧ executorCalls (apolloPolicySwitcher 1 tc iter m).trace = executorCalls m.trace := by
  have h := switcher_sequential tc iter m
  refine ⟨h, ?_, ?_⟩
  · rw [h]
    simp [specDispatch, bodyCalls_append, bodyCalls, bodyCalls_map_bodyCall]
  · rw [h]
    simp [specDispatch, executorCalls_append, executorCalls, executorCalls_map_bodyCall]

/-- C4: with policy index 0 the switcher sets the thread count to
`apollo->ompDefaultNumThreads`, reports it, and makes exactly one executor call
(the `auto` executor) with that thread count over the full range; the result
does not depend on the tier table. -/
theorem default_policy_ambient_threads (tc tc' : Fin 6 → Int) (iter : List α) (m : Machine α) :
    apolloPolicySwitcher 0 tc iter m
      = { apollo := { m.apollo with numThreads := m.apollo.ompDefaultNumThreads }
          trace := m.trace ++ [.setFeature m.apollo.ompDefaultNumThreads,
                               .ompParallelFor .auto m.apollo.ompDefaultNumThreads iter] }
    ∧ apolloPolicySwitcher 0 tc iter m = apolloPolicySwitcher 0 tc' iter m
    ∧ executorCalls (apolloPolicySwitcher 0 tc iter m).trace
        = executorCalls m.trace ++ [(.auto, m.apollo.ompDefaultNumThreads, iter)]
    ∧ bodyCalls (apolloPolicySwitcher 0 tc iter m).trace = bodyCalls m.trace := by
  have h : ∀ t : Fin 6 → Int, apolloPolicySwitcher 0 t iter m
      = specDispatch .Default t iter m := fun t => switcher_eq_specDispatch 0 _ rfl t iter m
  refine ⟨h tc, ?_, ?_, ?_⟩
  · rw [h tc, h tc']
    rfl
  · rw [h tc]
    simp [specDispatch, executorCalls_append, executorCalls]
  · rw [h tc]
    simp [specDispatch, bodyCalls_append, bodyCalls]

/-- C5: for every policy index `p` in `2..19` the switcher sets the thread count to
`tc[j]` with `j = (p - 2) mod 6`, then reports exactly that value as a feature,
then makes exactly one executor call, of schedule kind static for `2..7`,
dynamic for `8..13` and guided for `14..19`, with thread count `tc[j]` over the
full range. -/
theorem parallel_policy_dispatch (p : Int) (h2 : 2 ≤ p) (h19 : p ≤ 19) (tc : Fin 6 → Int)
    (iter : List α) (m : Machine α) :
    apolloPolicySwitcher p tc iter m
      = { apollo := { m.apollo with numThreads := tc (Fin.ofNat ((p - 2) % 6).toNat) }
          trace := m.trace ++
            [.setFeature (tc (Fin.ofNat ((p - 2) % 6).toNat)),
             .ompParallelFor (if p ≤ 7 then .static else if p ≤ 13 then .dynamic else .guided)
               (tc (Fin.ofNat ((p - 2) % 6).toNat)) iter] }
    ∧ executorCalls (apolloPolicySwitcher p tc iter m).trace
        = executorCalls m.trace ++
            [(if p ≤ 7 then .static else if p ≤ 13 then .dynamic else .guided,
              tc (Fin.ofNat ((p - 2) % 6).toNat), iter)]
    ∧ bodyCalls (apolloPolicySwitcher p tc iter m).trace = bodyCalls m.trace := by
  have hr : specResolve p = some (.Parallel
      (if p ≤ 7 then .static else if p ≤ 13 then .dynamic else .guided)
      (Fin.ofNat ((p - 2) % 6).toNat)) := by
    unfold specResolve
    rw [if_neg (by omega), if_neg (by omega), if_pos ⟨h2, h19⟩]
  have h := switcher_eq_specDispatch p _ hr tc iter m
  refine ⟨h, ?_, ?_⟩
  · rw [h]
    simp [specDispatch, executorCalls_append, executorCalls]
  · rw [h]
    simp [specDispatch, bodyCalls_append, bodyCalls]

/-- Witness of `parallel_policy_dispatch` at policy index 9 with the table `{2, 3, 4, 6, 8, 8}`. -/
theorem parallel_policy_dispatch_witness :
    apolloPolicySwitcher 9 ![2, 3, 4, 6, 8, 8] [10, 11, 12]
        { apollo := { numThreads := 4, ompDefaultNumThreads := 8, numThreadsPerProcCap := 8 },
          trace := ([] : List (Event Nat)) }
      = { apollo := { numThreads := 3, ompDefaultNumThreads := 8, numThreadsPerProcCap := 8 },
          trace := [.setFeature 3, .ompParallelFor .dynamic 3 [10, 11, 12]] } :=
  (parallel_policy_dispatch 9 (by decide) (by decide) ![2, 3, 4, 6, 8, 8] [10, 11, 12]
    { apollo := { numThreads := 4, ompDefaultNumThreads := 8, numThreadsPerProcCap := 8 },
      trace := [] }).1

/-- C6: every policy index `p` in `[0, 20)` has exactly one action, the switcher
performs that action, and the loop is executed exactly once: by the one serial
pass for the Sequential action, by exactly one executor call over the full
range for every other action. -/
theorem index_to_action_total (p : Int) (h0 : 0 ≤ p) (h20 : p < 20) (tc : Fin 6 → Int)
    (iter : List α) (m : Machine α) :
    ∃! a : Action, specResolve p = some a
      ∧ apolloPolicySwitcher p tc iter m = specDispatch a tc iter m
      ∧ ((a = .Sequential
            ∧ bodyCalls (apolloPolicySwitcher p tc iter m).trace = bodyCalls m.trace ++ iter
            ∧ executorCalls (apolloPolicySwitcher p tc iter m).trace = executorCalls m.trace)
          ∨ (a ≠ .Sequential
            ∧ bodyCalls (apolloPolicySwitcher p tc iter m).trace = bodyCalls m.trace
            ∧ ∃ k n, executorCalls (apolloPolicySwitcher p tc iter m).trace
                = executorCalls m.trace ++ [(k, n, iter)])) := by
  have hsome : ∃ a, specResolve p = some a := by
    unfold specResolve
    by_cases hp0 : p = 0
    · exact ⟨_, if_pos hp0⟩
    · by_cases hp1 : p = 1
      · rw [if_neg hp0]
        exact ⟨_, if_pos hp1⟩
      · rw [if_neg hp0, if_neg hp1]
        exact ⟨_, if_pos ⟨by omega, by omega⟩⟩
  obtain ⟨a, ha⟩ := hsome
  have h := switcher_eq_specDispatch p a ha tc iter m
  refine ⟨a, ⟨ha, h, ?_⟩, ?_⟩
  · rw [h]
    cases a with
    | Default =>
      right
      refine ⟨by simp, ?_, .auto, m.apollo.ompDefaultNumThreads, ?_⟩
      · simp [specDispatch, bodyCalls_append, bodyCalls]
      · simp [specDispatch, executorCalls_append, executorCalls]
    | Sequential =>
      left
      refine ⟨rfl, ?_, ?_⟩
      · simp [specDispatch, bodyCalls_append, bodyCalls, bodyCalls_map_bodyCall]
      · simp [specDispatch, executorCalls_append, executorCalls, executorCalls_map_bodyCall]
    | Parallel k j =>
      right
      refine ⟨by simp, ?_, k, tc j, ?_⟩
      · simp [specDispatch, bodyCalls_append, bodyCalls]
      · simp [specDispatch, executorCalls_append, executorCalls]
  · rintro b ⟨hb, -⟩
    exact Option.some.inj (hb.symm.trans ha)

/-- Witness of `index_to_action_total` at policy index 14. -/
theorem index_to_action_total_witness :
    ∃! a : Action, specResolve 14 = some a
      ∧ apolloPolicySwitcher 14 ![2, 3, 4, 6, 8, 8] [10, 11, 12]
          { apollo := { numThreads := 4, ompDefaultNumThreads := 8, numThreadsPerProcCap := 8 },
            trace := ([] : List (Event Nat)) }
        = specDispatch a ![2, 3, 4, 6, 8, 8] [10, 11, 12]
          { apollo := { numThreads := 4, ompDefaultNumThreads := 8, numThreadsPerProcCap := 8 },
            trace := ([] : List (Event Nat)) }
      ∧ ((a = .Sequential
            ∧ bodyCalls (apolloPolicySwitcher 14 ![2, 3, 4, 6, 8, 8] [10, 11, 12]
                { apollo := { numThreads := 4, ompDefaultNumThreads := 8,
                              numThreadsPerProcCap := 8 },
                  trace := ([] : List (Event Nat)) }).trace = bodyCalls [] ++ [10, 11, 12]
            ∧ executorCalls (apolloPolicySwitcher 14 ![2, 3, 4, 6, 8, 8] [10, 11, 12]
                { apollo := { numThreads := 4, ompDefaultNumThreads := 8,
                              numThreadsPerProcCap := 8 },
                  trace := ([] : List (Event Nat)) }).trace = executorCalls [])
          ∨ (a ≠ .Sequential
            ∧ bodyCalls (apolloPolicySwitcher 14 ![2, 3, 4, 6, 8, 8] [10, 11, 12]
                { apollo := { numThreads := 4, ompDefaultNumThreads := 8,
                              numThreadsPerProcCap := 8 },
                  trace := ([] : List (Event Nat)) }).trace = bodyCalls []
            ∧ ∃ k n, executorCalls (apolloPolicySwitcher 14 ![2, 3, 4, 6, 8, 8] [10, 11, 12]
                { apollo := { numThreads := 4, ompDefaultNumThreads := 8,
                              numThreadsPerProcCap := 8 },
                  trace := ([] : List (Event Nat)) }).trace
                = executorCalls [] ++ [(k, n, [10, 11, 12])])) :=
  index_to_action_total 14 (by decide) (by decide) ![2, 3, 4, 6, 8, 8] [10, 11, 12]
    { apollo := { numThreads := 4, ompDefaultNumThreads := 8, numThreadsPerProcCap := 8 },
      trace := [] }

/-! ### The tier table -/

theorem toInt_div (a : Int) (b : Nat) (hb : 0 < b) :
    toInt ((a : ℚ) / (b : ℚ)) = a.tdiv b := by
  have hbq : (0 : ℚ) < (b : ℚ) := by exact_mod_cast hb
  by_cases ha : 0 ≤ a
  · have h0 : (0 : ℚ) ≤ (a : ℚ) / (b : ℚ) := div_nonneg (by exact_mod_cast ha) hbq.le
    rw [toInt, if_pos h0, Rat.floor_intCast_div_natCast,
      Int.tdiv_eq_ediv ha (Int.ofNat_nonneg b)]
  · have ha' : a < 0 := not_le.mp ha
    have h0 : ¬ (0 : ℚ) ≤ (a : ℚ) / (b : ℚ) :=
      not_le.mpr (div_neg_of_neg_of_pos (by exact_mod_cast ha') hbq)
    have hneg : (a : ℚ) / (b : ℚ) = -(((-a : Int) : ℚ) / (b : ℚ)) := by
      push_cast
      ring
    rw [toInt, if_neg h0, hneg, Int.ceil_neg, Rat.floor_intCast_div_natCast,
      ← Int.tdiv_eq_ediv (by omega) (Int.ofNat_nonneg b), Int.neg_tdiv, neg_neg]

theorem toInt_quarter (C : Int) : toInt ((C : ℚ) * 0.25) = C.tdiv 4 := by
  have h : (C : ℚ) * 0.25 = (C : ℚ) / ((4 : ℕ) : ℚ) := by
    norm_num
    ring
  rw [h, toInt_div C 4 (by norm_num)]
  rfl

theorem toInt_half (C : Int) : toInt ((C : ℚ) * 0.50) = C.tdiv 2 := by
  have h : (C : ℚ) * 0.50 = (C : ℚ) / ((2 : ℕ) : ℚ) := by
    norm_num
    ring
  rw [h, toInt_div C 2 (by norm_num)]
  rfl

theorem toInt_three_quarters (C : Int) : toInt ((C : ℚ) * 0.75) = (3 * C).tdiv 4 := by
  have h : (C : ℚ) * 0.75 = ((3 * C : Int) : ℚ) / ((4 : ℕ) : ℚ) := by
    push_cast
    norm_num
    ring
  rw [h, toInt_div (3 * C) 4 (by norm_num)]
  rfl

/-- The tier table in integer arithmetic: the three `double` products, once
converted, are quotients truncated toward zero. -/
theorem th_count_opts_eq (C : Int) :
    th_count_opts C =
      ![2, min 4 (max 2 (C.tdiv 4)), min 8 (max 2 (C.tdiv 2)), min 16 (max 2 ((3 * C).tdiv 4)),
        min 32 (max 2 C), max 2 C] := by
  simp only [th_count_opts, toInt_quarter, toInt_half, toInt_three_quarters]

/-- Truncating division by a positive literal, split by the sign of the dividend. -/
theorem tdiv_cases (a b : Int) (hb : 0 ≤ b) :
    (0 ≤ a ∧ a.tdiv b = a / b) ∨ (a < 0 ∧ a.tdiv b = -((-a) / b)) := by
  by_cases ha : 0 ≤ a
  · exact Or.inl ⟨ha, Int.tdiv_eq_ediv ha hb⟩
  · refine Or.inr ⟨not_le.mp ha, ?_⟩
    rw [← Int.tdiv_eq_ediv (by omega) hb, Int.neg_tdiv, neg_neg]

/-- The first invocation at a call site stores `th_count_opts` of the current hardware cap. -/
theorem forall_impl_first_table (iter : List α) (r : Int) (m : Machine α) :
    (forall_impl iter r Statics.initial m).1.th_count_opts
      = th_count_opts m.apollo.numThreadsPerProcCap := by
  simp [forall_impl, firstUse, Statics.initial]

/-- The six entries of the tier table, in integer arithmetic. -/
theorem th_count_opts_entries (C : Int) :
    th_count_opts C 0 = 2
    ∧ th_count_opts C 1 = min 4 (max 2 (C.tdiv 4))
    ∧ th_count_opts C 2 = min 8 (max 2 (C.tdiv 2))
    ∧ th_count_opts C 3 = min 16 (max 2 ((3 * C).tdiv 4))
    ∧ th_count_opts C 4 = min 32 (max 2 C)
    ∧ th_count_opts C 5 = max 2 C := by
  rw [th_count_opts_eq]
  exact ⟨rfl, rfl, rfl, rfl, rfl, rfl⟩

/-- C7: for every hardware thread cap `C ≥ 2` the tier table `th_count_opts` has
exactly 6 entries, is non-decreasing, starts with `2` and ends with `C`. -/
theorem cpu_tiers_shape (C : Int) (hC : 2 ≤ C) :
    (List.ofFn (th_count_opts C)).length = 6
    ∧ (th_count_opts C 0 ≤ th_count_opts C 1
        ∧ th_count_opts C 1 ≤ th_count_opts C 2
        ∧ th_count_opts C 2 ≤ th_count_opts C 3
        ∧ th_count_opts C 3 ≤ th_count_opts C 4
        ∧ th_count_opts C 4 ≤ th_count_opts C 5)
    ∧ (∀ i j : Fin 6, i ≤ j → th_count_opts C i ≤ th_count_opts C j)
    ∧ th_count_opts C 0 = 2
    ∧ th_count_opts C 5 = C := by
  have h4 : C.tdiv 4 = C / 4 := Int.tdiv_eq_ediv (by omega) (by decide)
  have h2 : C.tdiv 2 = C / 2 := Int.tdiv_eq_ediv (by omega) (by decide)
  have h3 : (3 * C).tdiv 4 = (3 * C) / 4 := Int.tdiv_eq_ediv (by omega) (by decide)
  obtain ⟨e0, e1, e2, e3, e4, e5⟩ := th_count_opts_entries C
  rw [h4] at e1
  rw [h2] at e2
  rw [h3] at e3
  have c01 : th_count_opts C 0 ≤ th_count_opts C 1 := by omega
  have c12 : th_count_opts C 1 ≤ th_count_opts C 2 := by omega
  have c23 : th_count_opts C 2 ≤ th_count_opts C 3 := by omega
  have c34 : th_count_opts C 3 ≤ th_count_opts C 4 := by omega
  have c45 : th_count_opts C 4 ≤ th_count_opts C 5 := by omega
  have hmono : Monotone (th_count_opts C) := by
    rw [Fin.monotone_iff_le_succ]
    intro i
    fin_cases i
    exacts [c01, c12, c23, c34, c45]
  exact ⟨by simp, ⟨c01, c12, c23, c34, c45⟩, fun i j hij => hmono hij, e0, by omega⟩

/-- Witness of `cpu_tiers_shape` at the hardware cap 8. -/
theorem cpu_tiers_shape_witness :
    (List.ofFn (th_count_opts 8)).length = 6
    ∧ (th_count_opts 8 0 ≤ th_count_opts 8 1
        ∧ th_count_opts 8 1 ≤ th_count_opts 8 2
        ∧ th_count_opts 8 2 ≤ th_count_opts 8 3
        ∧ th_count_opts 8 3 ≤ th_count_opts 8 4
        ∧ th_count_opts 8 4 ≤ th_count_opts 8 5)
    ∧ (∀ i j : Fin 6, i ≤ j → th_count_opts 8 i ≤ th_count_opts 8 j)
    ∧ th_count_opts 8 0 = 2
    ∧ th_count_opts 8 5 = 8 :=
  cpu_tiers_shape 8 (by decide)

/-- C8: for every hardware thread cap `C < 2` (zero and negative values included)
each of the 6 entries of the tier table `th_count_opts` equals `2`; the
computation is a total function, so it cannot fail. -/
theorem degenerate_cap_all_two (C : Int) (hC : C < 2) (i : Fin 6) :
    th_count_opts C i = 2 := by
  obtain ⟨e0, e1, e2, e3, e4, e5⟩ := th_count_opts_entries C
  have f1 : th_count_opts C 1 = 2 := by
    rcases tdiv_cases C 4 (by decide) with ⟨_, h⟩ | ⟨_, h⟩ <;> omega
  have f2 : th_count_opts C 2 = 2 := by
    rcases tdiv_cases C 2 (by decide) with ⟨_, h⟩ | ⟨_, h⟩ <;> omega
  have f3 : th_count_opts C 3 = 2 := by
    rcases tdiv_cases (3 * C) 4 (by decide) with ⟨_, h⟩ | ⟨_, h⟩ <;> omega
  have f4 : th_count_opts C 4 = 2 := by omega
  have f5 : th_count_opts C 5 = 2 := by omega
  fin_cases i
  exacts [e0, f1, f2, f3, f4, f5]

/-- Witness of `degenerate_cap_all_two` at the hardware cap `-5`, entry 3. -/
theorem degenerate_cap_all_two_witness : th_count_opts (-5) 3 = 2 :=
  degenerate_cap_all_two (-5) (by decide) 3

/-- C9, as stated, fails: at the hardware cap `C = 3` entry 3 of the tier table
is `2` (the `(int)` conversion truncates `2.25` to `2`), whereas the ceiling
gives `clamp(2, 16, ⌈2.25⌉) = 3`. -/
theorem cpu_tiers_not_ceiling :
    th_count_opts 3 3 = 2 ∧ specCpuTiers 3 3 = 3 ∧ th_count_opts 3 ≠ specCpuTiers 3 := by
  have hc : th_count_opts 3 3 = 2 := by
    rw [th_count_opts_eq]
    decide
  have hs : specCpuTiers 3 3 = 3 := by
    have h : ⌈(0.75 : ℚ) * ((3 : Int) : ℚ)⌉ = 3 := by
      rw [Int.ceil_eq_iff]
      norm_num
    show specClamp 2 16 ⌈(0.75 : ℚ) * ((3 : Int) : ℚ)⌉ = 3
    rw [h]
    decide
  refine ⟨hc, hs, fun h => ?_⟩
  have h3 := congrFun h 3
  rw [hc, hs] at h3
  exact absurd h3 (by decide)

/-- C9 (amended): for every hardware thread cap `C ≥ 2` the tier table is
`{2, clamp(2,4,⌊0.25C⌋), clamp(2,8,⌊0.50C⌋), clamp(2,16,⌊0.75C⌋), clamp(2,32,C), C}`
with the floor function (the `(int)` conversion truncates) where the claim has
the ceiling. -/
theorem cpu_tiers_floor (C : Int) (hC : 2 ≤ C) : th_count_opts C = floorCpuTiers C := by
  have hq : (0 : ℚ) ≤ (C : ℚ) := by exact_mod_cast (show (0 : Int) ≤ C by omega)
  have e1 : toInt ((C : ℚ) * 0.25) = ⌊(0.25 : ℚ) * C⌋ := by
    rw [toInt, if_pos (by positivity), mul_comm]
  have e2 : toInt ((C : ℚ) * 0.50) = ⌊(0.50 : ℚ) * C⌋ := by
    rw [toInt, if_pos (by positivity), mul_comm]
  have e3 : toInt ((C : ℚ) * 0.75) = ⌊(0.75 : ℚ) * C⌋ := by
    rw [toInt, if_pos (by positivity), mul_comm]
  have e5 : max 2 C = C := by omega
  simp only [th_count_opts, floorCpuTiers, specClamp, e1, e2, e3, e5]

/-- Witness of `cpu_tiers_floor` at the hardware cap 3. -/
theorem cpu_tiers_floor_witness : th_count_opts 3 = floorCpuTiers 3 :=
  cpu_tiers_floor 3 (by decide)

/-- C10: with hardware cap 8 the tier table is `{2, 2, 4, 6, 8, 8}`; policy index 9
is `Parallel(Dynamic, tierIndex = 1)`, and with that table the switcher sets the
thread count to `2`, reports `2` and calls the dynamic-schedule executor with
thread count `2`; so does the whole first invocation on the range `1..1000`. -/
theorem scenario_cap8_policy9 :
    th_count_opts 8 = ![2, 2, 4, 6, 8, 8]
    ∧ specResolve 9 = some (.Parallel .dynamic 1)
    ∧ (∀ (iter : List α) (m : Machine α),
        apolloPolicySwitcher 9 (th_count_opts 8) iter m
          = { apollo := { m.apollo with numThreads := 2 }
              trace := m.trace ++ [.setFeature 2, .ompParallelFor .dynamic 2 iter] })
    ∧ (∀ nt dflt : Int,
        (forall_impl (List.range' 1 1000) 9 Statics.initial
          { apollo := { numThreads := nt, ompDefaultNumThreads := dflt,
                        numThreadsPerProcCap := 8 },
            trace := [] }).2
          = { apollo := { numThreads := 2, ompDefaultNumThreads := dflt,
                          numThreadsPerProcCap := 8 },
              trace := [.regionCreate 1 20, .regionBegin, .setFeature 1000, .getPolicyIndex 9,
                        .setFeature 2, .ompParallelFor .dynamic 2 (List.range' 1 1000),
                        .regionEnd] }) := by
  have ht : th_count_opts 8 = ![2, 2, 4, 6, 8, 8] := by
    rw [th_count_opts_eq]
    decide
  have hsw : ∀ (β : Type) (iter : List β) (m : Machine β),
      apolloPolicySwitcher 9 (th_count_opts 8) iter m
        = { apollo := { m.apollo with numThreads := 2 }
            trace := m.trace ++ [.setFeature 2, .ompParallelFor .dynamic 2 iter] } := by
    intro β iter m
    rw [ht, switcher_eq_specDispatch 9 (.Parallel .dynamic 1) rfl]
    rfl
  refine ⟨ht, rfl, hsw α, ?_⟩
  intro nt dflt
  simp only [forall_impl, firstUse, Statics.initial]
  rw [hsw]
  simp [Machine.emit, POLICY_COUNT]

/-! ### Shared facts about one call of the switcher -/

theorem appended_append (m : Machine α) (a : Apollo) (d : List (Event α)) :
    appended m { apollo := a, trace := m.trace ++ d } = d := by
  simp [appended]

/-- Every call of the switcher either falls through both `switch`es (index
outside `[0, 20)`) or performs the action of its index. -/
theorem switcher_cases (p : Int) (tc : Fin 6 → Int) (iter : List α) (m : Machine α) :
    (specResolve p = none ∧ (p < 0 ∨ 20 ≤ p)
        ∧ apolloPolicySwitcher p tc iter m
            = { apollo := m.apollo, trace := m.trace ++ [.setFeature m.apollo.numThreads] })
    ∨ (∃ a, specResolve p = some a ∧ 0 ≤ p ∧ p < 20
        ∧ apolloPolicySwitcher p tc iter m = specDispatch a tc iter m) := by
  by_cases hp : p < 0 ∨ 20 ≤ p
  · left
    refine ⟨?_, hp, ?_⟩
    · unfold specResolve
      rw [if_neg (by omega), if_neg (by omega), if_neg (by omega)]
    · rw [switcher_out_of_range p hp]
      rfl
  · right
    have h0 : 0 ≤ p := by omega
    have h20 : p < 20 := by omega
    have hsome : ∃ a, specResolve p = some a := by
      unfold specResolve
      by_cases hp0 : p = 0
      · exact ⟨_, if_pos hp0⟩
      · by_cases hp1 : p = 1
        · rw [if_neg hp0]
          exact ⟨_, if_pos hp1⟩
        · rw [if_neg hp0, if_neg hp1]
          exact ⟨_, if_pos ⟨by omega, by omega⟩⟩
    obtain ⟨a, ha⟩ := hsome
    exact ⟨a, ha, h0, h20, switcher_eq_specDispatch p a ha tc iter m⟩

/-- The trace of a call of the switcher extends the trace it started from. -/
theorem switcher_trace (p : Int) (tc : Fin 6 → Int) (iter : List α) (m : Machine α) :
    (apolloPolicySwitcher p tc iter m).trace
      = m.trace ++ appended m (apolloPolicySwitcher p tc iter m) := by
  rcases switcher_cases p tc iter m with ⟨-, -, h⟩ | ⟨a, -, -, -, h⟩
  · rw [h, appended_append]
  · rw [h]
    cases a <;> simp [specDispatch, appended]

/-- No call of the switcher writes `ompDefaultNumThreads` or `numThreadsPerProcCap`. -/
theorem switcher_keeps_defaults (p : Int) (tc : Fin 6 → Int) (iter : List α) (m : Machine α) :
    (apolloPolicySwitcher p tc iter m).apollo.ompDefaultNumThreads
        = m.apollo.ompDefaultNumThreads
    ∧ (apolloPolicySwitcher p tc iter m).apollo.numThreadsPerProcCap
        = m.apollo.numThreadsPerProcCap := by
  rcases switcher_cases p tc iter m with ⟨-, -, h⟩ | ⟨a, -, -, -, h⟩
  · rw [h]
    exact ⟨rfl, rfl⟩
  · rw [h]
    cases a <;> exact ⟨rfl, rfl⟩

/-- The executor calls one call of the switcher makes, by the action of its index. -/
theorem switcher_executorCalls (p : Int) (tc : Fin 6 → Int) (iter : List α) (m : Machine α) :
    executorCalls (appended m (apolloPolicySwitcher p tc iter m))
      = match specResolve p with
        | some .Default => [(.auto, m.apollo.ompDefaultNumThreads, iter)]
        | some (.Parallel k j) => [(k, tc j, iter)]
        | _ => [] := by
  rcases switcher_cases p tc iter m with ⟨hn, -, h⟩ | ⟨a, ha, -, -, h⟩
  · rw [h, appended_append, hn]
    rfl
  · rw [h, ha]
    cases a <;>
      simp [specDispatch, appended, executorCalls, executorCalls_map_bodyCall]

/-- The body applications one call of the switcher makes on the calling thread. -/
theorem switcher_bodyCalls (p : Int) (tc : Fin 6 → Int) (iter : List α) (m : Machine α) :
    bodyCalls (appended m (apolloPolicySwitcher p tc iter m))
      = match specResolve p with
        | some .Sequential => iter
        | _ => [] := by
  rcases switcher_cases p tc iter m with ⟨hn, -, h⟩ | ⟨a, ha, -, -, h⟩
  · rw [h, appended_append, hn]
    rfl
  · rw [h, ha]
    cases a <;>
      simp [specDispatch, appended, bodyCalls, bodyCalls_map_bodyCall]

/-- The thread count one call of the switcher leaves behind. -/
theorem switcher_numThreads (p : Int) (tc : Fin 6 → Int) (iter : List α) (m : Machine α) :
    (apolloPolicySwitcher p tc iter m).apollo.numThreads
      = match specResolve p with
        | some .Default => m.apollo.ompDefaultNumThreads
        | some .Sequential => 1
        | some (.Parallel _ j) => tc j
        | none => m.apollo.numThreads := by
  rcases switcher_cases p tc iter m with ⟨hn, -, h⟩ | ⟨a, ha, -, -, h⟩
  · rw [h, hn]
  · rw [h, ha]
    cases a <;> rfl

/-- C11 at a failing input: with the table `{2, 2, 4, 6, 8, 8}` and default thread
count 16, the call with policy index 4 sets the thread count to `tc[2] = 4`.  The
call with policy index 0 that follows at once resets the thread count to
`ompDefaultNumThreads` and runs its executor with 16 threads, not with 4.  For
every index, table and state the Default call that follows runs with
`ompDefaultNumThreads`. -/
theorem default_after_parallel_uses_default_count :
    (apolloPolicySwitcher 4 ![2, 2, 4, 6, 8, 8] [10, 11, 12]
        { apollo := { numThreads := 1, ompDefaultNumThreads := 16, numThreadsPerProcCap := 8 },
          trace := ([] : List (Event Nat)) }).apollo.numThreads = 4
    ∧ executorCalls
        (apolloPolicySwitcher 0 ![2, 2, 4, 6, 8, 8] [10, 11, 12]
          (apolloPolicySwitcher 4 ![2, 2, 4, 6, 8, 8] [10, 11, 12]
            { apollo := { numThreads := 1, ompDefaultNumThreads := 16,
                          numThreadsPerProcCap := 8 },
              trace := ([] : List (Event Nat)) })).trace
        = [(.static, 4, [10, 11, 12]), (.auto, 16, [10, 11, 12])]
    ∧ (∀ (p : Int) (tc tc' : Fin 6 → Int) (iter iter' : List α) (m : Machine α),
        executorCalls (appended (apolloPolicySwitcher p tc iter m)
            (apolloPolicySwitcher 0 tc' iter' (apolloPolicySwitcher p tc iter m)))
          = [(.auto, m.apollo.ompDefaultNumThreads, iter')]) := by
  refine ⟨by decide, by decide, ?_⟩
  intro p tc tc' iter iter' m
  rw [switcher_executorCalls, (switcher_keeps_defaults p tc iter m).1]
  rfl

/-! ### Whole invocations -/

theorem featureReports_append (s t : List (Event α)) :
    featureReports (s ++ t) = featureReports s ++ featureReports t := by
  induction s with
  | nil => rfl
  | cons e s ih => cases e <;> simp [featureReports, ih]

theorem featureReports_map_bodyCall (iter : List α) :
    featureReports (iter.map Event.bodyCall) = [] := by
  induction iter with
  | nil => rfl
  | cons x xs ih => simpa [featureReports] using ih

/-- The first-use block appends at most the region creation and reports no feature. -/
theorem firstUse_trace (s : Statics) (m : Machine α) :
    ∃ c, (firstUse s m).2.trace = m.trace ++ c ∧ featureReports c = []
      ∧ regionBegins c = 0 ∧ regionEnds c = 0
      ∧ regionCreates c = (if s.apolloRegion = none then 1 else 0) := by
  unfold firstUse
  cases h : s.apolloRegion with
  | none => exact ⟨[.regionCreate 1 POLICY_COUNT], rfl, rfl, rfl, rfl, rfl⟩
  | some R => exact ⟨[], by simp, rfl, rfl, rfl, rfl⟩

/-- The trace of one invocation with policy index 1. -/
theorem forall_impl_sequential_trace (iter : List α) (s : Statics) (m : Machine α) :
    (forall_impl iter 1 s m).2.trace
      = (firstUse s m).2.trace ++
          ([.regionBegin, .setFeature iter.length, .getPolicyIndex 1, .setFeature 1]
            ++ iter.map .bodyCall ++ [.regionEnd]) := by
  simp [forall_impl, switcher_sequential, specDispatch, Machine.emit]

/-- C18: an invocation with policy index 1 reports the range length and then the
feature value `1`, and nothing else: the features reported by the invocation are
exactly `[n, 1]`, and the switcher itself reports exactly `[1]` (no thread count),
before the serial pass and so before it returns. -/
theorem sequential_reports_one (tc : Fin 6 → Int) (iter : List α) (s : Statics)
    (m : Machine α) :
    featureReports (appended m (forall_impl iter 1 s m).2) = [(iter.length : Int), 1]
    ∧ featureReports (appended m (apolloPolicySwitcher 1 tc iter m)) = [1]
    ∧ appended m (apolloPolicySwitcher 1 tc iter m) = .setFeature 1 :: iter.map .bodyCall := by
  refine ⟨?_, ?_, ?_⟩
  · obtain ⟨c, hc, hf, -, -, -⟩ := firstUse_trace s m
    unfold appended
    rw [forall_impl_sequential_trace, hc, List.append_assoc, List.drop_left]
    simp [featureReports_append, featureReports, featureReports_map_bodyCall, hf]
  · rw [switcher_sequential]
    simp [specDispatch, appended, featureReports, featureReports_map_bodyCall]
  · rw [switcher_sequential]
    simp [specDispatch, appended]

/-! ### Sequences of calls -/

theorem switcherCalls_keeps_default (cs : List (Int × (Fin 6 → Int) × List α))
    (m : Machine α) :
    (switcherCalls cs m).apollo.ompDefaultNumThreads = m.apollo.ompDefaultNumThreads := by
  induction cs generalizing m with
  | nil => rfl
  | cons c cs ih =>
    rw [switcherCalls, ih, (switcher_keeps_defaults c.1 c.2.1 c.2.2 m).1]

/-- C20: two calls of the switcher with the same policy index and tier table select
the same action, whatever calls of the switcher happened in between: they make
the same executor calls (same schedule kind, same thread count, same range), the
same serial applications of the body, and, for an index in `[0, 20)`, leave the
same thread count behind. -/
theorem resolution_deterministic (p : Int) (tc : Fin 6 → Int) (iter : List α)
    (between : List (Int × (Fin 6 → Int) × List α)) (m : Machine α) :
    executorCalls (appended (switcherCalls between (apolloPolicySwitcher p tc iter m))
        (apolloPolicySwitcher p tc iter
          (switcherCalls between (apolloPolicySwitcher p tc iter m))))
      = executorCalls (appended m (apolloPolicySwitcher p tc iter m))
    ∧ bodyCalls (appended (switcherCalls between (apolloPolicySwitcher p tc iter m))
        (apolloPolicySwitcher p tc iter
          (switcherCalls between (apolloPolicySwitcher p tc iter m))))
      = bodyCalls (appended m (apolloPolicySwitcher p tc iter m))
    ∧ (0 ≤ p ∧ p < 20 →
        (apolloPolicySwitcher p tc iter
          (switcherCalls between (apolloPolicySwitcher p tc iter m))).apollo.numThreads
        = (apolloPolicySwitcher p tc iter m).apollo.numThreads) := by
  have hd : (switcherCalls between (apolloPolicySwitcher p tc iter m)).apollo.ompDefaultNumThreads
      = m.apollo.ompDefaultNumThreads := by
    rw [switcherCalls_keeps_default, (switcher_keeps_defaults p tc iter m).1]
  refine ⟨?_, ?_, ?_⟩
  · rw [switcher_executorCalls, switcher_executorCalls, hd]
  · rw [switcher_bodyCalls, switcher_bodyCalls]
  · rintro ⟨h0, h20⟩
    rw [switcher_numThreads, switcher_numThreads, hd]
    rcases switcher_cases p tc iter m with ⟨-, ho, -⟩ | ⟨a, ha, -, -, -⟩
    · omega
    · rw [ha]
      cases a <;> rfl

/-- Witness of `resolution_deterministic` at policy index 9, with a Default call
and a call with index 7 in between. -/
theorem resolution_deterministic_witness :
    (apolloPolicySwitcher 9 ![2, 3, 4, 6, 8, 8] [10, 11]
      (switcherCalls [(0, ![2, 3, 4, 6, 8, 8], [5]), (7, ![2, 3, 4, 6, 8, 8], [6])]
        (apolloPolicySwitcher 9 ![2, 3, 4, 6, 8, 8] [10, 11]
          { apollo := { numThreads := 1, ompDefaultNumThreads := 16,
                        numThreadsPerProcCap := 8 },
            trace := ([] : List (Event Nat)) }))).apollo.numThreads
      = (apolloPolicySwitcher 9 ![2, 3, 4, 6, 8, 8] [10, 11]
          { apollo := { numThreads := 1, ompDefaultNumThreads := 16,
                        numThreadsPerProcCap := 8 },
            trace := ([] : List (Event Nat)) }).apollo.numThreads :=
  (resolution_deterministic 9 ![2, 3, 4, 6, 8, 8] [10, 11]
    [(0, ![2, 3, 4, 6, 8, 8], [5]), (7, ![2, 3, 4, 6, 8, 8], [6])]
    { apollo := { numThreads := 1, ompDefaultNumThreads := 16, numThreadsPerProcCap := 8 },
      trace := [] }).2.2 ⟨by decide, by decide⟩

/-! ### The index-to-action mapping -/

theorem specResolve_fin_inj :
    ∀ i j : Fin 20, specResolve (i.val : Int) = specResolve (j.val : Int) → i = j := by
  decide

theorem specResolve_inj (p q : Int) (hp0 : 0 ≤ p) (hp : p < 20) (hq0 : 0 ≤ q) (hq : q < 20)
    (h : specResolve p = specResolve q) : p = q := by
  have e : ∀ x : Int, 0 ≤ x → x < 20 → ∃ i : Fin 20, (i.val : Int) = x := fun x h0 h1 =>
    ⟨⟨x.toNat, by omega⟩, by simp [Int.toNat_of_nonneg h0]⟩
  obtain ⟨i, hi⟩ := e p hp0 hp
  obtain ⟨j, hj⟩ := e q hq0 hq
  rw [← hi, ← hj] at h
  rw [← hi, ← hj, specResolve_fin_inj i j h]

/-- No policy index is a `Parallel` action of schedule kind `auto`. -/
theorem specResolve_not_auto (p : Int) (j : Fin 6) : specResolve p ≠ some (.Parallel .auto j) := by
  unfold specResolve
  split_ifs <;> simp

/-- With a tier table without duplicates, the actions of two policy indices that
behave alike are one action. -/
theorem specDispatch_inj (p q : Int) (a b : Action) (ha : specResolve p = some a)
    (hb : specResolve q = some b) (tc : Fin 6 → Int) (htc : Function.Injective tc)
    (iter : List α) (m : Machine α)
    (h : specDispatch a tc iter m = specDispatch b tc iter m) : a = b := by
  have ht := congrArg Machine.trace h
  cases a with
  | Default =>
    cases b with
    | Default => rfl
    | Sequential =>
      exfalso
      cases iter <;> simp [specDispatch] at ht
    | Parallel k j =>
      exfalso
      simp only [specDispatch, List.append_cancel_left_eq, List.cons.injEq,
        Event.ompParallelFor.injEq] at ht
      exact specResolve_not_auto q j (by rw [hb, ← ht.2.1.1])
  | Sequential =>
    cases b with
    | Default =>
      exfalso
      cases iter <;> simp [specDispatch] at ht
    | Sequential => rfl
    | Parallel k j =>
      exfalso
      cases iter <;> simp [specDispatch] at ht
  | Parallel k j =>
    cases b with
    | Default =>
      exfalso
      simp only [specDispatch, List.append_cancel_left_eq, List.cons.injEq,
        Event.ompParallelFor.injEq] at ht
      exact specResolve_not_auto p j (by rw [ha, ht.2.1.1])
    | Sequential =>
      exfalso
      cases iter <;> simp [specDispatch] at ht
    | Parallel k' j' =>
      simp only [specDispatch, List.append_cancel_left_eq, List.cons.injEq,
        Event.ompParallelFor.injEq, Event.setFeature.injEq] at ht
      rw [ht.2.1.1, htc ht.1]

/-- C16: the index-to-action mapping is injective on `[0, 20)`: two indices with
the same action are equal (in particular two indices in `2..19` with the same
(scheduleKind, tierIndex) pair), and with a tier table without duplicates two
indices on which the switcher behaves alike are equal.  With the table
`{2, 2, 4, 6, 8, 8}` the indices 2 and 3 resolve to the same thread count and the
switcher behaves alike on them, yet their actions differ in the tier index. -/
theorem index_to_action_injective (p q : Int) (hp0 : 0 ≤ p) (hp : p < 20) (hq0 : 0 ≤ q)
    (hq : q < 20) :
    (specResolve p = specResolve q → p = q)
    ∧ (∀ (tc : Fin 6 → Int) (iter : List α) (m : Machine α), Function.Injective tc →
        apolloPolicySwitcher p tc iter m = apolloPolicySwitcher q tc iter m → p = q)
    ∧ (specResolve 2 = some (.Parallel .static 0) ∧ specResolve 3 = some (.Parallel .static 1)
        ∧ ∀ (iter : List α) (m : Machine α),
            apolloPolicySwitcher 2 ![2, 2, 4, 6, 8, 8] iter m
              = apolloPolicySwitcher 3 ![2, 2, 4, 6, 8, 8] iter m) := by
  refine ⟨specResolve_inj p q hp0 hp hq0 hq, ?_, rfl, rfl, ?_⟩
  · intro tc iter m htc h
    rcases switcher_cases p tc iter m with ⟨-, ho, -⟩ | ⟨a, ha, -, -, hpa⟩
    · omega
    rcases switcher_cases q tc iter m with ⟨-, ho, -⟩ | ⟨b, hb, -, -, hqb⟩
    · omega
    rw [hpa, hqb] at h
    have hab := specDispatch_inj p q a b ha hb tc htc iter m h
    exact specResolve_inj p q hp0 hp hq0 hq (by rw [ha, hb, hab])
  · intro iter m
    rw [switcher_eq_specDispatch 2 _ rfl, switcher_eq_specDispatch 3 _ rfl]
    rfl

/-- Witness of `index_to_action_injective` at the indices 8 and 14, which read the
same tier `tc[0]` under different schedule kinds. -/
theorem index_to_action_injective_witness :
    (specResolve 8 = specResolve 14 → (8 : Int) = 14)
    ∧ (∀ (tc : Fin 6 → Int) (iter : List Nat) (m : Machine Nat), Function.Injective tc →
        apolloPolicySwitcher 8 tc iter m = apolloPolicySwitcher 14 tc iter m → (8 : Int) = 14)
    ∧ (specResolve 2 = some (.Parallel .static 0) ∧ specResolve 3 = some (.Parallel .static 1)
        ∧ ∀ (iter : List Nat) (m : Machine Nat),
            apolloPolicySwitcher 2 ![2, 2, 4, 6, 8, 8] iter m
              = apolloPolicySwitcher 3 ![2, 2, 4, 6, 8, 8] iter m) :=
  index_to_action_injective 8 14 (by decide) (by decide) (by decide) (by decide)

/-! ### Region events -/

theorem regionCreates_append (s t : List (Event α)) :
    regionCreates (s ++ t) = regionCreates s + regionCreates t := by
  induction s with
  | nil => simp [regionCreates]
  | cons e s ih =>
    cases e <;> simp [regionCreates, ih]
    all_goals omega

theorem regionBegins_append (s t : List (Event α)) :
    regionBegins (s ++ t) = regionBegins s + regionBegins t := by
  induction s with
  | nil => simp [regionBegins]
  | cons e s ih =>
    cases e <;> simp [regionBegins, ih]
    all_goals omega

theorem regionEnds_append (s t : List (Event α)) :
    regionEnds (s ++ t) = regionEnds s + regionEnds t := by
  induction s with
  | nil => simp [regionEnds]
  | cons e s ih =>
    cases e <;> simp [regionEnds, ih]
    all_goals omega

theorem region_events_map_bodyCall (iter : List α) :
    regionCreates (iter.map Event.bodyCall) = 0 ∧ regionBegins (iter.map Event.bodyCall) = 0
      ∧ regionEnds (iter.map Event.bodyCall) = 0 := by
  induction iter with
  | nil => exact ⟨rfl, rfl, rfl⟩
  | cons x xs ih => simpa [regionCreates, regionBegins, regionEnds] using ih

/-- A call of the switcher creates, begins and ends no region. -/
theorem switcher_no_region_events (p : Int) (tc : Fin 6 → Int) (iter : List α)
    (m : Machine α) :
    regionCreates (appended m (apolloPolicySwitcher p tc iter m)) = 0
    ∧ regionBegins (appended m (apolloPolicySwitcher p tc iter m)) = 0
    ∧ regionEnds (appended m (apolloPolicySwitcher p tc iter m)) = 0 := by
  obtain ⟨h1, h2, h3⟩ := region_events_map_bodyCall iter
  rcases switcher_cases p tc iter m with ⟨-, -, h⟩ | ⟨a, -, -, -, h⟩
  · rw [h, appended_append]
    exact ⟨rfl, rfl, rfl⟩
  · rw [h]
    cases a <;>
      simp [specDispatch, appended, regionCreates, regionBegins, regionEnds, h1, h2, h3]

/-- The trace of one invocation: the first-use block, then region begin, the
range-length report, the policy query, the events of the switcher, region end. -/
theorem forall_impl_trace (iter : List α) (r : Int) (s : Statics) (m : Machine α) :
    ∃ D, (forall_impl iter r s m).2.trace
        = (firstUse s m).2.trace ++
            ([.regionBegin, .setFeature iter.length, .getPolicyIndex r] ++ D ++ [.regionEnd])
      ∧ regionCreates D = 0 ∧ regionBegins D = 0 ∧ regionEnds D = 0 := by
  obtain ⟨h1, h2, h3⟩ := switcher_no_region_events r (firstUse s m).1.th_count_opts iter
    ((((firstUse s m).2.emit .regionBegin).emit (.setFeature iter.length)).emit
      (.getPolicyIndex r))
  refine ⟨_, ?_, h1, h2, h3⟩
  simp only [forall_impl, Machine.emit]
  rw [switcher_trace]
  simp [Machine.emit]

/-- One invocation: the `static` variables and the number of regions created. -/
theorem forall_impl_statics (iter : List α) (r : Int) (s : Statics) (m : Machine α) :
    (forall_impl iter r s m).1.apolloRegion
        = (match s.apolloRegion with
           | none => some { numFeatures := 1, policyCount := POLICY_COUNT }
           | some R => some R)
    ∧ (forall_impl iter r s m).1.th_count_opts
        = (match s.apolloRegion with
           | none => th_count_opts m.apollo.numThreadsPerProcCap
           | some _ => s.th_count_opts)
    ∧ regionCreates (forall_impl iter r s m).2.trace
        = regionCreates m.trace + (if s.apolloRegion = none then 1 else 0) := by
  obtain ⟨D, hD, hc, -, -⟩ := forall_impl_trace iter r s m
  obtain ⟨c, hct, -, -, -, hcc⟩ := firstUse_trace s m
  refine ⟨?_, ?_, ?_⟩
  · cases h : s.apolloRegion <;> simp [forall_impl, firstUse, h]
  · cases h : s.apolloRegion <;> simp [forall_impl, firstUse, h]
  · rw [hD, hct]
    simp [regionCreates_append, regionCreates, hc, hcc]

/-- Once the region exists, no later invocation creates a region or writes the
tier table. -/
theorem invocations_keep (cs : List (Invocation α)) (s : Statics) (m : Machine α) (R : Region)
    (hR : s.apolloRegion = some R) :
    (invocations cs (s, m)).1.apolloRegion = some R
    ∧ (invocations cs (s, m)).1.th_count_opts = s.th_count_opts
    ∧ regionCreates (invocations cs (s, m)).2.trace = regionCreates m.trace := by
  induction cs generalizing s m with
  | nil => exact ⟨hR, rfl, rfl⟩
  | cons c cs ih =>
    obtain ⟨h1, h2, h3⟩ :=
      forall_impl_statics c.iter c.response s { m with apollo := c.env m.apollo }
    rw [hR] at h1 h2 h3
    obtain ⟨i1, i2, i3⟩ := ih (forall_impl c.iter c.response s
      { m with apollo := c.env m.apollo }).1 (forall_impl c.iter c.response s
      { m with apollo := c.env m.apollo }).2 h1
    have h2' : (forall_impl c.iter c.response s
        { m with apollo := c.env m.apollo }).1.th_count_opts = s.th_count_opts := h2
    have h3' : regionCreates (forall_impl c.iter c.response s
        { m with apollo := c.env m.apollo }).2.trace = regionCreates m.trace := by
      simpa using h3
    exact ⟨i1, i2.trans h2', i3.trans h3'⟩

/-- C19: over any sequence of invocations at one call site, started with the
`static` variables at their initial values, the region is created exactly once,
by the first invocation; every later invocation finds that same region; and the
tier table is the one computed by the first invocation from the hardware cap
read then, whatever the cap (or any other field of the singleton) becomes
between the later invocations. -/
theorem region_created_once (c : Invocation α) (cs : List (Invocation α)) (m : Machine α) :
    regionCreates (invocations [c] (Statics.initial, m)).2.trace = regionCreates m.trace + 1
    ∧ regionCreates (invocations (c :: cs) (Statics.initial, m)).2.trace
        = regionCreates m.trace + 1
    ∧ (invocations (c :: cs) (Statics.initial, m)).1.apolloRegion
        = (invocations [c] (Statics.initial, m)).1.apolloRegion
    ∧ (invocations (c :: cs) (Statics.initial, m)).1.apolloRegion
        = some { numFeatures := 1, policyCount := 20 }
    ∧ (invocations (c :: cs) (Statics.initial, m)).1.th_count_opts
        = (invocations [c] (Statics.initial, m)).1.th_count_opts
    ∧ (invocations (c :: cs) (Statics.initial, m)).1.th_count_opts
        = th_count_opts (c.env m.apollo).numThreadsPerProcCap := by
  obtain ⟨h1, h2, h3⟩ :=
    forall_impl_statics c.iter c.response Statics.initial { m with apollo := c.env m.apollo }
  have hR : (forall_impl c.iter c.response Statics.initial
      { m with apollo := c.env m.apollo }).1.apolloRegion
      = some { numFeatures := 1, policyCount := 20 } := h1
  have hT : (forall_impl c.iter c.response Statics.initial
      { m with apollo := c.env m.apollo }).1.th_count_opts
      = th_count_opts (c.env m.apollo).numThreadsPerProcCap := h2
  have hC : regionCreates (forall_impl c.iter c.response Statics.initial
      { m with apollo := c.env m.apollo }).2.trace = regionCreates m.trace + 1 := h3
  obtain ⟨i1, i2, i3⟩ := invocations_keep cs _ (forall_impl c.iter c.response Statics.initial
      { m with apollo := c.env m.apollo }).2 _ hR
  refine ⟨hC, ?_, ?_, ?_, ?_, ?_⟩
  · show regionCreates (invocations cs _).2.trace = _
    rw [← hC]
    exact i3
  · show (invocations cs _).1.apolloRegion = _
    rw [i1]
    exact hR.symm
  · exact i1
  · show (invocations cs _).1.th_count_opts = _
    exact i2
  · show (invocations cs _).1.th_count_opts = _
    rw [← hT]
    exact i2

/-! ### Propagating failures -/

/-- The serial loop with a raising body: it appends body applications only and
is left by the exception exactly when some element of the range raises. -/
theorem serialLoopExc_spec (throws : α → Bool) (iter : List α) (m : Machine α) :
    ∃ D, (serialLoopExc throws iter m).1 = { m with trace := m.trace ++ D }
      ∧ regionBegins D = 0 ∧ regionEnds D = 0
      ∧ ((serialLoopExc throws iter m).2 = .propagated ↔ ∃ x ∈ iter, throws x = true) := by
  induction iter generalizing m with
  | nil => exact ⟨[], by simp [serialLoopExc], rfl, rfl, by simp [serialLoopExc]⟩
  | cons x xs ih =>
    by_cases hx : throws x = true
    · refine ⟨[.bodyCall x], ?_, rfl, rfl, ?_⟩
      · simp [serialLoopExc, hx, Machine.emit]
      · simp [serialLoopExc, hx]
    · obtain ⟨D, hD, hb, he, hp⟩ := ih (m.emit (.bodyCall x))
      have e : serialLoopExc throws (x :: xs) m
          = serialLoopExc throws xs (m.emit (.bodyCall x)) := by
        simp [serialLoopExc, hx]
      refine ⟨.bodyCall x :: D, ?_, ?_, ?_, ?_⟩
      · rw [e, hD]
        simp [Machine.emit]
      · simpa [regionBegins] using hb
      · simpa [regionEnds] using he
      · rw [e, hp]
        simp [hx]

/-- With a body that never raises the loop is `serialLoop`. -/
theorem serialLoopExc_never (iter : List α) (m : Machine α) :
    serialLoopExc (fun _ => false) iter m = (serialLoop iter m, .returned) := by
  induction iter generalizing m with
  | nil => rfl
  | cons x xs ih => simp [serialLoopExc, serialLoop, ih]

/-- For every policy index but 1 the raising switcher makes the calls of the
plain one, and is left by an exception exactly when it called an executor
that failed. -/
theorem switcherExc_ne_one (throws : α → Bool) (ef : Bool) (p : Int) (h1 : p ≠ 1)
    (tc : Fin 6 → Int) (iter : List α) (m : Machine α) :
    apolloPolicySwitcherExc throws ef p tc iter m
      = (apolloPolicySwitcher p tc iter m,
          if 0 ≤ p ∧ p < 20 then executorExit ef else .returned) := by
  by_cases hp : p < 0 ∨ 20 ≤ p
  · have f1 : firstSwitchExc throws p tc iter m = ((m, .returned), false) := by
      unfold firstSwitchExc
      split <;> first | rfl | omega
    have f2 : ∀ m' : Machine α, secondSwitchExc ef p iter m' = (m', .returned) := by
      intro m'
      unfold secondSwitchExc
      split <;> first | rfl | omega
    rw [switcher_out_of_range p hp, if_neg (by omega)]
    simp [apolloPolicySwitcherExc, f1, f2]
  · have h0 : 0 ≤ p := by omega
    have h20 : p < 20 := by omega
    rw [if_pos ⟨h0, h20⟩]
    interval_cases p <;>
      first
      | exact absurd rfl h1
      | simp [apolloPolicySwitcherExc, firstSwitchExc, secondSwitchExc, apolloPolicySwitcher,
          firstSwitch, secondSwitch]

/-- For policy index 1 the raising switcher reports `1`, sets the thread count
and runs the raising serial loop. -/
theorem switcherExc_one (throws : α → Bool) (ef : Bool) (tc : Fin 6 → Int) (iter : List α)
    (m : Machine α) :
    apolloPolicySwitcherExc throws ef 1 tc iter m
      = serialLoopExc throws iter ((m.emit (.setFeature 1)).setNumThreads 1) := by
  simp [apolloPolicySwitcherExc, firstSwitchExc]

/-- With a body and an executor that never fail, the raising embedding is the plain one. -/
theorem forall_implExc_never (iter : List α) (r : Int) (s : Statics) (m : Machine α) :
    forall_implExc (fun _ => false) false iter r s m
      = ((forall_impl iter r s m).1, (forall_impl iter r s m).2, .returned) := by
  by_cases h1 : r = 1
  · subst h1
    simp [forall_implExc, forall_impl, switcherExc_one, serialLoopExc_never,
      apolloPolicySwitcher, firstSwitch]
  · simp [forall_implExc, forall_impl, switcherExc_ne_one _ _ r h1, executorExit]

/-- What a call of the raising switcher appends and how it is left. -/
theorem switcherExc_spec (throws : α → Bool) (ef : Bool) (p : Int) (tc : Fin 6 → Int)
    (iter : List α) (m : Machine α) :
    ∃ D, (apolloPolicySwitcherExc throws ef p tc iter m).1.trace = m.trace ++ D
      ∧ regionBegins D = 0 ∧ regionEnds D = 0
      ∧ ((apolloPolicySwitcherExc throws ef p tc iter m).2 = .propagated
          ↔ (p = 1 ∧ ∃ x ∈ iter, throws x = true)
            ∨ (p ≠ 1 ∧ 0 ≤ p ∧ p < 20 ∧ ef = true)) := by
  by_cases h1 : p = 1
  · subst h1
    obtain ⟨D, hD, hb, he, hp⟩ :=
      serialLoopExc_spec throws iter ((m.emit (.setFeature 1)).setNumThreads 1)
    refine ⟨.setFeature 1 :: D, ?_, ?_, ?_, ?_⟩
    · rw [switcherExc_one, hD]
      simp [Machine.emit, Machine.setNumThreads]
    · simpa [regionBegins] using hb
    · simpa [regionEnds] using he
    · rw [switcherExc_one, hp]
      simp
  · obtain ⟨-, g2, g3⟩ := switcher_no_region_events p tc iter m
    refine ⟨_, ?_, g2, g3, ?_⟩
    · rw [switcherExc_ne_one _ _ p h1]
      exact switcher_trace p tc iter m
    · rw [switcherExc_ne_one _ _ p h1]
      by_cases hr : 0 ≤ p ∧ p < 20
      · cases ef <;> simp [hr, h1, executorExit]
      · have hr' : ¬ (0 ≤ p ∧ p < 20 ∧ ef = true) := fun h => hr ⟨h.1, h.2.1⟩
        simp [hr, h1, hr']

/-- The function `forall_implExc` unfolded. -/
theorem forall_implExc_eq (throws : α → Bool) (ef : Bool) (iter : List α)
    (r : Int) (s : Statics) (m : Machine α) :
    forall_implExc throws ef iter r s m
      = (match (apolloPolicySwitcherExc throws ef r (firstUse s m).1.th_count_opts iter
        ((((firstUse s m).2.emit .regionBegin).emit (.setFeature iter.length)).emit
          (.getPolicyIndex r))).2 with
         | .propagated => ({ (firstUse s m).1 with policy_index := r }, (apolloPolicySwitcherExc throws ef r (firstUse s m).1.th_count_opts iter
        ((((firstUse s m).2.emit .regionBegin).emit (.setFeature iter.length)).emit
          (.getPolicyIndex r))).1, .propagated)
         | .returned => ({ (firstUse s m).1 with policy_index := r }, (apolloPolicySwitcherExc throws ef r (firstUse s m).1.th_count_opts iter
        ((((firstUse s m).2.emit .regionBegin).emit (.setFeature iter.length)).emit
          (.getPolicyIndex r))).1.emit .regionEnd, .returned)) := rfl

/-- The region events of one invocation that may fail: `begin()` is called once;
`end()` is called once when the invocation returns and not at all when a
failure propagates; and a failure propagates exactly when the serial pass
meets a raising element or an executor was called and failed. -/
theorem forall_implExc_region_events (throws : α → Bool) (ef : Bool) (iter : List α)
    (r : Int) (s : Statics) (m : Machine α) :
    regionBegins (forall_implExc throws ef iter r s m).2.1.trace = regionBegins m.trace + 1
    ∧ regionEnds (forall_implExc throws ef iter r s m).2.1.trace
        = regionEnds m.trace
          + (if (forall_implExc throws ef iter r s m).2.2 = .returned then 1 else 0)
    ∧ ((forall_implExc throws ef iter r s m).2.2 = .propagated
        ↔ (r = 1 ∧ ∃ x ∈ iter, throws x = true)
          ∨ (r ≠ 1 ∧ 0 ≤ r ∧ r < 20 ∧ ef = true)) := by
  obtain ⟨c, hct, -, hcb, hce, -⟩ := firstUse_trace s m
  have hM : ((((firstUse s m).2.emit .regionBegin).emit (.setFeature iter.length)).emit
          (.getPolicyIndex r)).trace
      = m.trace ++ c ++ [.regionBegin, .setFeature iter.length, .getPolicyIndex r] := by
    simp [Machine.emit, hct]
  obtain ⟨D, hD, hb, he, hp⟩ := switcherExc_spec throws ef r (firstUse s m).1.th_count_opts iter
    ((((firstUse s m).2.emit .regionBegin).emit (.setFeature iter.length)).emit
          (.getPolicyIndex r))
  rw [hM] at hD
  rw [forall_implExc_eq]
  generalize (apolloPolicySwitcherExc throws ef r (firstUse s m).1.th_count_opts iter
        ((((firstUse s m).2.emit .regionBegin).emit (.setFeature iter.length)).emit
          (.getPolicyIndex r))) = R at hD hp ⊢
  obtain ⟨M', e⟩ := R
  simp only at hD hp
  cases e with
  | returned =>
    have hn : ¬ ((r = 1 ∧ ∃ x ∈ iter, throws x = true)
        ∨ (r ≠ 1 ∧ 0 ≤ r ∧ r < 20 ∧ ef = true)) := fun h =>
      absurd (hp.mpr h) (by decide)
    refine ⟨?_, ?_, ?_⟩
    · simp [Machine.emit, hD, regionBegins_append, regionBegins, hb, hcb]
    · simp [Machine.emit, hD, regionEnds_append, regionEnds, he, hce]
    · constructor
      · intro h
        simp at h
      · intro h
        exact absurd h hn
  | propagated =>
    have hy := hp.mp rfl
    refine ⟨?_, ?_, ?_⟩
    · simp [hD, regionBegins_append, regionBegins, hb, hcb]
    · simp [hD, regionEnds_append, regionEnds, he, hce]
    · exact ⟨fun _ => hy, fun _ => rfl⟩

/-! ### Event order of one invocation -/

/-- C21: for every range and every policy index `p` in `[0, 20)`, the events of
one invocation after its first-use block are, in this order: region `begin()`;
the report of the range length; the policy query; the events `D` of the
dispatch (the report of the resolved thread count followed by the one executor
call, or the report of `1` followed by the serial pass); region `end()`.  At a
call site whose region exists these are all the events of the invocation, so
`begin()` is the first and `end()` the last; on the first invocation the
one-time creation of the region stands before them. -/
theorem invocation_event_order (p : Int) (hp0 : 0 ≤ p) (hp20 : p < 20) (iter : List α)
    (s : Statics) (m : Machine α) :
    ∃ a D, specResolve p = some a
      ∧ D = (match a with
          | .Default =>
            [.setFeature m.apollo.ompDefaultNumThreads,
             .ompParallelFor .auto m.apollo.ompDefaultNumThreads iter]
          | .Sequential => .setFeature 1 :: iter.map .bodyCall
          | .Parallel kind j =>
            [.setFeature ((firstUse s m).1.th_count_opts j),
             .ompParallelFor kind ((firstUse s m).1.th_count_opts j) iter])
      ∧ (forall_impl iter p s m).2.trace
          = (firstUse s m).2.trace ++
              ([.regionBegin, .setFeature iter.length, .getPolicyIndex p] ++ D ++ [.regionEnd])
      ∧ (∀ R, s.apolloRegion = some R →
          appended m (forall_impl iter p s m).2
            = [.regionBegin, .setFeature iter.length, .getPolicyIndex p] ++ D ++ [.regionEnd])
      ∧ (s.apolloRegion = none →
          appended m (forall_impl iter p s m).2
            = .regionCreate 1 20 ::
                ([.regionBegin, .setFeature iter.length, .getPolicyIndex p] ++ D
                  ++ [.regionEnd])) := by
  rcases switcher_cases p (firstUse s m).1.th_count_opts iter
      ((((firstUse s m).2.emit .regionBegin).emit (.setFeature iter.length)).emit
        (.getPolicyIndex p)) with ⟨-, h, -⟩ | ⟨a, ha, -, -, h⟩
  · omega
  · have ht : (forall_impl iter p s m).2.trace
        = (firstUse s m).2.trace ++
            ([.regionBegin, .setFeature iter.length, .getPolicyIndex p]
              ++ (match a with
                | .Default =>
                  [.setFeature m.apollo.ompDefaultNumThreads,
                   .ompParallelFor .auto m.apollo.ompDefaultNumThreads iter]
                | .Sequential => .setFeature 1 :: iter.map .bodyCall
                | .Parallel kind j =>
                  [.setFeature ((firstUse s m).1.th_count_opts j),
                   .ompParallelFor kind ((firstUse s m).1.th_count_opts j) iter])
              ++ [.regionEnd]) := by
      simp only [forall_impl]
      rw [h]
      cases a <;> simp [specDispatch, Machine.emit, firstUse_apollo]
    refine ⟨a, _, ha, rfl, ht, ?_, ?_⟩
    · intro R hR
      have hf : (firstUse s m).2.trace = m.trace := by
        simp [firstUse, hR]
      unfold appended
      rw [ht, hf, List.drop_left]
    · intro hN
      have hf : (firstUse s m).2.trace = m.trace ++ [.regionCreate 1 20] := by
        simp [firstUse, hN, Machine.emit, POLICY_COUNT]
      unfold appended
      rw [ht, hf, List.append_assoc, List.drop_left]
      rfl

/-- Witness of `invocation_event_order`: policy index 9 on a three-element range,
at a call site whose region exists with the table `{2, 3, 4, 6, 8, 8}`. -/
theorem invocation_event_order_witness :
    ∃ a D, specResolve 9 = some a
      ∧ D = [Event.setFeature 3, .ompParallelFor .dynamic 3 [10, 11, 12]]
      ∧ appended
          { apollo := { numThreads := 4, ompDefaultNumThreads := 8, numThreadsPerProcCap := 8 },
            trace := ([] : List (Event Nat)) }
          (forall_impl [10, 11, 12] 9
            { apolloRegion := some { numFeatures := 1, policyCount := 20 }, policy_index := 0,
              th_count_opts := ![2, 3, 4, 6, 8, 8] }
            { apollo := { numThreads := 4, ompDefaultNumThreads := 8, numThreadsPerProcCap := 8 },
              trace := [] }).2
        = [.regionBegin, .setFeature 3, .getPolicyIndex 9] ++ D ++ [.regionEnd] := by
  obtain ⟨a, D, ha, hD, -, h, -⟩ := invocation_event_order 9 (by decide) (by decide)
    [10, 11, 12]
    { apolloRegion := some { numFeatures := 1, policyCount := 20 }, policy_index := 0,
      th_count_opts := ![2, 3, 4, 6, 8, 8] }
    { apollo := { numThreads := 4, ompDefaultNumThreads := 8, numThreadsPerProcCap := 8 },
      trace := ([] : List (Event Nat)) }
  have ha' : a = .Parallel .dynamic 1 := by
    have : specResolve 9 = some (.Parallel .dynamic 1) := by decide
    rw [this] at ha
    exact (Option.some.inj ha).symm
  subst ha'
  refine ⟨.Parallel .dynamic 1, D, ha, ?_, h _ rfl⟩
  rw [hD]
  rfl

/-! ### Concurrent first entry -/

theorem run_append (cap : Int) (w : World) (a b : List Nat) :
    w.run cap (a ++ b) = (w.run cap a).run cap b := by
  simp [World.run, List.foldl_append]

theorem oneAfterAnother_succ (N : Nat) :
    oneAfterAnother (N + 1) = oneAfterAnother N ++ [N, N, N] := by
  simp [oneAfterAnother, List.range_succ, List.flatMap_append]

theorem run_oneAfterAnother (cap : Int) (N : Nat) :
    World.initial.run cap (oneAfterAnother N)
      = { shared := if N = 0 then Shared.initial
                    else { apolloRegion := some 0, th_count_opts := th_count_opts cap,
                           created := 1 }
          pcs := fun i => if i < N then .entered (some 0) (th_count_opts cap) else .test } := by
  induction N with
  | zero => simp [oneAfterAnother, World.run, World.initial]
  | succ N ih =>
    rw [oneAfterAnother_succ, run_append, ih]
    by_cases hN : N = 0
    · subst hN
      simp only [World.run, List.foldl, World.step, threadStep, Shared.initial,
        Function.update_same, Function.update_idem]
      simp
      funext i
      by_cases hi : i = 0 <;> simp [Function.update, hi]
    · simp only [World.run, List.foldl, World.step, threadStep, if_neg hN, lt_irrefl,
        if_false, Function.update_same, Function.update_idem]
      simp
      funext i
      by_cases hi : i = N
      · simp [Function.update, hi]
      · have : (i < N + 1) = (i < N) := by
          apply propext; omega
        simp [Function.update, hi, this]

theorem run_range_succ (cap : Int) (w : World) (k : Nat) :
    w.run cap (List.range (k + 1)) = (w.run cap (List.range k)).step cap k := by
  simp [World.run, List.range_succ, List.foldl_append]

theorem run_tests (cap : Int) (N : Nat) :
    World.initial.run cap (List.range N)
      = { shared := Shared.initial
          pcs := fun i => if i < N then .create else .test } := by
  induction N with
  | zero => simp [World.run, World.initial]
  | succ N ih =>
    rw [run_range_succ, ih]
    simp only [World.step, threadStep, lt_irrefl, if_false, Shared.initial, if_true]
    congr 1
    funext i
    by_cases hi : i = N
    · simp [Function.update, hi]
    · have : (i < N + 1) = (i < N) := by
        apply propext; omega
      simp [Function.update, hi, this]

theorem run_creates (cap : Int) (N k : Nat) (hk : k ≤ N) :
    World.run cap { shared := Shared.initial
                    pcs := fun i => if i < N then .create else .test } (List.range k)
      = { shared := if k = 0 then Shared.initial
                    else { apolloRegion := some (k - 1), th_count_opts := th_count_opts cap,
                           created := k }
          pcs := fun i => if i < k then .enter else if i < N then .create else .test } := by
  induction k with
  | zero => simp [World.run]
  | succ k ih =>
    rw [run_range_succ, ih (by omega)]
    have hkN : k < N := by omega
    simp only [World.step, threadStep, lt_irrefl, if_false, if_pos hkN]
    congr 1
    · by_cases h0 : k = 0 <;> simp [h0, Shared.initial]
    · funext i
      by_cases hi : i = k
      · simp [Function.update, hi]
      · have : (i < k + 1) = (i < k) := by
          apply propext; omega
        simp [Function.update, hi, this]

theorem run_enters (cap : Int) (N k : Nat) (hk : k ≤ N) (sh : Shared) :
    World.run cap { shared := sh
                    pcs := fun i => if i < N then .enter else .test } (List.range k)
      = { shared := sh
          pcs := fun i => if i < k then .entered sh.apolloRegion sh.th_count_opts
                          else if i < N then .enter else .test } := by
  induction k with
  | zero => simp [World.run]
  | succ k ih =>
    rw [run_range_succ, ih (by omega)]
    have hkN : k < N := by omega
    simp only [World.step, threadStep, lt_irrefl, if_false, if_pos hkN]
    congr 1
    funext i
    by_cases hi : i = k
    · simp [Function.update, hi]
    · have : (i < k + 1) = (i < k) := by
        apply propext; omega
      simp [Function.update, hi, this]

theorem run_allTestFirst (cap : Int) (N : Nat) (hN : 1 ≤ N) :
    World.initial.run cap (allTestFirst N)
      = { shared := { apolloRegion := some (N - 1), th_count_opts := th_count_opts cap,
                      created := N }
          pcs := fun i => if i < N then .entered (some (N - 1)) (th_count_opts cap)
                          else .test } := by
  unfold allTestFirst
  rw [run_append, run_append, run_tests, run_creates cap N N le_rfl, if_neg (by omega)]
  have e : (fun i => if i < N then Pc.enter else if i < N then Pc.create else Pc.test)
      = (fun i => if i < N then Pc.enter else Pc.test) := by
    funext i
    by_cases hi : i < N <;> simp [hi]
  rw [e, run_enters cap N N le_rfl]
  congr 1
  funext i
  by_cases hi : i < N <;> simp [hi]

/-- C23, as stated, fails: two threads make the first call at one call site
(hardware cap 8).  Both evaluate `apolloRegion == nullptr` before either has
assigned the pointer; thread 0 then constructs a region and calls `begin()` on
it, thread 1 constructs a second region and calls `begin()` on that one.  Two
`Apollo::Region` objects are constructed and the two callers use different
ones. -/
theorem concurrent_first_entry_two_regions :
    (World.initial.run 8 [0, 1, 0, 0, 1, 1]).shared.created = 2
    ∧ ((World.initial.run 8 [0, 1, 0, 0, 1, 1]).pcs 0).region = some 0
    ∧ ((World.initial.run 8 [0, 1, 0, 0, 1, 1]).pcs 1).region = some 1 :=
  ⟨rfl, rfl, rfl⟩

/-- C23 (amended): when the `N` first calls at a call site are made one after
another, exactly one `Apollo::Region` object is constructed and every caller
calls `begin()` on that object and goes on with the tier table computed from the
hardware cap.  The first-use block takes no lock: when the `N` calls overlap so
that every thread evaluates `apolloRegion == nullptr` before any thread has
assigned the pointer, every thread constructs a region of its own, `N` objects
in all. -/
theorem first_entry_regions_created (cap : Int) (N : Nat) (hN : 1 ≤ N) :
    ((World.initial.run cap (oneAfterAnother N)).shared.created = 1
      ∧ ∀ i, i < N →
          (World.initial.run cap (oneAfterAnother N)).pcs i
            = .entered (some 0) (th_count_opts cap))
    ∧ ((World.initial.run cap (allTestFirst N)).shared.created = N
      ∧ ∀ i, i < N →
          (World.initial.run cap (allTestFirst N)).pcs i
            = .entered (some (N - 1)) (th_count_opts cap)) := by
  rw [run_oneAfterAnother, run_allTestFirst cap N hN]
  refine ⟨⟨?_, ?_⟩, rfl, ?_⟩
  · simp only [if_neg (show ¬ N = 0 by omega)]
  · intro i hi
    simp only [if_pos hi]
  · intro i hi
    simp only [if_pos hi]

/-- Witness of `first_entry_regions_created`: three threads, hardware cap 8. -/
theorem first_entry_regions_created_witness :
    1 ≤ 3
    ∧ (World.initial.run 8 (oneAfterAnother 3)).shared.created = 1
    ∧ (World.initial.run 8 (allTestFirst 3)).shared.created = 3 :=
  ⟨by decide, (first_entry_regions_created 8 3 (by decide)).1.1,
    (first_entry_regions_created 8 3 (by decide)).2.1⟩

end apollo
end policy
end RAJA

/-! ## Theorems: CUDA variant -/

namespace RAJA
namespace policy
namespace apollo_cuda

variable {α : Type}

theorem toInt32_of_lt (v : Int) (h0 : 0 ≤ v) (h : v < 2 ^ 31) : toInt32 v = v := by
  unfold toInt32
  omega

/-- Without wrap-around `getGridDim` is the rounded-up quotient of the range
length by the block size it is given. -/
theorem getGridDim_eq (len BlockSize : Nat) (hl : len < 2 ^ 31) (hb0 : 0 < BlockSize)
    (hb : BlockSize < 2 ^ 31) :
    getGridDim (len % 2 ^ 64) (dim3.ofNat BlockSize)
      = .ok { x := (len + BlockSize - 1) / BlockSize, y := 1, z := 1 } := by
  have e1 : BlockSize % 2 ^ 32 = BlockSize := Nat.mod_eq_of_lt (by omega)
  have e2 : len % 2 ^ 64 = len := Nat.mod_eq_of_lt (by omega)
  have e3 : (len + BlockSize + (2 ^ 64 - 1)) % 2 ^ 64 = len + BlockSize - 1 := by omega
  have e4 : (len + BlockSize - 1) / BlockSize % 2 ^ 32 = (len + BlockSize - 1) / BlockSize :=
    Nat.mod_eq_of_lt (lt_of_le_of_lt (Nat.div_le_self _ _) (by omega))
  simp only [getGridDim, dim3.ofNat, Nat.mul_one, e1, e2, e3, e4]
  rw [if_neg (by omega)]

/-- The trace of one invocation on a non-empty range, for sizes in `int` range:
the grid size is computed from the static `BlockSize`, the launch uses the
resolved block size `r`. -/
theorem forall_impl_ok (BlockSize : Nat) (Async : Bool) (iter : List α) (p r : Int)
    (s : Statics) (t : List (Event α)) (hlen0 : 0 < iter.length) (hlen : iter.length < 2 ^ 31)
    (hb0 : 0 < BlockSize) (hb : BlockSize < 2 ^ 31)
    (hr : resolveBlockSize BlockSize p = .ok r) :
    forall_impl BlockSize Async iter p s t
      = .ok ((firstUse s t).1,
          (firstUse s t).2 ++
            [.regionBegin, .setFeature iter.length, .getPolicyIndex p,
             .printf ((iter.length + BlockSize - 1) / BlockSize : Nat) 1 BlockSize r,
             .kernelLaunch { x := (iter.length + BlockSize - 1) / BlockSize, y := 1, z := 1 }
               (dim3.ofInt r) 0 0 iter iter.length,
             .peekAtLastError, .launch 0]
            ++ (if Async then [] else [.synchronize 0]) ++ [.regionEnd]) := by
  have hc : (0 : Int) < (iter.length : Int) ∧ 0 < BlockSize := ⟨by exact_mod_cast hlen0, hb0⟩
  have hg : (iter.length + BlockSize - 1) / BlockSize < 2 ^ 31 := by
    have hmul : iter.length ≤ iter.length * BlockSize := Nat.le_mul_of_pos_right _ hb0
    have hlt : (iter.length + BlockSize - 1) / BlockSize < iter.length + 1 := by
      rw [Nat.div_lt_iff_lt_mul hb0, Nat.add_mul, Nat.one_mul]
      omega
    omega
  have k1 : toInt32 (iter.length : Int) = iter.length := toInt32_of_lt _ (by omega) (by omega)
  have k2 : toInt32 (BlockSize : Int) = BlockSize := toInt32_of_lt _ (by omega) (by omega)
  have k3 : toInt32 (((iter.length + BlockSize - 1) / BlockSize : Nat) : Int)
      = ((iter.length + BlockSize - 1) / BlockSize : Nat) :=
    toInt32_of_lt _ (Int.ofNat_nonneg _) (by exact_mod_cast hg)
  have k4 : toInt32 ((1 : Nat) : Int) = 1 := by decide
  unfold forall_impl
  simp only [if_pos hc, hr, Int.toNat_ofNat, getGridDim_eq _ _ hlen hb0 hb, k1, k2, k3, k4]
  cases Async <;> simp

/-- C2 at a failing input: range length 10000, static `BlockSize = 256`, oracle
response 1.  The resolved block size is `blockSizeOptions[1] = 32` and the kernel
is launched with it, but the grid size passed to the launch is
`getGridDim(len, BlockSize) = 40`, computed from the static `BlockSize`; the
claimed `ceil(10000 / 32)` is 313. -/
theorem gpu_grid_uses_static_block_size :
    forall_impl 256 false (List.replicate 10000 ()) 1 Statics.initial []
      = .ok ({ apolloRegion := some { numFeatures := 1, policyCount := 20 } },
          [.regionCreate 1 20, .regionBegin, .setFeature 10000, .getPolicyIndex 1,
           .printf 40 1 256 32,
           .kernelLaunch { x := 40, y := 1, z := 1 } { x := 32, y := 1, z := 1 } 0 0
             (List.replicate 10000 ()) 10000,
           .peekAtLastError, .launch 0, .synchronize 0, .regionEnd])
    ∧ resolveBlockSize 256 1 = .ok 32
    ∧ specGridSize 10000 32 = 313 := by
  have hr : resolveBlockSize 256 1 = .ok 32 := rfl
  have hs : specGridSize 10000 32 = 313 := by
    unfold specGridSize
    rw [Int.ceil_eq_iff]
    norm_num
  have key : ∀ iter : List Unit, iter.length = 10000 →
      forall_impl 256 false iter 1 Statics.initial []
        = .ok ({ apolloRegion := some { numFeatures := 1, policyCount := 20 } },
            [.regionCreate 1 20, .regionBegin, .setFeature 10000, .getPolicyIndex 1,
             .printf 40 1 256 32,
             .kernelLaunch { x := 40, y := 1, z := 1 } { x := 32, y := 1, z := 1 } 0 0
               iter 10000,
             .peekAtLastError, .launch 0, .synchronize 0, .regionEnd]) := by
    intro iter hlen
    rw [forall_impl_ok 256 false iter 1 32 Statics.initial []
      (by omega) (by omega) (by decide) (by decide) hr]
    simp [hlen, firstUse, Statics.initial, POLICY_COUNT, dim3.ofInt]
  exact ⟨key _ (List.length_replicate 10000 ()), hr, hs⟩

/-! ### The block-size table -/

theorem resolveBlockSize_out_of_range (BlockSize : Nat) (p : Int) (hp : p < 0 ∨ 20 ≤ p) :
    resolveBlockSize BlockSize p = .error .indexOutOfBounds := by
  unfold resolveBlockSize
  rw [if_neg (by omega)]
  by_cases hneg : p < 0
  · rw [if_pos hneg]
  · rw [if_neg hneg]
    have hnone : blockSizeOptions.get? p.toNat = none := by
      rw [List.get?_eq_none]
      have : blockSizeOptions.length = 20 := rfl
      omega
    rw [hnone]

theorem resolveBlockSize_in_table (BlockSize : Nat) (p : Int) (h1 : 1 ≤ p) (h19 : p ≤ 19) :
    ∃ b, blockSizeOptions.get? p.toNat = some b ∧ resolveBlockSize BlockSize p = .ok b := by
  interval_cases p <;> exact ⟨_, rfl, rfl⟩

/-- The first-use block appends at most the region creation. -/
theorem gpu_firstUse_trace (s : Statics) (t : List (Event α)) :
    ∃ c, (firstUse s t).2 = t ++ c ∧ launches c = []
      ∧ regionBegins c = 0 ∧ regionEnds c = 0 := by
  unfold firstUse
  cases s.apolloRegion with
  | none => exact ⟨[.regionCreate 1 POLICY_COUNT], rfl, rfl, rfl, rfl⟩
  | some R => exact ⟨[], by simp, rfl, rfl, rfl⟩

/-- An index is recognised by the CPU switcher when the call executes the loop
over a non-empty range; that is so exactly for the indices in `[0, 20)`. -/
theorem switcher_recognises (p : Int) (tc : Fin 6 → Int) (x : α) (iter : List α)
    (m : apollo.Machine α) :
    (apollo.executorCalls
          (apollo.appended m (apollo.apolloPolicySwitcher p tc (x :: iter) m)) ≠ []
        ∨ apollo.bodyCalls
          (apollo.appended m (apollo.apolloPolicySwitcher p tc (x :: iter) m)) ≠ [])
      ↔ (0 ≤ p ∧ p < apollo.POLICY_COUNT) := by
  rw [apollo.switcher_executorCalls, apollo.switcher_bodyCalls]
  rcases apollo.switcher_cases p tc (x :: iter) m with ⟨hn, ho, -⟩ | ⟨a, ha, h0, h20, -⟩
  · rw [hn]
    simp only [apollo.POLICY_COUNT]
    constructor
    · rintro (h | h) <;> exact absurd rfl h
    · intro h
      omega
  · rw [ha]
    simp only [apollo.POLICY_COUNT]
    cases a <;> simp [h0, h20]

theorem resolveBlockSize_ok_iff (BlockSize : Nat) (p : Int) :
    (∃ b, resolveBlockSize BlockSize p = .ok b) ↔ (0 ≤ p ∧ p < POLICY_COUNT) := by
  simp only [POLICY_COUNT]
  constructor
  · rintro ⟨b, hb⟩
    by_contra hp
    rw [resolveBlockSize_out_of_range BlockSize p (by omega)] at hb
    exact Except.noConfusion hb
  · rintro ⟨h0, h20⟩
    by_cases hq : p = 0
    · subst hq
      exact ⟨_, rfl⟩
    · obtain ⟨b, -, hb'⟩ := resolveBlockSize_in_table BlockSize p (by omega) (by omega)
      exact ⟨b, hb'⟩

/-- C17: in both variants the action-space size declared when the region is
created equals the number of indices the dispatcher recognises.  On CPU
`POLICY_COUNT = 20`, the switcher executes the loop exactly for the indices in
`[0, POLICY_COUNT)`, and the region is created with `POLICY_COUNT`; on GPU
`POLICY_COUNT = 20` is the length of `blockSizeOptions`, a block size is resolved
exactly for the indices in `[0, POLICY_COUNT)`, and the region is created with
`POLICY_COUNT`.  An invocation that finds the region keeps it, so the declared
size is the same on every invocation. -/
theorem action_space_size_matches :
    apollo.POLICY_COUNT = 20
    ∧ (∀ (p : Int) (tc : Fin 6 → Int) (x : α) (iter : List α) (m : apollo.Machine α),
        (apollo.executorCalls
              (apollo.appended m (apollo.apolloPolicySwitcher p tc (x :: iter) m)) ≠ []
            ∨ apollo.bodyCalls
              (apollo.appended m (apollo.apolloPolicySwitcher p tc (x :: iter) m)) ≠ [])
          ↔ (0 ≤ p ∧ p < apollo.POLICY_COUNT))
    ∧ (∀ (iter : List α) (r : Int) (s : apollo.Statics) (m : apollo.Machine α),
        (apollo.forall_impl iter r s m).1.apolloRegion
          = (match s.apolloRegion with
             | none => some { numFeatures := 1, policyCount := apollo.POLICY_COUNT }
             | some R => some R))
    ∧ (∀ m : apollo.Machine α,
        (apollo.firstUse apollo.Statics.initial m).2
          = m.emit (.regionCreate 1 apollo.POLICY_COUNT))
    ∧ POLICY_COUNT = 20
    ∧ (blockSizeOptions.length : Int) = POLICY_COUNT
    ∧ (∀ (BlockSize : Nat) (p : Int),
        (∃ b, resolveBlockSize BlockSize p = .ok b) ↔ (0 ≤ p ∧ p < POLICY_COUNT))
    ∧ (∀ (s : Statics) (t : List (Event α)),
        (firstUse s t).1.apolloRegion
          = (match s.apolloRegion with
             | none => some { numFeatures := 1, policyCount := POLICY_COUNT }
             | some R => some R))
    ∧ (∀ t : List (Event α),
        (firstUse Statics.initial t).2 = t ++ [.regionCreate 1 POLICY_COUNT]) := by
  refine ⟨rfl, switcher_recognises, ?_, fun _ => rfl, rfl, rfl, resolveBlockSize_ok_iff, ?_,
    fun _ => rfl⟩
  · intro iter r s m
    exact (apollo.forall_impl_statics iter r s m).1
  · intro s t
    unfold firstUse
    cases s with
    | mk R => cases R <;> rfl

/-! ### Region end on every exit path -/

theorem gpu_regionBegins_append (s t : List (Event α)) :
    regionBegins (s ++ t) = regionBegins s + regionBegins t := by
  induction s with
  | nil => simp [regionBegins]
  | cons e s ih =>
    cases e <;> simp [regionBegins, ih]
    all_goals omega

theorem gpu_regionEnds_append (s t : List (Event α)) :
    regionEnds (s ++ t) = regionEnds s + regionEnds t := by
  induction s with
  | nil => simp [regionEnds]
  | cons e s ih =>
    cases e <;> simp [regionEnds, ih]
    all_goals omega

/-- The region events of one GPU invocation that may fail. -/
theorem gpu_forall_implExc_region_events (pf sf : Bool) (BlockSize : Nat) (Async : Bool)
    (iter : List α) (p : Int) (s s' : Statics) (t t' : List (Event α)) (e : apollo.Exit)
    (h : forall_implExc pf sf BlockSize Async iter p s t = .ok (s', t', e)) :
    regionBegins t' = regionBegins t + (if 0 < iter.length ∧ 0 < BlockSize then 1 else 0)
    ∧ regionEnds t'
        = regionEnds t
          + (if (0 < iter.length ∧ 0 < BlockSize) ∧ e = .returned then 1 else 0)
    ∧ (e = .propagated
        ↔ (0 < iter.length ∧ 0 < BlockSize) ∧ (pf = true ∨ (Async = false ∧ sf = true))) := by
  obtain ⟨c, hc, -, hcb, hce⟩ := gpu_firstUse_trace s t
  unfold forall_implExc at h
  by_cases hcond : (0 : Int) < (iter.length : Int) ∧ 0 < BlockSize
  · have hcond' : 0 < iter.length ∧ 0 < BlockSize := ⟨by exact_mod_cast hcond.1, hcond.2⟩
    simp only [if_pos hcond] at h
    cases hr : resolveBlockSize BlockSize p with
    | error f =>
      rw [hr] at h
      exact Except.noConfusion h
    | ok b =>
      cases hg : getGridDim ((iter.length : Int).toNat % 2 ^ 64) (dim3.ofNat BlockSize) with
      | error f =>
        rw [hr, hg] at h
        exact Except.noConfusion h
      | ok g =>
        rw [hr, hg, hc] at h
        cases pf <;> cases Async <;> cases sf <;>
          simp only [Bool.false_eq_true, if_false, if_true, Except.ok.injEq, Prod.mk.injEq] at h <;>
          obtain ⟨-, rfl, rfl⟩ := h <;>
          simp [gpu_regionBegins_append, gpu_regionEnds_append, regionBegins, regionEnds, hcb, hce,
            hcond']
  · have hcond' : ¬ (0 < iter.length ∧ 0 < BlockSize) := fun hh =>
      hcond ⟨by exact_mod_cast hh.1, hh.2⟩
    simp only [if_neg hcond, Except.ok.injEq, Prod.mk.injEq] at h
    obtain ⟨-, rfl, rfl⟩ := h
    rw [hc]
    simp [gpu_regionBegins_append, gpu_regionEnds_append, hcb, hce, hcond']

/-- C12, as stated, fails.  On CPU, with policy index 1 on the range `[10, 11, 12]`
and a loop body that raises at `11`, `begin()` was called, the failure
propagates and the invocation ends after `body(11)` without any `end()`.  On
GPU, when `peekAtLastError()` raises after the launch, the failure propagates
without any `end()`. -/
theorem region_end_skipped_on_failure :
    apollo.forall_implExc (fun x => decide (x = 11)) false [10, 11, 12] 1
        apollo.Statics.initial
        { apollo := { numThreads := 4, ompDefaultNumThreads := 8, numThreadsPerProcCap := 8 },
          trace := ([] : List (apollo.Event Nat)) }
      = ({ apolloRegion := some { numFeatures := 1, policyCount := 20 }, policy_index := 1,
           th_count_opts := apollo.th_count_opts 8 },
         { apollo := { numThreads := 1, ompDefaultNumThreads := 8, numThreadsPerProcCap := 8 },
           trace := [.regionCreate 1 20, .regionBegin, .setFeature 3, .getPolicyIndex 1,
                     .setFeature 1, .bodyCall 10, .bodyCall 11] },
         .propagated)
    ∧ apollo.regionEnds
        [apollo.Event.regionCreate 1 20, .regionBegin, .setFeature 3, .getPolicyIndex 1,
          .setFeature 1, .bodyCall 10, .bodyCall (11 : Nat)] = 0
    ∧ forall_implExc true false 2 false [(), (), ()] 0 Statics.initial []
      = .ok ({ apolloRegion := some { numFeatures := 1, policyCount := 20 } },
          [.regionCreate 1 20, .regionBegin, .setFeature 3, .getPolicyIndex 0,
           .printf 2 1 2 2,
           .kernelLaunch { x := 2, y := 1, z := 1 } { x := 2, y := 1, z := 1 } 0 0
             [(), (), ()] 3,
           .peekAtLastError],
          .propagated) :=
  ⟨rfl, rfl, rfl⟩

/-- C12 (amended): in both variants an invocation that calls region `begin()` calls
it once, and calls region `end()` exactly once when it returns normally.  Neither variant guards the dispatch: when a failure
propagates (on CPU the loop body raises during the serial pass of policy index
1, or a called executor fails; on GPU `peekAtLastError()` or, in synchronous
mode, `synchronize()` raises) `end()` is not called. -/
theorem region_end_only_on_return :
    (∀ (throws : α → Bool) (ef : Bool) (iter : List α) (r : Int) (s : apollo.Statics)
        (m : apollo.Machine α),
        apollo.regionBegins (apollo.forall_implExc throws ef iter r s m).2.1.trace
            = apollo.regionBegins m.trace + 1
        ∧ apollo.regionEnds (apollo.forall_implExc throws ef iter r s m).2.1.trace
            = apollo.regionEnds m.trace
              + (if (apollo.forall_implExc throws ef iter r s m).2.2 = .returned then 1 else 0)
        ∧ ((apollo.forall_implExc throws ef iter r s m).2.2 = .propagated
            ↔ (r = 1 ∧ ∃ x ∈ iter, throws x = true)
              ∨ (r ≠ 1 ∧ 0 ≤ r ∧ r < 20 ∧ ef = true))
        ∧ apollo.forall_implExc (fun _ => false) false iter r s m
            = ((apollo.forall_impl iter r s m).1, (apollo.forall_impl iter r s m).2, .returned))
    ∧ (∀ (pf sf : Bool) (BlockSize : Nat) (Async : Bool) (iter : List α) (p : Int)
        (s s' : Statics) (t t' : List (Event α)) (e : apollo.Exit),
        forall_implExc pf sf BlockSize Async iter p s t = .ok (s', t', e) →
        regionBegins t'
            = regionBegins t + (if 0 < iter.length ∧ 0 < BlockSize then 1 else 0)
        ∧ regionEnds t'
            = regionEnds t
              + (if (0 < iter.length ∧ 0 < BlockSize) ∧ e = .returned then 1 else 0)
        ∧ (e = .propagated
            ↔ (0 < iter.length ∧ 0 < BlockSize)
              ∧ (pf = true ∨ (Async = false ∧ sf = true)))) := by
  refine ⟨?_, ?_⟩
  · intro throws ef iter r s m
    obtain ⟨h1, h2, h3⟩ := apollo.forall_implExc_region_events throws ef iter r s m
    exact ⟨h1, h2, h3, apollo.forall_implExc_never iter r s m⟩
  · intro pf sf BlockSize Async iter p s s' t t' e h
    exact gpu_forall_implExc_region_events pf sf BlockSize Async iter p s s' t t' e h

/-- Witness of `region_end_only_on_return` on GPU: a synchronous invocation on 3
elements with `BlockSize = 2` and policy index 0 whose `synchronize()` raises. -/
theorem region_end_only_on_return_witness :
    regionBegins
        [Event.regionCreate 1 20, .regionBegin, .setFeature 3, .getPolicyIndex 0,
          .printf 2 1 2 2,
          .kernelLaunch { x := 2, y := 1, z := 1 } { x := 2, y := 1, z := 1 } 0 0
            [(), (), ()] 3,
          .peekAtLastError, .launch 0, .synchronize 0]
        = regionBegins ([] : List (Event Unit))
          + (if 0 < ([(), (), ()] : List Unit).length ∧ 0 < 2 then 1 else 0)
    ∧ regionEnds
        [Event.regionCreate 1 20, .regionBegin, .setFeature 3, .getPolicyIndex 0,
          .printf 2 1 2 2,
          .kernelLaunch { x := 2, y := 1, z := 1 } { x := 2, y := 1, z := 1 } 0 0
            [(), (), ()] 3,
          .peekAtLastError, .launch 0, .synchronize 0]
        = regionEnds ([] : List (Event Unit))
          + (if (0 < ([(), (), ()] : List Unit).length ∧ 0 < 2)
              ∧ apollo.Exit.propagated = .returned then 1 else 0)
    ∧ (apollo.Exit.propagated = .propagated
        ↔ (0 < ([(), (), ()] : List Unit).length ∧ 0 < 2)
          ∧ (false = true ∨ (false = false ∧ true = true))) :=
  (region_end_only_on_return (α := Unit)).2 false true 2 false [(), (), ()] 0 Statics.initial
    { apolloRegion := some { numFeatures := 1, policyCount := 20 } } []
    [Event.regionCreate 1 20, .regionBegin, .setFeature 3, .getPolicyIndex 0,
      .printf 2 1 2 2,
      .kernelLaunch { x := 2, y := 1, z := 1 } { x := 2, y := 1, z := 1 } 0 0
        [(), (), ()] 3,
      .peekAtLastError, .launch 0, .synchronize 0]
    .propagated rfl

/-! ### Synchronisation -/

theorem synchronizes_append (s t : List (Event α)) :
    synchronizes (s ++ t) = synchronizes s + synchronizes t := by
  induction s with
  | nil => simp [synchronizes]
  | cons e s ih =>
    cases e <;> simp [synchronizes, ih]
    omega

/-- The segment loop started at counter `isi` with `n` segments left makes the
calls for segments `isi, isi + 1, ..., isi + n - 1`, in this order. -/
theorem segmentLoop_eq (BlockSize : Nat) (n : Nat) (isi : Int) (t : List SegmentEvent) :
    segmentLoop BlockSize (isi + n) isi t
      = t ++ (List.range n).map (fun k => .segmentCall (isi + k) BlockSize true) := by
  induction n generalizing isi t with
  | zero =>
    rw [segmentLoop]
    simp
  | succ n ih =>
    rw [segmentLoop, if_pos (by push_cast; omega)]
    have e : isi + ((n + 1 : Nat) : Int) = (isi + 1) + (n : Int) := by push_cast; ring
    rw [e, ih, List.range_succ_eq_map]
    simp [List.map_map, Function.comp_def, add_assoc, add_comm (1 : Int)]

theorem segmentLoop_nonpos (BlockSize : Nat) (num_seg : Int) (h : num_seg ≤ 0)
    (t : List SegmentEvent) : segmentLoop BlockSize num_seg 0 t = t := by
  rw [segmentLoop, if_neg (by omega)]

/-- C22: an invocation of `forall_impl(apollo_cuda_exec<BlockSize, Async>, ...)` that
launches a kernel (non-empty range, `BlockSize > 0`, policy index in `[0, 20)`,
sizes in `int` range) makes one kernel launch, followed by `peekAtLastError()`
and `launch(stream)`; `synchronize(stream)` follows them exactly when `Async` is
false, and no other synchronisation is made.  The index-set variant calls the
segments `0, 1, ..., num_seg - 1` in this order, each with the policy
`cuda_exec<BlockSize, true>` (asynchronous), and then makes one `synchronize()`
exactly when `Async` is false. -/
theorem synchronise_iff_not_async (BlockSize : Nat) (Async : Bool) (iter : List α) (p : Int)
    (s : Statics) (t : List (Event α)) (hlen0 : 0 < iter.length) (hlen : iter.length < 2 ^ 31)
    (hb0 : 0 < BlockSize) (hb : BlockSize < 2 ^ 31) (hp0 : 0 ≤ p) (hp : p < 20)
    (num_seg : Int) (u : List SegmentEvent) :
    (∃ pre g b, forall_impl BlockSize Async iter p s t
        = .ok ((firstUse s t).1,
            (firstUse s t).2 ++ pre
              ++ [.kernelLaunch g b 0 0 iter iter.length, .peekAtLastError, .launch 0]
              ++ (if Async then [] else [.synchronize 0]) ++ [.regionEnd])
      ∧ synchronizes pre = 0 ∧ launches pre = [])
    ∧ forall_impl_seq_segit BlockSize Async num_seg u
        = u ++ (List.range num_seg.toNat).map (fun k => .segmentCall k BlockSize true)
            ++ (if Async then [] else [.synchronize]) := by
  constructor
  · obtain ⟨r, hr⟩ := (resolveBlockSize_ok_iff BlockSize p).mpr ⟨hp0, hp⟩
    rw [forall_impl_ok BlockSize Async iter p r s t hlen0 hlen hb0 hb hr]
    refine ⟨[.regionBegin, .setFeature iter.length, .getPolicyIndex p,
      .printf ((iter.length + BlockSize - 1) / BlockSize : Nat) 1 BlockSize r],
      { x := (iter.length + BlockSize - 1) / BlockSize, y := 1, z := 1 }, dim3.ofInt r, ?_,
      rfl, rfl⟩
    simp
  · have hl : segmentLoop BlockSize num_seg 0 u
        = u ++ (List.range num_seg.toNat).map (fun k => .segmentCall k BlockSize true) := by
      by_cases hn : num_seg ≤ 0
      · rw [segmentLoop_nonpos BlockSize num_seg hn, Int.toNat_of_nonpos hn]
        simp
      · have e : num_seg = 0 + (num_seg.toNat : Int) := by
          rw [Int.toNat_of_nonneg (by omega)]
          simp
        have h := segmentLoop_eq BlockSize num_seg.toNat 0 u
        rw [← e] at h
        rw [h]
        simp
    unfold forall_impl_seq_segit
    simp only [hl]
    cases Async <;> simp

/-- Witness of `synchronise_iff_not_async`: a synchronous invocation on three
elements with `BlockSize = 2` and policy index 0, and a synchronous index set of
two segments. -/
theorem synchronise_iff_not_async_witness :
    (∃ pre g b, forall_impl 2 false [(), (), ()] 0 Statics.initial ([] : List (Event Unit))
        = .ok ((firstUse Statics.initial ([] : List (Event Unit))).1,
            (firstUse Statics.initial ([] : List (Event Unit))).2 ++ pre
              ++ [.kernelLaunch g b 0 0 [(), (), ()] ([(), (), ()] : List Unit).length,
                  .peekAtLastError, .launch 0]
              ++ (if false = true then [] else [.synchronize 0]) ++ [.regionEnd])
      ∧ synchronizes pre = 0 ∧ launches pre = [])
    ∧ forall_impl_seq_segit 2 false 2 []
        = [] ++ (List.range (2 : Int).toNat).map (fun k => .segmentCall k 2 true)
            ++ (if false = true then [] else [.synchronize]) :=
  synchronise_iff_not_async 2 false [(), (), ()] 0 Statics.initial [] (by decide) (by decide)
    (by decide) (by decide) (by decide) (by decide) 2 []

/-! ### The threads of a launch -/

/-- The indices reached by a one-dimensional launch whose global indices do not
wrap: those below both the number of threads and the length. -/
theorem mem_launchIndices (g b : dim3) (len : Int) (ii : Nat) (h : g.x * b.x ≤ 2 ^ 32) :
    ii ∈ launchIndices g b len ↔ ii < g.x * b.x ∧ (ii : Int) < len := by
  simp only [launchIndices, List.mem_flatMap, List.mem_filterMap, List.mem_range,
    forall_cuda_kernel, getGlobalIdx_1D_1D]
  constructor
  · rintro ⟨bi, hbi, ti, hti, hk⟩
    have h1 : bi * b.x + ti < g.x * b.x := by
      have : (bi + 1) * b.x ≤ g.x * b.x := Nat.mul_le_mul_right _ hbi
      rw [Nat.add_mul, Nat.one_mul] at this
      omega
    rw [Nat.mod_eq_of_lt (by omega)] at hk
    split at hk
    · have e := Option.some.inj hk
      subst e
      exact ⟨h1, by assumption⟩
    · exact absurd hk (by simp)
  · rintro ⟨h1, h2⟩
    have hb : 0 < b.x := by
      rcases Nat.eq_zero_or_pos b.x with h0 | h0
      · rw [h0] at h1
        omega
      · exact h0
    refine ⟨ii / b.x, (Nat.div_lt_iff_lt_mul hb).mpr h1, ii % b.x, Nat.mod_lt _ hb, ?_⟩
    have e : ii / b.x * b.x + ii % b.x = ii := by
      rw [Nat.mul_comm]
      exact Nat.div_add_mod ii b.x
    rw [e, Nat.mod_eq_of_lt (by omega), if_pos h2]

/-- The grid of `getGridDim` times the block size it was computed from covers the length. -/
theorem ceil_div_mul_ge (len B : Nat) (hB : 0 < B) :
    len ≤ (len + B - 1) / B * B ∧ (len + B - 1) / B * B < len + B := by
  have h1 := Nat.div_add_mod (len + B - 1) B
  have h2 := Nat.mod_lt (len + B - 1) hB
  rw [Nat.mul_comm] at h1
  omega

/-- C31 at a failing input.  A one-dimensional launch reaches every index of the
range exactly when the number of threads, grid size times block size, is at
least the length.  The launch of policy index 0 (grid from `BlockSize`, block
`BlockSize`) does so.  With range length 10000, `BlockSize = 256` and policy
index 1 the kernel is launched with grid 40, computed from the static
`BlockSize`, and block 32, the resolved size: `40 * 32 = 1280` threads, and
the loop body is applied to no index from 1280 on. -/
theorem gpu_launch_misses_elements :
    (∀ G B len : Nat, G * B ≤ 2 ^ 32 →
        ((∀ ii : Nat, ii < len →
            ii ∈ launchIndices { x := G, y := 1, z := 1 } { x := B, y := 1, z := 1 } len)
          ↔ len ≤ G * B))
    ∧ (∀ len B : Nat, 0 < B → len + B ≤ 2 ^ 32 → ∀ ii : Nat, ii < len →
        ii ∈ launchIndices { x := (len + B - 1) / B, y := 1, z := 1 }
          { x := B, y := 1, z := 1 } len)
    ∧ (∃ s2 t2, forall_impl 256 false (List.replicate 10000 ()) 1 Statics.initial []
          = .ok (s2, t2)
        ∧ launches t2 = [({ x := 40, y := 1, z := 1 }, { x := 32, y := 1, z := 1 })])
    ∧ (∀ ii : Nat, ii ∈ launchIndices { x := 40, y := 1, z := 1 } { x := 32, y := 1, z := 1 }
          10000 ↔ ii < 1280)
    ∧ 1280 ∉ launchIndices { x := 40, y := 1, z := 1 } { x := 32, y := 1, z := 1 } 10000 := by
  have hm : ∀ ii : Nat, ii ∈ launchIndices { x := 40, y := 1, z := 1 }
      { x := 32, y := 1, z := 1 } 10000 ↔ ii < 1280 := by
    intro ii
    rw [mem_launchIndices _ _ _ _ (by decide)]
    simp only
    omega
  refine ⟨?_, ?_, ?_, hm, ?_⟩
  · intro G B len h
    constructor
    · intro hall
      by_contra hlt
      have := (mem_launchIndices { x := G, y := 1, z := 1 } { x := B, y := 1, z := 1 } len
        (G * B) h).mp (hall (G * B) (by omega))
      exact absurd this.1 (lt_irrefl _)
    · intro hle ii hii
      exact (mem_launchIndices _ _ _ _ h).mpr ⟨by simp only; omega, by exact_mod_cast hii⟩
  · intro len B hB hsum ii hii
    obtain ⟨h1, h2⟩ := ceil_div_mul_ge len B hB
    exact (mem_launchIndices _ _ _ _ (by simp only; omega)).mpr
      ⟨by simp only; omega, by exact_mod_cast hii⟩
  · have hr : resolveBlockSize 256 1 = .ok 32 := rfl
    have key : ∀ iter : List Unit, iter.length = 10000 →
        ∃ s2 t2, forall_impl 256 false iter 1 Statics.initial [] = .ok (s2, t2)
          ∧ launches t2 = [({ x := 40, y := 1, z := 1 }, { x := 32, y := 1, z := 1 })] := by
      intro iter hlen
      refine ⟨_, _, forall_impl_ok 256 false iter 1 32 Statics.initial []
        (by omega) (by omega) (by decide) (by decide) hr, ?_⟩
      simp [hlen, firstUse, Statics.initial, launches, dim3.ofInt]
    exact key _ (List.length_replicate 10000 ())
  · intro h
    exact absurd ((hm 1280).mp h) (by decide)

/-- Witness of `gpu_launch_misses_elements`: ten elements with block size 4 and
policy index 0 are reached by the three blocks of the launch. -/
theorem gpu_launch_misses_elements_witness :
    (0 < 4 ∧ 10 + 4 ≤ 2 ^ 32)
    ∧ ∀ ii : Nat, ii < 10 →
        ii ∈ launchIndices { x := (10 + 4 - 1) / 4, y := 1, z := 1 }
          { x := 4, y := 1, z := 1 } ((10 : Nat) : Int) :=
  ⟨by decide, gpu_launch_misses_elements.2.1 10 4 (by decide) (by decide)⟩

/-! ### The grid size -/

/-- C32, as stated, fails: with `len = 2 ^ 32` and `blockDim = (1, 1, 1)` the block
size is 1 and `len + block_size - 1 = 2 ^ 32` does not overflow `size_t`, but the
quotient `2 ^ 32` is returned through the `unsigned int` components of `dim3` and
the grid size is 0, which covers nothing. -/
theorem getGridDim_wraps_large_grid :
    getGridDim (2 ^ 32) { x := 1, y := 1, z := 1 } = .ok { x := 0, y := 1, z := 1 }
    ∧ 0 < 1 * 1 * 1 % 2 ^ 32
    ∧ 2 ^ 32 + 1 * 1 * 1 % 2 ^ 32 - 1 < 2 ^ 64
    ∧ ¬ 2 ^ 32 ≤ 0 * (1 * 1 * 1 % 2 ^ 32) := by
  refine ⟨?_, by decide, by decide, by decide⟩
  rfl

/-- C32 (amended): when the block size `block_size` computed by the code is
positive, `len + block_size - 1` does not overflow `size_t` and the quotient fits
the `unsigned int` component of `dim3`, `getGridDim(len, blockDim)` returns the
grid `(g, 1, 1)` with `g` the least number of blocks covering `len`:
`g * block_size >= len`, `g = 0` when `len = 0`, and `g >= 1` with
`(g - 1) * block_size < len` when `len > 0`. -/
theorem getGridDim_least_cover (len : Nat) (blockDim : dim3) (block_size : Nat)
    (hbs : block_size = blockDim.x * blockDim.y * blockDim.z % 2 ^ 32)
    (hpos : 0 < block_size) (hsum : len + block_size - 1 < 2 ^ 64)
    (hfit : (len + block_size - 1) / block_size < 2 ^ 32) :
    ∃ g : Nat, getGridDim len blockDim = .ok { x := g, y := 1, z := 1 }
      ∧ g = (len + block_size - 1) / block_size
      ∧ len ≤ g * block_size
      ∧ (len = 0 → g = 0)
      ∧ (0 < len → 0 < g ∧ (g - 1) * block_size < len) := by
  obtain ⟨h1, h2⟩ := ceil_div_mul_ge len block_size hpos
  have e3 : (len + block_size + (2 ^ 64 - 1)) % 2 ^ 64 = len + block_size - 1 := by omega
  refine ⟨(len + block_size - 1) / block_size, ?_, rfl, h1, ?_, ?_⟩
  · simp only [getGridDim, dim3.ofNat, ← hbs, e3, Nat.mod_eq_of_lt hfit]
    rw [if_neg (by omega)]
  · intro h0
    subst h0
    exact Nat.div_eq_of_lt (by omega)
  · intro hl
    have hg : 0 < (len + block_size - 1) / block_size :=
      Nat.div_pos (by omega) hpos
    refine ⟨hg, ?_⟩
    rw [Nat.sub_mul, Nat.one_mul]
    omega

/-- Witness of `getGridDim_least_cover`: length 10000 with blocks of `16 * 16 * 1` threads. -/
theorem getGridDim_least_cover_witness :
    (256 = 16 * 16 * 1 % 2 ^ 32 ∧ 0 < 256 ∧ 10000 + 256 - 1 < 2 ^ 64
      ∧ (10000 + 256 - 1) / 256 < 2 ^ 32)
    ∧ ∃ g : Nat, getGridDim 10000 { x := 16, y := 16, z := 1 } = .ok { x := g, y := 1, z := 1 }
      ∧ g = (10000 + 256 - 1) / 256
      ∧ 10000 ≤ g * 256
      ∧ (10000 = 0 → g = 0)
      ∧ (0 < 10000 → 0 < g ∧ (g - 1) * 256 < 10000) :=
  ⟨by decide,
    getGridDim_least_cover 10000 { x := 16, y := 16, z := 1 } 256 (by decide) (by decide)
      (by decide) (by decide)⟩

/-! ### Block sizes and the declared maximum -/

/-- C33, as stated, fails: the block size resolved for policy index 18 is
`blockSizeOptions[18] = 2048` and that for index 19 is 4096, both above
`MAX_BLOCK_SIZE = 1024`, and the kernel is launched with them. -/
theorem gpu_tier_above_max_block_size :
    MAX_BLOCK_SIZE = 1024
    ∧ resolveBlockSize 256 18 = .ok 2048
    ∧ resolveBlockSize 256 19 = .ok 4096
    ∧ ¬ (2048 : Int) ≤ MAX_BLOCK_SIZE
    ∧ ¬ (4096 : Int) ≤ MAX_BLOCK_SIZE
    ∧ (∃ s2 t2, forall_impl 256 false [(), (), ()] 18 Statics.initial [] = .ok (s2, t2)
        ∧ launches t2 = [({ x := 1, y := 1, z := 1 }, { x := 2048, y := 1, z := 1 })]) :=
  ⟨rfl, rfl, rfl, by decide, by decide, ⟨_, _, rfl, rfl⟩⟩

/-- C33 (amended): for every policy index `p` in `1..19` the dispatcher resolves the
block size `blockSizeOptions[p]`, whatever the static `BlockSize`; it is at
least `WARP_SIZE = 32` and at most 4096, and it is at most
`MAX_BLOCK_SIZE = 1024` exactly for the indices `1..17`. -/
theorem gpu_tiers_and_max_block_size (BlockSize : Nat) (p : Int) (h1 : 1 ≤ p)
    (h19 : p ≤ 19) :
    ∃ b, blockSizeOptions.get? p.toNat = some b
      ∧ resolveBlockSize BlockSize p = .ok b
      ∧ WARP_SIZE ≤ b ∧ b ≤ 4096
      ∧ (b ≤ MAX_BLOCK_SIZE ↔ p ≤ 17) := by
  interval_cases p <;> exact ⟨_, rfl, rfl, by decide, by decide, by decide⟩

/-- Witness of `gpu_tiers_and_max_block_size`: policy index 17 resolves to 1024. -/
theorem gpu_tiers_and_max_block_size_witness :
    ((1 : Int) ≤ 17 ∧ (17 : Int) ≤ 19)
    ∧ ∃ b, blockSizeOptions.get? (17 : Int).toNat = some b
      ∧ resolveBlockSize 256 17 = .ok b
      ∧ WARP_SIZE ≤ b ∧ b ≤ 4096
      ∧ (b ≤ MAX_BLOCK_SIZE ↔ (17 : Int) ≤ 17) :=
  ⟨by decide, gpu_tiers_and_max_block_size 256 17 (by decide) (by decide)⟩

/-! ### Degenerate requests -/

/-- C34: an invocation on an empty range, or with `BlockSize = 0`, returns after the
first-use block: it calls no region `begin()`, reports no feature, makes no
policy query, no kernel launch, no synchronisation and no region `end()`.  At a
call site whose region exists it appends no event and leaves the `static`
pointer as it was; on the first call its only event is the creation of the
region.  This holds whatever the oracle would have answered. -/
theorem gpu_degenerate_request (BlockSize : Nat) (Async : Bool) (iter : List α) (p : Int)
    (s : Statics) (t : List (Event α)) (h : iter = [] ∨ BlockSize = 0) :
    forall_impl BlockSize Async iter p s t = .ok ((firstUse s t).1, (firstUse s t).2)
    ∧ (∀ R, s.apolloRegion = some R → forall_impl BlockSize Async iter p s t = .ok (s, t))
    ∧ (s.apolloRegion = none →
        forall_impl BlockSize Async iter p s t
          = .ok ({ apolloRegion := some { numFeatures := 1, policyCount := 20 } },
              t ++ [.regionCreate 1 20])) := by
  have hc : ¬ ((0 : Int) < (iter.length : Int) ∧ 0 < BlockSize) := by
    rintro ⟨h1, h2⟩
    rcases h with h | h
    · rw [h] at h1
      simp at h1
    · omega
  have e : forall_impl BlockSize Async iter p s t
      = .ok ((firstUse s t).1, (firstUse s t).2) := by
    unfold forall_impl
    simp only [if_neg hc]
  refine ⟨e, ?_, ?_⟩
  · intro R hR
    rw [e]
    simp [firstUse, hR]
  · intro hN
    rw [e]
    simp [firstUse, hN, POLICY_COUNT]

/-- Witness of `gpu_degenerate_request`: the first call at a call site, on an
empty range with `BlockSize = 256`. -/
theorem gpu_degenerate_request_witness :
    (([] : List Unit) = [] ∨ 256 = 0)
    ∧ forall_impl 256 false ([] : List Unit) 5 Statics.initial []
        = .ok ({ apolloRegion := some { numFeatures := 1, policyCount := 20 } },
            [] ++ [.regionCreate 1 20]) :=
  ⟨Or.inl rfl,
    (gpu_degenerate_request 256 false ([] : List Unit) 5 Statics.initial [] (Or.inl rfl)).2.2
      rfl⟩

end apollo_cuda
end policy
end RAJA

/-! ## Theorems: the AVX2 register of 32-bit integers -/

namespace RAJA
namespace avx2

variable {N : Nat}

/-! ### Wrapping arithmetic and the reduction `sum()` -/

theorem wrap32_of_range (v : Int) (h0 : -2 ^ 31 ≤ v) (h1 : v < 2 ^ 31) : wrap32 v = v := by
  unfold wrap32
  omega

theorem wrap32_add_mul (y t : Int) : wrap32 (y + 2 ^ 32 * t) = wrap32 y := by
  unfold wrap32
  omega

theorem wrap32_eq_add_mul (a : Int) : ∃ k, wrap32 a = a + 2 ^ 32 * k :=
  ⟨-((a + 2 ^ 31) / 2 ^ 32), by unfold wrap32; omega⟩

/-- The low 32 bits of a product depend only on the low 32 bits of its factors. -/
theorem wrap32_mul (a b : Int) : wrap32 (wrap32 a * wrap32 b) = wrap32 (a * b) := by
  obtain ⟨k, hk⟩ := wrap32_eq_add_mul a
  obtain ⟨l, hl⟩ := wrap32_eq_add_mul b
  rw [hk, hl]
  have e : (a + 2 ^ 32 * k) * (b + 2 ^ 32 * l)
      = a * b + 2 ^ 32 * (a * l + k * b + 2 ^ 32 * k * l) := by ring
  rw [e, wrap32_add_mul]

theorem get_out_of_range (r : Register N) (i : Int) (h : i < 0 ∨ 7 < i) : r.get i = 0 := by
  unfold Register.get
  split <;> omega

theorem set_out_of_range (r : Register N) (i v : Int) (h : i < 0 ∨ 7 < i) : r.set i v = r := by
  unfold Register.set
  split <;> first | omega | rfl

/-- C24 at a failing input: `sum()` returns the sum of the `N` elements for
`N = 1, 2, 4, 8` (`get(0)` itself for `N = 1`, the wrapped sum otherwise).  For `N = 3` it returns the wrapped sum of lanes 0 to 3, and
for `N = 5, 6, 7` the wrapped sum of all eight lanes, lanes at positions `>= N`
included: the register of three lanes built from the scalar `1` has
`get(0) + get(1) + get(2) = 3` and `sum() = 4`. -/
theorem sum_adds_lanes_beyond_N :
    (∀ r : Register 1, r.sum = r.get 0)
    ∧ (∀ r : Register 2, r.sum = specSum r)
    ∧ (∀ r : Register 4, r.sum = specSum r)
    ∧ (∀ r : Register 8, r.sum = specSum r)
    ∧ (∀ r : Register 3, r.sum = wrap32 (r.get 0 + r.get 1 + r.get 2 + r.get 3))
    ∧ (∀ r : Register 5, r.sum
        = wrap32 (r.get 0 + r.get 1 + r.get 2 + r.get 3 + r.get 4 + r.get 5 + r.get 6 + r.get 7))
    ∧ (∀ r : Register 6, r.sum
        = wrap32 (r.get 0 + r.get 1 + r.get 2 + r.get 3 + r.get 4 + r.get 5 + r.get 6 + r.get 7))
    ∧ (∀ r : Register 7, r.sum
        = wrap32 (r.get 0 + r.get 1 + r.get 2 + r.get 3 + r.get 4 + r.get 5 + r.get 6 + r.get 7))
    ∧ (Register.ofScalar 1 : Register 3).sum = 4
    ∧ specSum (Register.ofScalar 1 : Register 3) = 3
    ∧ (Register.ofScalar 1 : Register 3).get 0 + (Register.ofScalar 1 : Register 3).get 1
        + (Register.ofScalar 1 : Register 3).get 2 = 3 := by
  refine ⟨?_, ?_, ?_, ?_, ?_, ?_, ?_, ?_, by decide, by decide, by decide⟩ <;>
  · rintro ⟨⟨e0, e1, e2, e3, e4, e5, e6, e7⟩⟩
    simp [Register.sum, specSum, Register.get, addInt, mm256_extract_epi32, mm256_add_epi32,
      mm256_permute_ps, m256i.ofFn, m256i.lane, List.range_succ]
    try (unfold wrap32; omega)

/-! ### Reductions to the largest and the smallest element -/

theorem foldl_max_spec (l : List Int) (a : Int) :
    (l.foldl Max.max a = a ∨ l.foldl Max.max a ∈ l)
    ∧ a ≤ l.foldl Max.max a ∧ ∀ x ∈ l, x ≤ l.foldl Max.max a := by
  induction l generalizing a with
  | nil => simp
  | cons y ys ih =>
    obtain ⟨h1, h2, h3⟩ := ih (Max.max a y)
    refine ⟨?_, ?_, ?_⟩
    · simp only [List.foldl_cons, List.mem_cons]
      rcases h1 with h | h
      · rcases max_choice a y with e | e
        · left
          rw [h, e]
        · right
          left
          rw [h, e]
      · right
        right
        exact h
    · exact le_trans (le_max_left a y) h2
    · intro x hx
      rcases List.mem_cons.mp hx with e | e
      · rw [e]
        exact le_trans (le_max_right a y) h2
      · exact h3 x e

theorem foldl_min_spec (l : List Int) (a : Int) :
    (l.foldl Min.min a = a ∨ l.foldl Min.min a ∈ l)
    ∧ l.foldl Min.min a ≤ a ∧ ∀ x ∈ l, l.foldl Min.min a ≤ x := by
  induction l generalizing a with
  | nil => simp
  | cons y ys ih =>
    obtain ⟨h1, h2, h3⟩ := ih (Min.min a y)
    refine ⟨?_, ?_, ?_⟩
    · simp only [List.foldl_cons, List.mem_cons]
      rcases h1 with h | h
      · rcases min_choice a y with e | e
        · left
          rw [h, e]
        · right
          left
          rw [h, e]
      · right
        right
        exact h
    · exact le_trans h2 (min_le_left a y)
    · intro x hx
      rcases List.mem_cons.mp hx with e | e
      · rw [e]
        exact le_trans h2 (min_le_right a y)
      · exact h3 x e

theorem lane_ofFn (f : Nat → Int) (i : Nat) (h : i < 8) : (m256i.ofFn f).lane i = f i := by
  interval_cases i <;> rfl

theorem lane_set_epi32 (e7 e6 e5 e4 e3 e2 e1 e0 : Int) (i : Nat) :
    (mm256_set_epi32 e7 e6 e5 e4 e3 e2 e1 e0).lane i
      = [e0, e1, e2, e3, e4, e5, e6, e7].getD i 0 := by
  rcases i with _ | _ | _ | _ | _ | _ | _ | _ | i <;> rfl

theorem std_max_eq (a b : Int) : std_max a b = Max.max a b := by
  unfold std_max
  omega

theorem std_min_eq (a b : Int) : std_min a b = Min.min a b := by
  unfold std_min
  omega

set_option maxHeartbeats 1600000 in
/-- For every lane count the reduction `max()` computes the largest of the first `N` lanes. -/
theorem max_eq_specMax (N : Nat) (h1 : 1 ≤ N) (h8 : N ≤ 8) (r : Register N) :
    r.max = specMax r := by
  interval_cases N <;>
    simp [Register.max, specMax, std_max_eq, Register.createPermute1, Register.createPermute2,
      mm256_permutevar8x32_epi32, mm256_max_epi32, mm256_extract_epi32, Register.get,
      lane_ofFn, lane_set_epi32, List.range_succ] <;>
    ac_rfl

set_option maxHeartbeats 1600000 in
/-- For every lane count the reduction `min()` computes the smallest of the first `N` lanes. -/
theorem min_eq_specMin (N : Nat) (h1 : 1 ≤ N) (h8 : N ≤ 8) (r : Register N) :
    r.min = specMin r := by
  interval_cases N <;>
    simp [Register.min, specMin, std_min_eq, Register.createPermute1, Register.createPermute2,
      mm256_permutevar8x32_epi32, mm256_min_epi32, mm256_extract_epi32, Register.get,
      lane_ofFn, lane_set_epi32, List.range_succ] <;>
    ac_rfl

/-- C25: for every lane count `N` in `1..8` and every content of the eight lanes,
`max()` is one of the elements `get(0), ..., get(N-1)` and no one of them is
larger; two registers that agree on these `N` elements have the same `max()`,
whatever their lanes at positions `>= N` hold. -/
theorem max_is_largest_element (N : Nat) (h1 : 1 ≤ N) (h8 : N ≤ 8) (r : Register N) :
    (∃ i : Nat, i < N ∧ r.max = r.get i)
    ∧ (∀ i : Nat, i < N → r.get i ≤ r.max)
    ∧ (∀ r2 : Register N, (∀ i : Nat, i < N → r2.get i = r.get i) → r2.max = r.max) := by
  obtain ⟨hm, h0, hl⟩ := foldl_max_spec ((List.range N).map fun i : Nat => r.get i) (r.get 0)
  refine ⟨?_, ?_, ?_⟩
  · rw [max_eq_specMax N h1 h8 r]
    rcases hm with h | h
    · exact ⟨0, by omega, h⟩
    · obtain ⟨i, hi, e⟩ := List.mem_map.mp h
      exact ⟨i, List.mem_range.mp hi, e.symm⟩
  · intro i hi
    rw [max_eq_specMax N h1 h8 r]
    exact hl _ (List.mem_map.mpr ⟨i, List.mem_range.mpr hi, rfl⟩)
  · intro r2 h
    rw [max_eq_specMax N h1 h8 r, max_eq_specMax N h1 h8 r2]
    unfold specMax
    have e0 : r2.get 0 = r.get 0 := h 0 (by omega)
    have el : ((List.range N).map fun i : Nat => r2.get i)
        = (List.range N).map fun i : Nat => r.get i :=
      List.map_congr_left fun i hi => h i (List.mem_range.mp hi)
    rw [e0, el]

/-- Witness of `max_is_largest_element`: three lanes holding `5, -2, 9`, the other
lanes holding `100`. -/
theorem max_is_largest_element_witness :
    (1 ≤ 3 ∧ 3 ≤ 8)
    ∧ (∃ i : Nat, i < 3 ∧
        (Register.mk (mm256_set_epi32 100 100 100 100 100 9 (-2) 5) : Register 3).max
          = (Register.mk (mm256_set_epi32 100 100 100 100 100 9 (-2) 5) : Register 3).get i)
    ∧ (Register.mk (mm256_set_epi32 100 100 100 100 100 9 (-2) 5) : Register 3).max = 9 :=
  ⟨by decide,
    (max_is_largest_element 3 (by decide) (by decide)
      (Register.mk (mm256_set_epi32 100 100 100 100 100 9 (-2) 5))).1,
    by decide⟩

/-- C26: for every lane count `N` in `1..8` and every content of the eight lanes,
`min()` is one of the elements `get(0), ..., get(N-1)` and no one of them is
smaller; two registers that agree on these `N` elements have the same `min()`,
whatever their lanes at positions `>= N` hold. -/
theorem min_is_smallest_element (N : Nat) (h1 : 1 ≤ N) (h8 : N ≤ 8) (r : Register N) :
    (∃ i : Nat, i < N ∧ r.min = r.get i)
    ∧ (∀ i : Nat, i < N → r.min ≤ r.get i)
    ∧ (∀ r2 : Register N, (∀ i : Nat, i < N → r2.get i = r.get i) → r2.min = r.min) := by
  obtain ⟨hm, h0, hl⟩ := foldl_min_spec ((List.range N).map fun i : Nat => r.get i) (r.get 0)
  refine ⟨?_, ?_, ?_⟩
  · rw [min_eq_specMin N h1 h8 r]
    rcases hm with h | h
    · exact ⟨0, by omega, h⟩
    · obtain ⟨i, hi, e⟩ := List.mem_map.mp h
      exact ⟨i, List.mem_range.mp hi, e.symm⟩
  · intro i hi
    rw [min_eq_specMin N h1 h8 r]
    exact hl _ (List.mem_map.mpr ⟨i, List.mem_range.mpr hi, rfl⟩)
  · intro r2 h
    rw [min_eq_specMin N h1 h8 r, min_eq_specMin N h1 h8 r2]
    unfold specMin
    have e0 : r2.get 0 = r.get 0 := h 0 (by omega)
    have el : ((List.range N).map fun i : Nat => r2.get i)
        = (List.range N).map fun i : Nat => r.get i :=
      List.map_congr_left fun i hi => h i (List.mem_range.mp hi)
    rw [e0, el]

/-- Witness of `min_is_smallest_element`: five lanes holding `5, -2, 9, 4, 7`, the
other lanes holding `-100`. -/
theorem min_is_smallest_element_witness :
    (1 ≤ 5 ∧ 5 ≤ 8)
    ∧ (∃ i : Nat, i < 5 ∧
        (Register.mk (mm256_set_epi32 (-100) (-100) (-100) 7 4 9 (-2) 5) : Register 5).min
          = (Register.mk (mm256_set_epi32 (-100) (-100) (-100) 7 4 9 (-2) 5) : Register 5).get i)
    ∧ (Register.mk (mm256_set_epi32 (-100) (-100) (-100) 7 4 9 (-2) 5) : Register 5).min
        = -2 :=
  ⟨by decide,
    (min_is_smallest_element 5 (by decide) (by decide)
      (Register.mk (mm256_set_epi32 (-100) (-100) (-100) 7 4 9 (-2) 5))).1,
    by decide⟩

/-! ### Element-wise operations -/

theorem get_eq_lane (r : Register N) (i : Nat) (h : i < 8) : r.get i = r.m_value.lane i := by
  interval_cases i <;> rfl

/-- C27: for all registers `a` and `b` and every lane `i` in `0..7`, lane `i` of
`a.multiply(b)` is the product of the two lanes `i` reduced to 32 bits, for odd
lanes as for even lanes. -/
theorem multiply_lanes (a b : Register N) (i : Int) (h0 : 0 ≤ i) (h7 : i ≤ 7) :
    (a.multiply b).get i = wrap32 (a.get i * b.get i) := by
  interval_cases i <;>
    simp [Register.multiply, Register.get, mm256_extract_epi32, mm256_blend_epi32,
      mm256_permute_ps, mm256_mul_epi32, lane_ofFn, wrap32_mul]

/-- Witness of `multiply_lanes` at the odd lane 3, with a product that overflows 32 bits. -/
theorem multiply_lanes_witness :
    (0 ≤ (3 : Int) ∧ (3 : Int) ≤ 7)
    ∧ ((Register.mk (mm256_set_epi32 8 7 6 5 65536 3 2 1) : Register 8).multiply
          (Register.mk (mm256_set_epi32 1 1 1 1 65537 1 1 1))).get 3
        = wrap32 ((Register.mk (mm256_set_epi32 8 7 6 5 65536 3 2 1) : Register 8).get 3
            * (Register.mk (mm256_set_epi32 1 1 1 1 65537 1 1 1) : Register 8).get 3)
    ∧ ((Register.mk (mm256_set_epi32 8 7 6 5 65536 3 2 1) : Register 8).multiply
          (Register.mk (mm256_set_epi32 1 1 1 1 65537 1 1 1))).get 3 = 65536 :=
  ⟨by decide,
    multiply_lanes (Register.mk (mm256_set_epi32 8 7 6 5 65536 3 2 1))
      (Register.mk (mm256_set_epi32 1 1 1 1 65537 1 1 1)) 3 (by decide) (by decide),
    by decide⟩

theorem index_cases (j : Int) :
    (j < 0 ∨ 7 < j) ∨ j = 0 ∨ j = 1 ∨ j = 2 ∨ j = 3 ∨ j = 4 ∨ j = 5 ∨ j = 6 ∨ j = 7 := by
  omega

theorem set_get_same (r : Register N) (i v : Int) (h0 : 0 ≤ i) (h7 : i ≤ 7) :
    (r.set i v).get i = v := by
  interval_cases i <;>
    simp [Register.set, Register.get, mm256_extract_epi32, mm256_insert_epi32, lane_ofFn]

theorem set_get_other (r : Register N) (i j v : Int) (h : j ≠ i) :
    (r.set i v).get j = r.get j := by
  rcases index_cases i with hi | hi | hi | hi | hi | hi | hi | hi | hi
  · rw [set_out_of_range r i v hi]
  all_goals
    subst hi
    rcases index_cases j with hj | hj | hj | hj | hj | hj | hj | hj | hj
    · rw [get_out_of_range _ j hj, get_out_of_range _ j hj]
    all_goals
      subst hj
      first
        | exact absurd rfl h
        | simp [Register.set, Register.get, mm256_extract_epi32, mm256_insert_epi32, lane_ofFn]

/-- C28: `set(i, v)` followed by `get(i)` gives `v` for `i` in `0..7` and leaves
`get(j)` unchanged for every `j ≠ i`; for `i` outside `0..7`, `get(i)` is `0` and
`set(i, v)` leaves the register unchanged; a default-constructed register has
`get(i) = 0` for every `i`; a register constructed from the scalar `c`, or
after `broadcast(c)`, has `get(i) = c` for every `i` in `0..7`. -/
theorem get_set_laws (r : Register N) (i v c : Int) :
    (0 ≤ i ∧ i ≤ 7 → (r.set i v).get i = v)
    ∧ (∀ j : Int, j ≠ i → (r.set i v).get j = r.get j)
    ∧ (i < 0 ∨ 7 < i → r.get i = 0 ∧ r.set i v = r)
    ∧ (Register.default : Register N).get i = 0
    ∧ (0 ≤ i ∧ i ≤ 7 →
        (Register.ofScalar c : Register N).get i = c ∧ (r.broadcast c).get i = c) := by
  refine ⟨fun h => set_get_same r i v h.1 h.2, fun j hj => set_get_other r i j v hj,
    fun h => ⟨get_out_of_range r i h, set_out_of_range r i v h⟩, ?_, ?_⟩
  · rcases index_cases i with hi | hi | hi | hi | hi | hi | hi | hi | hi
    · exact get_out_of_range _ i hi
    all_goals
      subst hi
      rfl
  · rintro ⟨h0, h7⟩
    interval_cases i <;> exact ⟨rfl, rfl⟩

/-- Witness of `get_set_laws`: lane 4 of a register of six lanes set to `-9`, and
the index `8` outside the register. -/
theorem get_set_laws_witness :
    ((0 ≤ (4 : Int) ∧ (4 : Int) ≤ 7)
      ∧ ((Register.mk (mm256_set_epi32 8 7 6 5 4 3 2 1) : Register 6).set 4 (-9)).get 4 = -9)
    ∧ (((8 : Int) < 0 ∨ 7 < (8 : Int))
      ∧ (Register.mk (mm256_set_epi32 8 7 6 5 4 3 2 1) : Register 6).get 8 = 0
      ∧ (Register.mk (mm256_set_epi32 8 7 6 5 4 3 2 1) : Register 6).set 8 (-9)
          = Register.mk (mm256_set_epi32 8 7 6 5 4 3 2 1)) :=
  ⟨⟨by decide,
      (get_set_laws (Register.mk (mm256_set_epi32 8 7 6 5 4 3 2 1)) 4 (-9) 0).1 (by decide)⟩,
    by decide,
    (get_set_laws (Register.mk (mm256_set_epi32 8 7 6 5 4 3 2 1)) 8 (-9) 0).2.2.1 (by decide)⟩

/-! ### Division -/

theorem quotient_ok (a b : Register N) (k : Nat)
    (h : k < N → b.get k ≠ 0 ∧ ¬ (a.get k = -2 ^ 31 ∧ b.get k = -1)) :
    a.quotient b k = .ok (if k < N then Int.tdiv (a.get k) (b.get k) else 0) := by
  unfold Register.quotient divInt
  by_cases hk : k < N
  · obtain ⟨h1, h2⟩ := h hk
    rw [if_pos (by omega), if_neg h1, if_neg h2, if_pos hk]
  · rw [if_neg (by omega), if_neg hk]

/-- C29: for every lane count `N` in `1..8` and registers `a`, `b` with
`b[i] ≠ 0` and `(a[i], b[i]) ≠ (INT_MIN, -1)` for every `i < N`, `a.divide(b)`
returns a register whose lane `i` is the truncating quotient `a[i] / b[i]` for
every `i < N` and `0` for every `i` with `N ≤ i ≤ 7`; nothing is required of
the lanes of `b` at positions `>= N`, which are not used as divisors. -/
theorem divide_lanes (N : Nat) (h1 : 1 ≤ N) (h8 : N ≤ 8) (a b : Register N)
    (h : ∀ i : Nat, i < N → b.get i ≠ 0 ∧ ¬ (a.get i = -2 ^ 31 ∧ b.get i = -1)) :
    ∃ q, a.divide b = .ok q
      ∧ (∀ i : Nat, i < N → q.get i = Int.tdiv (a.get i) (b.get i))
      ∧ (∀ i : Nat, N ≤ i → i ≤ 7 → q.get i = 0) := by
  have hd : a.divide b = .ok
      { m_value := mm256_set_epi32
          (if 7 < N then Int.tdiv (a.get (7 : Nat)) (b.get (7 : Nat)) else 0)
          (if 6 < N then Int.tdiv (a.get (6 : Nat)) (b.get (6 : Nat)) else 0)
          (if 5 < N then Int.tdiv (a.get (5 : Nat)) (b.get (5 : Nat)) else 0)
          (if 4 < N then Int.tdiv (a.get (4 : Nat)) (b.get (4 : Nat)) else 0)
          (if 3 < N then Int.tdiv (a.get (3 : Nat)) (b.get (3 : Nat)) else 0)
          (if 2 < N then Int.tdiv (a.get (2 : Nat)) (b.get (2 : Nat)) else 0)
          (if 1 < N then Int.tdiv (a.get (1 : Nat)) (b.get (1 : Nat)) else 0)
          (if 0 < N then Int.tdiv (a.get (0 : Nat)) (b.get (0 : Nat)) else 0) } := by
    simp only [Register.divide, quotient_ok a b _ (h _), bind, Except.bind, pure, Except.pure]
  refine ⟨_, hd, ?_, ?_⟩
  · intro i hi
    have hi8 : i < 8 := by omega
    interval_cases i <;>
      simp [Register.get, mm256_extract_epi32, lane_set_epi32, hi]
  · intro i hi hi7
    have hn : ¬ i < N := by omega
    interval_cases i <;>
      simp [Register.get, mm256_extract_epi32, lane_set_epi32, hn]

/-- Witness of `divide_lanes`: three lanes, with zero divisors in the lanes beyond them. -/
theorem divide_lanes_witness :
    (1 ≤ 3 ∧ 3 ≤ 8)
    ∧ ∃ q, (Register.mk (mm256_set_epi32 1 1 1 1 1 (-7) 7 (-2147483648)) : Register 3).divide
          (Register.mk (mm256_set_epi32 0 0 0 0 0 2 (-2) 1)) = .ok q
      ∧ (∀ i : Nat, i < 3 → q.get i
          = Int.tdiv ((Register.mk (mm256_set_epi32 1 1 1 1 1 (-7) 7 (-2147483648))
                : Register 3).get i)
              ((Register.mk (mm256_set_epi32 0 0 0 0 0 2 (-2) 1) : Register 3).get i))
      ∧ (∀ i : Nat, 3 ≤ i → i ≤ 7 → q.get i = 0) :=
  ⟨by decide,
    divide_lanes 3 (by decide) (by decide)
      (Register.mk (mm256_set_epi32 1 1 1 1 1 (-7) 7 (-2147483648)))
      (Register.mk (mm256_set_epi32 0 0 0 0 0 2 (-2) 1))
      (by
        intro i hi
        interval_cases i <;> decide)⟩

/-! ### Strided load and store -/

theorem scatter_miss (r : Register N) (s n i : Nat) (ptr : Int → Int) (k : Int)
    (h : ∀ j : Nat, i ≤ j → j < i + n → k ≠ ((j * s % 2 ^ 64 : Nat) : Int)) :
    Register.scatter r s n i ptr k = ptr k := by
  induction n generalizing i ptr with
  | zero => rfl
  | succ n ih =>
    unfold Register.scatter
    rw [ih (i + 1) _ (fun j hj1 hj2 => h j (by omega) (by omega))]
    exact if_neg (h i le_rfl (by omega))

theorem scatter_hit (r : Register N) (s n i : Nat) (ptr : Int → Int) (j : Nat) (hs : 1 ≤ s)
    (hb : ∀ l : Nat, l < i + n → l * s < 2 ^ 64) (hij : i ≤ j) (hjn : j < i + n) :
    Register.scatter r s n i ptr ((j * s : Nat) : Int) = r.get j := by
  induction n generalizing i ptr with
  | zero => omega
  | succ n ih =>
    unfold Register.scatter
    by_cases hj : j = i
    · subst hj
      rw [scatter_miss]
      · rw [Nat.mod_eq_of_lt (hb j (by omega))]
        simp
      · intro l hl1 hl2
        rw [Nat.mod_eq_of_lt (hb l (by omega))]
        have : j * s < l * s := Nat.mul_lt_mul_of_pos_right (by omega) (by omega)
        omega
    · exact ih (i + 1) _ (fun l hl => hb l (by omega)) (by omega) (by omega)

theorem mask_lane (N i : Nat) (h1 : 1 ≤ N) (h8 : i < 8) :
    (Register.createMask N).lane i = if i < N then -1 else 0 := by
  unfold Register.createMask
  rw [lane_set_epi32]
  by_cases h : i < N
  · rw [if_pos h]
    interval_cases i <;> simp <;> omega
  · rw [if_neg h]
    interval_cases i <;> simp <;> omega

theorem offsets_lane (s : Int) (i : Nat) (h8 : i < 8) :
    (Register.createStridedOffsets s).lane i = wrap32 (i * s) := by
  unfold Register.createStridedOffsets
  rw [lane_set_epi32]
  interval_cases i <;> simp [wrap32]

/-- The lanes after `load(ptr, stride)` when the offsets `i * stride` of the first
`N` lanes fit in an `int`. -/
theorem load_lanes (N s : Nat) (h1 : 1 ≤ N)
    (hoff : ∀ i : Nat, i < N → i * s < 2 ^ 31)
    (r : Register N) (p : Int → Int) (i : Nat) (hi : i < 8) :
    (r.load p s).get i = if i < N then p ((i * s : Nat) : Int) else 0 := by
  rw [get_eq_lane _ i hi]
  have hw : i < N → wrap32 (wrap32 ((i : Int) * (s : Int))) * ((4 : Nat) : Int) / 4
      = ((i * s : Nat) : Int) := by
    intro h
    have := hoff i h
    have e : ((i : Int) * (s : Int)) = ((i * s : Nat) : Int) := by push_cast; ring
    rw [e, wrap32_of_range (wrap32 _) (by unfold wrap32; omega) (by unfold wrap32; omega),
      wrap32_of_range _ (by omega) (by omega)]
    omega
  unfold Register.load
  by_cases hN : N = 8
  · have hiN : i < N := by omega
    rw [if_pos hN, if_pos hiN]
    by_cases hs : s = 1
    · subst hs
      simp [mm256_loadu_si256, lane_ofFn _ i hi]
    · have hs2 : ¬ (s : Int) = 1 := by exact_mod_cast hs
      rw [if_neg hs2]
      simp only [mm256_i32gather_epi32, lane_ofFn _ i hi, offsets_lane _ i hi, hw hiN]
  · rw [if_neg hN]
    by_cases hs : s = 1
    · subst hs
      by_cases hiN : i < N <;>
        simp [mm256_maskload_epi32, lane_ofFn _ i hi, mask_lane N i h1 hi, hiN]
    · have hs2 : ¬ (s : Int) = 1 := by exact_mod_cast hs
      rw [if_neg hs2]
      simp only [mm256_mask_i32gather_epi32, lane_ofFn _ i hi, mask_lane N i h1 hi,
        offsets_lane _ i hi]
      by_cases hiN : i < N
      · rw [if_pos hiN, if_pos (by decide), hw hiN, if_pos hiN]
      · rw [if_neg hiN, if_neg (by decide), if_neg hiN]
        simp [mm256_setzero_si256, lane_ofFn _ i hi]

theorem store_hit (N s : Nat) (h1 : 1 ≤ N) (h8 : N ≤ 8) (hs : 1 ≤ s)
    (hoff : ∀ i : Nat, i < N → i * s < 2 ^ 64) (r : Register N) (q : Int → Int) (i : Nat)
    (hi : i < N) : r.store q s ((i * s : Nat) : Int) = r.get i := by
  unfold Register.store
  by_cases h : s = 1
  · subst h
    rw [if_pos rfl, Nat.mul_one, get_eq_lane r i (by omega)]
    by_cases hN : N = 8
    · rw [if_pos hN]
      unfold mm256_storeu_epi32
      rw [if_pos (by omega), Int.toNat_ofNat]
    · rw [if_neg hN]
      unfold mm256_maskstore_epi32
      rw [Int.toNat_ofNat, mask_lane N i h1 (by omega), if_pos hi,
        if_pos ⟨by omega, by omega, by decide⟩]
  · rw [if_neg h]
    exact scatter_hit r s N 0 q i hs
      (fun l hl => hoff l (by omega)) (by omega) (by omega)

theorem store_miss (N s : Nat) (h1 : 1 ≤ N)
    (hoff : ∀ i : Nat, i < N → i * s < 2 ^ 64) (r : Register N) (q : Int → Int) (k : Int)
    (hk : ∀ i : Nat, i < N → k ≠ ((i * s : Nat) : Int)) : r.store q s k = q k := by
  unfold Register.store
  by_cases h : s = 1
  · subst h
    rw [if_pos rfl]
    by_cases hN : N = 8
    · rw [if_pos hN]
      unfold mm256_storeu_epi32
      rw [if_neg]
      rintro ⟨k0, k8⟩
      exact hk k.toNat (by omega) (by omega)
    · rw [if_neg hN]
      unfold mm256_maskstore_epi32
      rw [if_neg]
      rintro ⟨k0, k8, km⟩
      rw [mask_lane N k.toNat h1 (by omega)] at km
      by_cases hkN : k.toNat < N
      · exact hk k.toNat hkN (by omega)
      · rw [if_neg hkN] at km
        exact absurd km (by decide)
  · rw [if_neg h]
    apply scatter_miss
    intro j _ hj
    rw [Nat.mod_eq_of_lt (hoff j (by omega))]
    exact hk j (by omega)

theorem offsets_bound (N s b : Nat) (h : (N - 1) * s < b) (i : Nat) (hi : i < N) :
    i * s < b :=
  lt_of_le_of_lt (Nat.mul_le_mul_right s (by omega)) h

/-- C30 at a failing input.  When the offsets `i * s` of the first `N` lanes fit in
an `int`, `load(p, s)` leaves `p[i*s]` in lane `i` for `i < N` and `0` in the
lanes `N ≤ i ≤ 7`; `store(q, s)` writes `q[i*s] = get(i)` for `i < N` and no other
element; so `load(p, s)` followed by `store(q, s)` copies the `N` strided
elements.  The load passes the offsets through the `int` parameters of
`_mm256_set_epi32`: with `N = 2` and `s = 2 ^ 31` lane 1 is loaded from `p[-2 ^ 31]`,
not from `p[2 ^ 31]`. -/
theorem strided_load_truncates_offsets :
    (∀ (N s : Nat) (r : Register N) (p : Int → Int),
        1 ≤ N → N ≤ 8 → 1 ≤ s → (N - 1) * s < 2 ^ 31 →
        (∀ i : Nat, i < N → (r.load p s).get i = p ((i * s : Nat) : Int))
        ∧ (∀ i : Nat, N ≤ i → i ≤ 7 → (r.load p s).get i = 0))
    ∧ (∀ (N s : Nat) (r : Register N) (q : Int → Int),
        1 ≤ N → N ≤ 8 → 1 ≤ s → (N - 1) * s < 2 ^ 64 →
        (∀ i : Nat, i < N → r.store q s ((i * s : Nat) : Int) = r.get i)
        ∧ (∀ k : Int, (∀ i : Nat, i < N → k ≠ ((i * s : Nat) : Int)) → r.store q s k = q k))
    ∧ (∀ (N s : Nat) (r : Register N) (p q : Int → Int),
        1 ≤ N → N ≤ 8 → 1 ≤ s → (N - 1) * s < 2 ^ 31 →
        (∀ i : Nat, i < N →
          (r.load p s).store q s ((i * s : Nat) : Int) = p ((i * s : Nat) : Int))
        ∧ (∀ k : Int, (∀ i : Nat, i < N → k ≠ ((i * s : Nat) : Int)) →
            (r.load p s).store q s k = q k))
    ∧ ((Register.default : Register 2).load (fun k => if k = 2147483648 then 7 else 0)
          2147483648).get 1 = 0
    ∧ (fun k : Int => if k = 2147483648 then (7 : Int) else 0) (1 * 2147483648) = 7
    ∧ ((Register.default : Register 2).load (fun k => if k = -2147483648 then 5 else 0)
          2147483648).get 1 = 5 := by
  refine ⟨?_, ?_, ?_, by decide, by decide, by decide⟩
  · intro N s r p h1 h8 _ hoff
    refine ⟨fun i hi => ?_, fun i hi hi7 => ?_⟩
    · rw [load_lanes N s h1 (offsets_bound N s _ hoff) r p i (by omega), if_pos hi]
    · rw [load_lanes N s h1 (offsets_bound N s _ hoff) r p i (by omega), if_neg (by omega)]
  · intro N s r q h1 h8 hs hoff
    exact ⟨fun i hi => store_hit N s h1 h8 hs (offsets_bound N s _ hoff) r q i hi,
      fun k hk => store_miss N s h1 (offsets_bound N s _ hoff) r q k hk⟩
  · intro N s r p q h1 h8 hs hoff
    have h64 : ∀ i : Nat, i < N → i * s < 2 ^ 64 := fun i hi =>
      lt_trans (offsets_bound N s _ hoff i hi) (by decide)
    refine ⟨fun i hi => ?_, fun k hk => store_miss N s h1 h64 _ q k hk⟩
    rw [store_hit N s h1 h8 hs h64 _ q i hi,
      load_lanes N s h1 (offsets_bound N s _ hoff) r p i (by omega), if_pos hi]

/-- Witness of `strided_load_truncates_offsets`: three lanes loaded with stride 2
from the array `p[k] = k + 10`. -/
theorem strided_load_truncates_offsets_witness :
    (1 ≤ 3 ∧ 3 ≤ 8 ∧ 1 ≤ 2 ∧ (3 - 1) * 2 < 2 ^ 31)
    ∧ (∀ i : Nat, i < 3 →
        ((Register.default : Register 3).load (fun k => k + 10) (2 : Nat)).get i
          = (fun k : Int => k + 10) ((i * 2 : Nat) : Int))
    ∧ ((Register.default : Register 3).load (fun k => k + 10) 2).get 2 = 14 :=
  ⟨by decide,
    (strided_load_truncates_offsets.1 3 2 Register.default (fun k => k + 10) (by decide)
      (by decide) (by decide) (by decide)).1,
    by decide⟩

end avx2
end RAJA
